import Mathlib

/-!
# Raft consensus task (interface/task030/main.go): embedding and properties

The Go program is translated function by function; the anagram task
(algo/task002/main.go) follows in the namespace `Anagram`.  Conventions:

* `int64` and `int` values are Lean `Int` / `Nat`.  A term is an `int64` that a
  request can set to any value, so the increment `currentTerm++` of
  `startElection` is wrapped to 64 bits (`wrap64`), as is the election timeout
  computed from two configured durations.  Indices and counts are bounded by
  the number of entries and peers held in memory and are not wrapped.
* A run-time panic is the result `none`; a panic ends the process.
* Every handler (`RequestVote`, `AppendEntries`, `InstallSnapshot`) runs under
  the node mutex and is one atomic state transformer
  `RaftNode → Request → RaftNode × Response`.  `resetElectionTimer` touches the
  timer only: it calls `randomElectionTimeout` only on a node whose timer
  loop has already called it once with the same configuration.
* `startElection` and `Propose` release the mutex in the middle; they are
  split into the pieces that run between two lock operations
  (`startElectionBegin`, `startElectionFinish`, `proposeAppend`,
  `proposeFinish`).  `Propose`, `startElectionResponses` and `startElection`
  put the pieces of one call together, with no other call on the node in
  between.
* A node that wins an election launches `sendHeartbeats`, which creates a
  ticker from `HeartbeatInterval` (`sendHeartbeatsStart`).
* `time.Now()` is an explicit `Nat` argument.
* The external `StateMachine` is represented by the list of calls the node has
  made on it, oldest first.
* A cluster is a family of nodes indexed by `Fin k`, created with the
  configuration of `main`; every node has all the others as peers.  An
  election is split into its start, one step per peer asked, and its end, so
  that elections of different nodes interleave; `Propose` with its calls on the
  peers is one step.
-/

namespace Raft

/-! ## Data model -/

/-- The three roles of `NodeState`. -/
inductive NodeState where
  | StateFollower
  | StateCandidate
  | StateLeader
  deriving DecidableEq, Repr

/-- The dynamic type of `LogEntry.Command` (`interface{}`): either a
`map[string]string` or any other value, carried as text. -/
inductive Command where
  | text (s : String)
  | kv (m : List (String × String))
  deriving DecidableEq, Repr

/-- Go struct `LogEntry`. -/
structure LogEntry where
  Index : Int
  Term : Int
  Command : Command
  Timestamp : Nat
  deriving DecidableEq, Repr

/-- Go struct `Snapshot`. -/
structure Snapshot where
  LastIncludedIndex : Int
  LastIncludedTerm : Int
  Data : List Nat
  Timestamp : Nat
  deriving DecidableEq, Repr

/-- Go struct `VoteRequest`. -/
structure VoteRequest where
  Term : Int
  CandidateID : String
  LastLogIndex : Int
  LastLogTerm : Int
  deriving DecidableEq, Repr

/-- Go struct `VoteResponse`. -/
structure VoteResponse where
  Term : Int
  VoteGranted : Bool
  deriving DecidableEq, Repr

/-- Go struct `AppendEntriesRequest`. -/
structure AppendEntriesRequest where
  Term : Int
  LeaderID : String
  PrevLogIndex : Int
  PrevLogTerm : Int
  Entries : List LogEntry
  LeaderCommit : Int
  deriving DecidableEq, Repr

/-- Go struct `AppendEntriesResponse`; the two conflict hints keep their zero
value in every response the code builds. -/
structure AppendEntriesResponse where
  Term : Int
  Success : Bool
  ConflictTerm : Int := 0
  ConflictIndex : Int := 0
  deriving DecidableEq, Repr

/-- Go struct `SnapshotRequest`. -/
structure SnapshotRequest where
  Term : Int
  LeaderID : String
  LastIncludedIndex : Int
  LastIncludedTerm : Int
  Offset : Int
  Data : List Nat
  Done : Bool
  deriving DecidableEq, Repr

/-- Go struct `SnapshotResponse`. -/
structure SnapshotResponse where
  Term : Int
  deriving DecidableEq, Repr

/-- Go type `MemberStatus`. -/
inductive MemberStatus where
  | MemberStatusAlive
  | MemberStatusSuspect
  | MemberStatusDead
  deriving DecidableEq, Repr

/-- Go type `MemberRole`. -/
inductive MemberRole where
  | MemberRoleVoter
  | MemberRoleNonVoter
  | MemberRoleLearner
  deriving DecidableEq, Repr

/-- Go struct `Member`. -/
structure Member where
  ID : String
  Address : String
  Status : MemberStatus
  Role : MemberRole
  JoinedAt : Nat
  deriving DecidableEq, Repr

/-- Go struct `ConsensusConfig`; durations are nanosecond counts. -/
structure ConsensusConfig where
  NodeID : String
  ElectionTimeoutMin : Int := 0
  ElectionTimeoutMax : Int := 0
  HeartbeatInterval : Int := 0
  SnapshotInterval : Int := 0
  MaxEntriesPerAppend : Int := 0
  MaxSnapshotSize : Int := 0
  deriving DecidableEq, Repr

/-! ## InMemoryLogStore -/

/-- Go struct `InMemoryLogStore`: the slice `entries`. -/
structure InMemoryLogStore where
  entries : List LogEntry := []
  deriving DecidableEq, Repr

namespace InMemoryLogStore

/-- `Append`: `s.entries = append(s.entries, entries...)`. -/
def Append (s : InMemoryLogStore) (entries : List LogEntry) : InMemoryLogStore :=
  { entries := s.entries ++ entries }

/-- `Get`: `none` is the `out of range` error. -/
def Get (s : InMemoryLogStore) (index : Int) : Option LogEntry :=
  if index < 1 ∨ index > (s.entries.length : Int) then none
  else s.entries.get? (index - 1).toNat

/-- `GetLastIndex`: `int64(len(s.entries))`. -/
def GetLastIndex (s : InMemoryLogStore) : Int :=
  (s.entries.length : Int)

/-- `GetLastTerm`: term of the last stored entry, `0` on an empty store. -/
def GetLastTerm (s : InMemoryLogStore) : Int :=
  match s.entries.getLast? with
  | none => 0
  | some e => e.Term

end InMemoryLogStore

/-! ## InMemorySnapshotStore -/

/-- Go struct `InMemorySnapshotStore`: the slice `snapshots`. -/
structure InMemorySnapshotStore where
  snapshots : List Snapshot := []
  deriving DecidableEq, Repr

namespace InMemorySnapshotStore

/-- `Save`: append the snapshot. -/
def Save (s : InMemorySnapshotStore) (snap : Snapshot) : InMemorySnapshotStore :=
  { snapshots := s.snapshots ++ [snap] }

end InMemorySnapshotStore

/-! ## MembershipManager -/

/-- Go struct `MembershipManager`: the map `members`, kept as an association
list with at most one member per ID. -/
structure MembershipManager where
  members : List Member := []
  deriving DecidableEq, Repr

namespace MembershipManager

/-- `NewMembershipManager`: the empty map. -/
def NewMembershipManager : MembershipManager :=
  { members := [] }

/-- `AddMember`: `m.members[member.ID] = member` (replaces a member with the
same ID). -/
def AddMember (m : MembershipManager) (member : Member) : MembershipManager :=
  { members := m.members.filter (fun x => x.ID ≠ member.ID) ++ [member] }

/-- `RemoveMember`: `delete(m.members, nodeID)`. -/
def RemoveMember (m : MembershipManager) (nodeID : String) : MembershipManager :=
  { members := m.members.filter (fun x => x.ID ≠ nodeID) }

/-- The counter `voters` of `GetQuorum`: members that are voter and alive. -/
def aliveVoters (m : MembershipManager) : Nat :=
  (m.members.filter (fun x =>
    x.Role = MemberRole.MemberRoleVoter ∧ x.Status = MemberStatus.MemberStatusAlive)).length

/-- `GetQuorum`: `voters/2 + 1`. -/
def GetQuorum (m : MembershipManager) : Nat :=
  m.aliveVoters / 2 + 1

end MembershipManager

/-! ## RaftNode -/

/-- One call made on the external `StateMachine`. -/
inductive SMCall where
  | Apply (entry : LogEntry)
  | RestoreSnapshot (snapshot : List Nat)
  deriving DecidableEq, Repr

/-- Go struct `RaftNode`.  `stateMachine` is the history of calls made on the
state machine; the peer pointers are part of the cluster (see `Cluster`); the
timer and the cancel function carry no protocol state. -/
structure RaftNode where
  config : ConsensusConfig
  state : NodeState
  currentTerm : Int
  votedFor : String
  leader : String
  log : InMemoryLogStore
  snapshots : InMemorySnapshotStore
  membership : MembershipManager
  commitIndex : Int
  lastApplied : Int
  stateMachine : List SMCall
  deriving DecidableEq, Repr

/-- `min64`. -/
def min64 (a b : Int) : Int :=
  if a < b then a else b

/-- The value of an `int64` computation: the integer taken into the range
`-2^63 .. 2^63 - 1`. -/
def wrap64 (x : Int) : Int :=
  (x + 2 ^ 63) % 2 ^ 64 - 2 ^ 63

/-- `time.NewTicker(d)`: a run-time panic (`none`) unless `d` is positive. -/
def NewTicker (d : Int) : Option Unit :=
  if d ≤ 0 then none else some ()

/-- The largest `int64`, `math.MaxInt64`. -/
def maxInt64 : Int :=
  9223372036854775807

/-- The smallest `int64`, `math.MinInt64`. -/
def minInt64 : Int :=
  -9223372036854775808

namespace RaftNode

/-- `NewRaftNode`: follower, zero term, empty stores, itself as the only
member; `sm` is the history of the state machine handed in. -/
def NewRaftNode (config : ConsensusConfig) (sm : List SMCall) (now : Nat) : RaftNode :=
  { config := config
    state := NodeState.StateFollower
    currentTerm := 0
    votedFor := ""
    leader := ""
    log := {}
    snapshots := {}
    membership := MembershipManager.AddMember MembershipManager.NewMembershipManager
      (Member.mk config.NodeID "" MemberStatus.MemberStatusAlive MemberRole.MemberRoleVoter now)
    commitIndex := 0
    lastApplied := 0
    stateMachine := sm }

/-- `AddNode`: add an alive voter to the membership table. -/
def AddNode (n : RaftNode) (nodeID address : String) (now : Nat) : RaftNode :=
  let member : Member :=
    Member.mk nodeID address MemberStatus.MemberStatusAlive MemberRole.MemberRoleVoter now
  { n with membership := n.membership.AddMember member }

/-- `RemoveNode`. -/
def RemoveNode (n : RaftNode) (nodeID : String) : RaftNode :=
  { n with membership := n.membership.RemoveMember nodeID }

/-- `RequestVote` (lines 482-502). -/
def RequestVote (n : RaftNode) (req : VoteRequest) : RaftNode × VoteResponse :=
  if req.Term < n.currentTerm then
    (n, { Term := n.currentTerm, VoteGranted := false })
  else
    let n1 : RaftNode :=
      if req.Term > n.currentTerm then
        { n with currentTerm := req.Term, state := NodeState.StateFollower, votedFor := "" }
      else n
    let lastTerm := n1.log.GetLastTerm
    let lastIdx := n1.log.GetLastIndex
    let logOK : Bool :=
      decide (req.LastLogTerm > lastTerm) ||
        (decide (req.LastLogTerm = lastTerm) && decide (req.LastLogIndex ≥ lastIdx))
    if (n1.votedFor = "" ∨ n1.votedFor = req.CandidateID) ∧ logOK = true then
      ({ n1 with votedFor := req.CandidateID }, { Term := n1.currentTerm, VoteGranted := true })
    else
      (n1, { Term := n1.currentTerm, VoteGranted := false })

/-- The apply loop of `AppendEntries` (lines 521-526), one iteration per unit
of fuel: `for n.lastApplied < n.commitIndex { n.lastApplied++; ... }`. -/
def applyCommitted : Nat → RaftNode → RaftNode
  | 0, n => n
  | fuel + 1, n =>
    if n.lastApplied < n.commitIndex then
      let n1 : RaftNode := { n with lastApplied := n.lastApplied + 1 }
      let n2 : RaftNode :=
        match n1.log.Get n1.lastApplied with
        | some e => { n1 with stateMachine := n1.stateMachine ++ [SMCall.Apply e] }
        | none => n1
      applyCommitted fuel n2
    else n

/-- `AppendEntries` (lines 504-529).  The loop gets as much fuel as the
distance it has to cover. -/
def AppendEntries (n : RaftNode) (req : AppendEntriesRequest) :
    RaftNode × AppendEntriesResponse :=
  if req.Term < n.currentTerm then
    (n, { Term := n.currentTerm, Success := false })
  else
    let n1 : RaftNode :=
      { n with currentTerm := req.Term, state := NodeState.StateFollower, leader := req.LeaderID }
    let n2 : RaftNode :=
      if req.Entries.length > 0 then { n1 with log := n1.log.Append req.Entries } else n1
    let n3 : RaftNode :=
      if req.LeaderCommit > n2.commitIndex then
        let n21 : RaftNode :=
          { n2 with commitIndex := min64 req.LeaderCommit n2.log.GetLastIndex }
        applyCommitted (n21.commitIndex - n21.lastApplied).toNat n21
      else n2
    (n3, { Term := n3.currentTerm, Success := true })

/-- `InstallSnapshot` (lines 531-546). -/
def InstallSnapshot (n : RaftNode) (req : SnapshotRequest) (now : Nat) :
    RaftNode × SnapshotResponse :=
  if req.Term < n.currentTerm then
    (n, { Term := n.currentTerm })
  else
    let snap : Snapshot :=
      { LastIncludedIndex := req.LastIncludedIndex
        LastIncludedTerm := req.LastIncludedTerm
        Data := req.Data
        Timestamp := now }
    ({ n with snapshots := n.snapshots.Save snap
              stateMachine := n.stateMachine ++ [SMCall.RestoreSnapshot req.Data] },
     { Term := n.currentTerm })

/-- First locked section of `startElection` (lines 406-413): the node after
it and the vote request sent to every peer.  `n.currentTerm++` is an `int64`
increment: at `math.MaxInt64` it wraps around to `math.MinInt64`. -/
def startElectionBegin (n : RaftNode) : RaftNode × VoteRequest :=
  let n1 : RaftNode :=
    { n with currentTerm := wrap64 (n.currentTerm + 1)
             state := NodeState.StateCandidate
             votedFor := n.config.NodeID }
  (n1, { Term := n1.currentTerm, CandidateID := n.config.NodeID,
         LastLogIndex := n1.log.GetLastIndex, LastLogTerm := n1.log.GetLastTerm })

/-- Last locked section of `startElection` (lines 441-450), whatever state the
node is in by then: `votes` counts the self vote and the granted peers,
`quorum` was read at line 416, `term` is the term the election was started in.
The goroutine launched at line 446 in the first branch is `sendHeartbeatsStart`. -/
def startElectionFinish (n : RaftNode) (votes quorum : Nat) (term : Int) : RaftNode :=
  if votes ≥ quorum ∧ n.currentTerm = term then
    { n with state := NodeState.StateLeader, leader := n.config.NodeID }
  else
    { n with state := NodeState.StateFollower }

/-- The condition of line 442, under which `startElection` makes the node
leader and launches `sendHeartbeats`. -/
def electionWon (n : RaftNode) (votes quorum : Nat) (term : Int) : Bool :=
  decide (votes ≥ quorum ∧ n.currentTerm = term)

/-- The start of `sendHeartbeats` (lines 453-455), the goroutine that
`startElection` launches at line 446 once the node is leader.  It creates its
ticker from `config.HeartbeatInterval`; `none` is the panic of `time.NewTicker`,
raised unless the interval is positive, which ends the process. -/
def sendHeartbeatsStart (n : RaftNode) : Option Unit :=
  NewTicker n.config.HeartbeatInterval

/-- The entry `Propose` builds (lines 557-562). -/
def proposeEntry (n : RaftNode) (command : Command) (now : Nat) : LogEntry :=
  { Index := n.log.GetLastIndex + 1, Term := n.currentTerm, Command := command, Timestamp := now }

/-- The request `Propose` sends to every peer (lines 575-581). -/
def proposeRequest (n : RaftNode) (entry : LogEntry) : AppendEntriesRequest :=
  { Term := entry.Term, LeaderID := n.config.NodeID
    PrevLogIndex := entry.Index - 1, PrevLogTerm := entry.Term
    Entries := [entry], LeaderCommit := n.commitIndex }

/-- The local append of `Propose` (line 563), made after the node mutex has
been released at line 555. -/
def proposeAppend (n : RaftNode) (entry : LogEntry) : RaftNode :=
  { n with log := n.log.Append [entry] }

/-- The end of `Propose` (lines 591-597), whatever state the node is in by
then: commit and apply when `replicated` reaches the quorum read at line 566.
The two markers are assigned without a comparison with their present value. -/
def proposeFinish (n : RaftNode) (entry : LogEntry) (replicated quorum : Nat) : RaftNode :=
  if replicated ≥ quorum then
    { n with commitIndex := entry.Index, lastApplied := entry.Index
             stateMachine := n.stateMachine ++ [SMCall.Apply entry] }
  else n

/-- `Propose` (lines 548-599) run without another call on the node in
between, as seen by the proposing node: `acks` is the number of peers that
answered `Success = true`.  The second component is the returned error, `none`
for `nil`. -/
def Propose (n : RaftNode) (command : Command) (now : Nat) (acks : Nat) :
    RaftNode × Option String :=
  if n.state ≠ NodeState.StateLeader then
    (n, some ("not leader; current leader: " ++ n.leader))
  else
    let entry := proposeEntry n command now
    let n1 : RaftNode := proposeAppend n entry
    (proposeFinish n1 entry (1 + acks) n1.membership.GetQuorum, none)

end RaftNode

/-! ## One node under an arbitrary environment -/

/-- The calls a single node can receive.  For `electionFinish` the vote
count, the quorum read earlier and the election term are whatever the election
goroutine holds; for `propose` the number of acknowledging peers is whatever
the peers answered. -/
inductive NodeOp where
  | requestVote (req : VoteRequest)
  | appendEntries (req : AppendEntriesRequest)
  | installSnapshot (req : SnapshotRequest) (now : Nat)
  | electionBegin
  | electionFinish (votes quorum : Nat) (term : Int)
  | propose (command : Command) (now : Nat) (acks : Nat)
  | addNode (nodeID address : String) (now : Nat)
  | removeNode (nodeID : String)
  deriving DecidableEq, Repr

/-- The node after one call, run as one step; `electionBegin` and
`electionFinish` are the two locked sections of `startElection`. -/
def NodeOp.run (n : RaftNode) : NodeOp → RaftNode
  | NodeOp.requestVote req => (n.RequestVote req).1
  | NodeOp.appendEntries req => (n.AppendEntries req).1
  | NodeOp.installSnapshot req now => (n.InstallSnapshot req now).1
  | NodeOp.electionBegin => n.startElectionBegin.1
  | NodeOp.electionFinish votes quorum term => n.startElectionFinish votes quorum term
  | NodeOp.propose command now acks => (n.Propose command now acks).1
  | NodeOp.addNode nodeID address now => n.AddNode nodeID address now
  | NodeOp.removeNode nodeID => n.RemoveNode nodeID

/-- Node states that a freshly created node can get into. -/
inductive Reachable : RaftNode → Prop where
  | init (config : ConsensusConfig) (sm : List SMCall) (now : Nat) :
      Reachable (RaftNode.NewRaftNode config sm now)
  | step (n : RaftNode) (op : NodeOp) : Reachable n → Reachable (op.run n)

/-- The votes a call makes the node give: the candidate it grants a
`RequestVote` to, or itself when it starts an election, each with the term the
vote is cast in. -/
def NodeOp.votes (n : RaftNode) : NodeOp → List (Int × String)
  | NodeOp.requestVote req =>
    if (n.RequestVote req).2.VoteGranted = true then
      [((n.RequestVote req).1.currentTerm, req.CandidateID)]
    else []
  | NodeOp.electionBegin => [(n.startElectionBegin.1.currentTerm, n.config.NodeID)]
  | _ => []

/-- The call does not overflow the term: an election is not started when
`currentTerm` is already `math.MaxInt64`, where `currentTerm++` wraps around. -/
def NodeOp.noWrap (n : RaftNode) : NodeOp → Bool
  | NodeOp.electionBegin => decide (n.currentTerm < maxInt64)
  | _ => true

/-- No call of the sequence overflows the term. -/
def opsNoWrap : RaftNode → List NodeOp → Bool
  | _, [] => true
  | n, op :: ops => op.noWrap n && opsNoWrap (op.run n) ops

/-- All votes given during a sequence of calls, oldest first. -/
def votesGiven : RaftNode → List NodeOp → List (Int × String)
  | _, [] => []
  | n, op :: ops => op.votes n ++ votesGiven (op.run n) ops

/-- The entries stored at positions `lo + 1 .. hi` of a log, in order. -/
def entriesBetween (log : InMemoryLogStore) (lo hi : Int) : List LogEntry :=
  (log.entries.drop lo.toNat).take (hi - lo).toNat

/-- What holds of the commit and apply markers in every reachable node. -/
def NodeInv (n : RaftNode) : Prop :=
  n.lastApplied = n.commitIndex ∧ 0 ≤ n.commitIndex ∧ n.commitIndex ≤ n.log.GetLastIndex

/-- The commit index an accepted `AppendEntries` ends with (lines 518-519). -/
def newCommit (n : RaftNode) (req : AppendEntriesRequest) : Int :=
  if req.LeaderCommit > n.commitIndex then
    min64 req.LeaderCommit (n.log.Append req.Entries).GetLastIndex
  else n.commitIndex

/-- Every marker of `n2` is at least the marker of `n1`. -/
def NoDecrease (n1 n2 : RaftNode) : Prop :=
  n1.currentTerm ≤ n2.currentTerm ∧ n1.commitIndex ≤ n2.commitIndex ∧
    n1.lastApplied ≤ n2.lastApplied

/-! ## Concrete nodes and requests used as examples -/

/-- The configuration of `main`: 150 ms to 300 ms election timeout, 50 ms
heartbeat, in nanoseconds. -/
def mainConfig (nodeID : String) : ConsensusConfig :=
  { NodeID := nodeID, ElectionTimeoutMin := 150000000, ElectionTimeoutMax := 300000000
    HeartbeatInterval := 50000000, SnapshotInterval := 100, MaxEntriesPerAppend := 10 }

/-- A node as `NewRaftNode` returns it from the configuration of `main`, named
`n1`, with an empty state machine history. -/
def freshNode : RaftNode :=
  RaftNode.NewRaftNode (mainConfig "n1") [] 0

/-- A first log entry. -/
def entry1 : LogEntry :=
  { Index := 1, Term := 1, Command := Command.text "set x=1", Timestamp := 0 }

/-- A second log entry. -/
def entry2 : LogEntry :=
  { Index := 2, Term := 1, Command := Command.text "set x=2", Timestamp := 0 }

/-- A request of leader `n2` in term `term` carrying `entries`. -/
def appendReq (term prevLogIndex prevLogTerm : Int) (entries : List LogEntry)
    (leaderCommit : Int) : AppendEntriesRequest :=
  { Term := term, LeaderID := "n2", PrevLogIndex := prevLogIndex, PrevLogTerm := prevLogTerm
    Entries := entries, LeaderCommit := leaderCommit }

/-- The node `n1` after it stored two uncommitted entries. -/
def nodeWithTwo : RaftNode :=
  (freshNode.AppendEntries (appendReq 1 0 0 [entry1, entry2] 0)).1

/-- The node `n1` after it voted for `b` in term 1. -/
def nodeVotedB : RaftNode :=
  (freshNode.RequestVote { Term := 1, CandidateID := "b", LastLogIndex := 0, LastLogTerm := 0 }).1

/-- The term-2 vote request of candidate `c`, whose log is empty. -/
def voteReqC : VoteRequest :=
  { Term := 2, CandidateID := "c", LastLogIndex := 0, LastLogTerm := 0 }

/-- A snapshot request of term 0 from leader `n2`. -/
def snapshotReq : SnapshotRequest :=
  { Term := 0, LeaderID := "n2", LastIncludedIndex := 2, LastIncludedTerm := 1
    Offset := 0, Data := [1, 2, 3], Done := true }

/-- A replacement candidate for position 1, written in term 2. -/
def entry1b : LogEntry :=
  { Index := 1, Term := 2, Command := Command.text "set x=9", Timestamp := 0 }

/-- The node `n1` after it stored `entry1` alone, uncommitted. -/
def nodeWithOne : RaftNode :=
  (freshNode.AppendEntries (appendReq 1 0 0 [entry1] 0)).1

/-! ## A cluster of nodes that are each other's peers -/

/-- The local variables of a running `startElection` between its two locked
sections: the request built from `term`, `lastIdx`, `lastTerm` (lines 410-412),
`quorum` (line 416), `votes` (lines 415 and 435) and the peers whose goroutine has
not called `RequestVote` yet. -/
structure ElectionRun (k : Nat) where
  request : VoteRequest
  quorum : Nat
  votes : Nat
  waiting : List (Fin k)
  deriving DecidableEq

/-- A node of the cluster together with the election it is running, if any. -/
structure ClusterNode (k : Nat) where
  node : RaftNode
  election : Option (ElectionRun k)
  deriving DecidableEq

/-- A cluster of `k` nodes. -/
abbrev Cluster (k : Nat) : Type := Fin k → ClusterNode k

/-- The peer map of node `i`: every other node, as `main` wires it. -/
def peersOf {k : Nat} (i : Fin k) : List (Fin k) :=
  (List.finRange k).filter (fun j => j ≠ i)

/-- The steps of a cluster; each runs one locked section or one handler. -/
inductive Action (k : Nat) where
  | electionStart (i : Fin k)
  | voteDeliver (i j : Fin k)
  | electionFinish (i : Fin k)
  | appendDeliver (j : Fin k) (req : AppendEntriesRequest)
  | propose (i : Fin k) (command : Command) (now : Nat)
  deriving DecidableEq

/-- Node `i` of a new cluster: `NewRaftNode` with the configuration of `main`
followed by `AddNode` for every peer, as in `main`. -/
def wiredNode {k : Nat} (ids : Fin k → String) (i : Fin k) : RaftNode :=
  (peersOf i).foldl (fun n j => n.AddNode (ids j) "" 0)
    (RaftNode.NewRaftNode (mainConfig (ids i)) [] 0)

/-- The cluster `main` builds from the node IDs, before any timer fires. -/
def Cluster.init {k : Nat} (ids : Fin k → String) : Cluster k :=
  fun i => { node := wiredNode ids i, election := none }

/-- The peers that answer `Success = true` to a request, counted as
`replicated` counts them in `Propose` (lines 582-586). -/
def ackCount {k : Nat} (s : Cluster k) (i : Fin k) (req : AppendEntriesRequest) : Nat :=
  ((peersOf i).filter (fun j => ((s j).node.AppendEntries req).2.Success)).length

/-- One step of the cluster; `none` when the step cannot happen in `s` or ends
the process.

* `electionStart i`: the timer of `i` fires while it is not leader and
  `startElection` runs up to line 416.
* `voteDeliver i j`: one goroutine of the election of `i` calls
  `j.RequestVote` and counts the answer.
* `electionFinish i`: all goroutines are done and lines 441-450 run; a node
  that becomes leader launches `sendHeartbeats`, whose panic ends the process.
* `appendDeliver j req`: `j.AppendEntries req` for any request.
* `propose i`: `i.Propose`, with the calls on all peers. -/
def Cluster.step {k : Nat} (s : Cluster k) : Action k → Option (Cluster k)
  | Action.electionStart i =>
    if (s i).election = none ∧ (s i).node.state ≠ NodeState.StateLeader then
      let n1 := (s i).node.startElectionBegin.1
      let run : ElectionRun k :=
        { request := (s i).node.startElectionBegin.2
          quorum := n1.membership.GetQuorum
          votes := 1
          waiting := peersOf i }
      some (Function.update s i { node := n1, election := some run })
    else none
  | Action.voteDeliver i j =>
    match (s i).election with
    | none => none
    | some run =>
      if j ∈ run.waiting then
        let answer := (s j).node.RequestVote run.request
        let run1 : ElectionRun k :=
          { run with votes := if answer.2.VoteGranted = true then run.votes + 1 else run.votes
                     waiting := run.waiting.erase j }
        let s1 := Function.update s j { (s j) with node := answer.1 }
        some (Function.update s1 i { (s1 i) with election := some run1 })
      else none
  | Action.electionFinish i =>
    match (s i).election with
    | none => none
    | some run =>
      if run.waiting = [] then
        if (s i).node.electionWon run.votes run.quorum run.request.Term = true ∧
            (s i).node.sendHeartbeatsStart = none then none
        else
          some (Function.update s i
            { node := (s i).node.startElectionFinish run.votes run.quorum run.request.Term
              election := none })
      else none
  | Action.appendDeliver j req =>
    some (Function.update s j { (s j) with node := ((s j).node.AppendEntries req).1 })
  | Action.propose i command now =>
    if (s i).node.state = NodeState.StateLeader then
      let entry := (s i).node.proposeEntry command now
      let req := (s i).node.proposeRequest entry
      let acks := ackCount s i req
      some (fun j =>
        if j = i then { (s i) with node := ((s i).node.Propose command now acks).1 }
        else { (s j) with node := ((s j).node.AppendEntries req).1 })
    else some s

/-- The cluster after a sequence of steps, oldest first. -/
def Cluster.run {k : Nat} (s : Cluster k) : List (Action k) → Option (Cluster k)
  | [] => some s
  | a :: rest =>
    match s.step a with
    | none => none
    | some s1 => Cluster.run s1 rest

/-- The states a new cluster with the given node IDs can get into. -/
def Cluster.Reachable {k : Nat} (ids : Fin k → String) (s : Cluster k) : Prop :=
  ∃ actions, (Cluster.init ids).run actions = some s

/-- The step does not overflow the term: an election is not started by a node
whose `currentTerm` is already `math.MaxInt64`, where `currentTerm++` wraps
around. -/
def Action.noWrap {k : Nat} (s : Cluster k) : Action k → Bool
  | Action.electionStart i => decide ((s i).node.currentTerm < maxInt64)
  | _ => true

/-- The cluster after a sequence of steps none of which overflows the term;
`none` when a step cannot happen or would overflow. -/
def Cluster.runNoWrap {k : Nat} (s : Cluster k) : List (Action k) → Option (Cluster k)
  | [] => some s
  | a :: rest =>
    if a.noWrap s = true then
      match s.step a with
      | none => none
      | some s1 => Cluster.runNoWrap s1 rest
    else none

/-- The states a new cluster gets into while no `currentTerm` overflows. -/
def Cluster.ReachableNoWrap {k : Nat} (ids : Fin k → String) (s : Cluster k) : Prop :=
  ∃ actions, (Cluster.init ids).runNoWrap actions = some s

/-- Node IDs of a three-node cluster one of whose nodes has the empty ID. -/
def idsWithEmpty : Fin 3 → String :=
  ![ "", "b", "c" ]

/-- Both `0` and `1` start an election in term 1, node `2` is asked by `0`
first and then by `1`, and both elections finish. -/
def twoLeadersRun : List (Action 3) :=
  [ Action.electionStart 0, Action.electionStart 1,
    Action.voteDeliver 0 2, Action.voteDeliver 1 2,
    Action.voteDeliver 0 1, Action.voteDeliver 1 0,
    Action.electionFinish 0, Action.electionFinish 1 ]

/-- The nodes recorded as having voted for candidate `c` in term `T`; `voted`
is the record, kept by the proofs only, of whom each node has voted for in
each term. -/
def votersOf {k : Nat} (voted : Fin k → Int → Option (Fin k)) (T : Int) (c : Fin k) :
    Finset (Fin k) :=
  Finset.univ.filter (fun j => voted j T = some c)

/-- What ties a cluster state to the record of votes cast so far. -/
structure ElectionInv {k : Nat} (ids : Fin k → String) (s : Cluster k)
    (voted : Fin k → Int → Option (Fin k)) : Prop where
  config : ∀ i, (s i).node.config.NodeID = ids i
  quorum : ∀ i, (s i).node.membership.GetQuorum = k / 2 + 1
  past : ∀ j T c, voted j T = some c → T ≤ (s j).node.currentTerm
  current : ∀ j c, voted j (s j).node.currentTerm = some c → (s j).node.votedFor = ids c
  running : ∀ i run, (s i).election = some run →
    run.request.CandidateID = ids i ∧ run.quorum = k / 2 + 1 ∧ run.waiting.Nodup ∧
      i ∉ run.waiting ∧
      run.votes ≤ (Finset.univ.filter
        (fun j => j ∉ run.waiting ∧ voted j run.request.Term = some i)).card
  leader : ∀ i, (s i).node.state = NodeState.StateLeader →
    k / 2 + 1 ≤ (votersOf voted (s i).node.currentTerm i).card
  lower : ∀ i, minInt64 ≤ (s i).node.currentTerm

/-- The record `w` extends the record `v`: no recorded vote is changed. -/
def VotedLE {k : Nat} (v w : Fin k → Int → Option (Fin k)) : Prop :=
  ∀ j T c, v j T = some c → w j T = some c

/-- The cluster after a sequence of steps, or the start state when a step of
the sequence cannot happen. -/
def Cluster.runD {k : Nat} (s : Cluster k) (actions : List (Action k)) : Cluster k :=
  (s.run actions).getD s

/-- Node IDs of a three-node cluster. -/
def idsABC : Fin 3 → String :=
  ![ "a", "b", "c" ]

/-- Node `0` starts an election, is granted both peers' votes, and wins. -/
def electRun : List (Action 3) :=
  [ Action.electionStart 0, Action.voteDeliver 0 1, Action.voteDeliver 0 2,
    Action.electionFinish 0 ]

/-- Calls on `n1`: it starts the election of term 1, refuses `n2` in that
term, grants `n2` in term 2, is moved to term 3 by a heartbeat and grants `n2`
again. -/
def votingOps : List NodeOp :=
  [ NodeOp.electionBegin,
    NodeOp.requestVote { Term := 1, CandidateID := "n2", LastLogIndex := 0, LastLogTerm := 0 },
    NodeOp.requestVote { Term := 2, CandidateID := "n2", LastLogIndex := 0, LastLogTerm := 0 },
    NodeOp.appendEntries (appendReq 3 0 0 [] 0),
    NodeOp.requestVote { Term := 3, CandidateID := "n2", LastLogIndex := 0, LastLogTerm := 0 } ]

/-- Two term-1 vote requests, the first from a candidate whose ID is empty. -/
def emptyIdOps : List NodeOp :=
  [ NodeOp.requestVote { Term := 1, CandidateID := "", LastLogIndex := 0, LastLogTerm := 0 },
    NodeOp.requestVote { Term := 1, CandidateID := "b", LastLogIndex := 0, LastLogTerm := 0 } ]

/-- After `electRun`: leader `0` proposes `set x=1`, which both peers store
uncommitted; then `1` starts the election of term 2 and wins it. -/
def leaderChangeRun : List (Action 3) :=
  electRun ++
    [ Action.propose 0 (Command.text "set x=1") 0,
      Action.electionStart 1, Action.voteDeliver 1 0, Action.voteDeliver 1 2,
      Action.electionFinish 1 ]

/-- After `leaderChangeRun` the new leader `1` proposes `set y=2`. -/
def skippingRun : List (Action 3) :=
  leaderChangeRun ++ [ Action.propose 1 (Command.text "set y=2") 0 ]

/-- Leader `0` of term 1 proposes `set x=1` while `2` has already started the
election of term 2, so `2` rejects the entry; the election of `2` fails, `1`
wins term 3 and proposes `set y=2`, which `2` appends to its empty log. -/
def divergingRun : List (Action 3) :=
  electRun ++
    [ Action.electionStart 2,
      Action.propose 0 (Command.text "set x=1") 0,
      Action.voteDeliver 2 0, Action.voteDeliver 2 1, Action.electionFinish 2,
      Action.electionStart 1, Action.voteDeliver 1 0, Action.voteDeliver 1 2,
      Action.electionFinish 1,
      Action.propose 1 (Command.text "set y=2") 0 ]

/-- A heartbeat of leader `n2` carrying the largest term. -/
def maxTermHeartbeat : AppendEntriesRequest :=
  appendReq maxInt64 0 0 [] 0

/-- Nodes `0` and `1` both start the election of term 1; `2` votes for `0`,
which wins.  Then `2` receives a heartbeat carrying `math.MaxInt64` and starts
an election, which wraps its term to `math.MinInt64`; asked by `1`, it now
takes term 1 for a newer term, forgets its vote and votes for `1`, which wins
term 1 as well. -/
def wrapLeadersRun : List (Action 3) :=
  [ Action.electionStart 0, Action.electionStart 1,
    Action.voteDeliver 0 2, Action.voteDeliver 0 1, Action.electionFinish 0,
    Action.voteDeliver 1 0,
    Action.appendDeliver 2 maxTermHeartbeat, Action.electionStart 2,
    Action.voteDeliver 1 2, Action.electionFinish 1 ]

/-- Calls on `n1`: it grants `b` in term 1, is moved to `math.MaxInt64` by a
heartbeat, starts an election, which wraps its term to `math.MinInt64`, and is
asked by `c` for term 1. -/
def wrapOps : List NodeOp :=
  [ NodeOp.requestVote { Term := 1, CandidateID := "b", LastLogIndex := 0, LastLogTerm := 0 },
    NodeOp.appendEntries maxTermHeartbeat,
    NodeOp.electionBegin,
    NodeOp.requestVote { Term := 1, CandidateID := "c", LastLogIndex := 0, LastLogTerm := 0 } ]

/-- After `electRun`, `1` and `2` are moved to `math.MaxInt64` by heartbeats
and refuse the entry `A` that leader `0` proposes in term 1; both start an
election, which wraps their terms to `math.MinInt64`; the election of `2`
fails, a heartbeat of term 0 reaches `2`, and `2` starts the election of term
1, is voted for by `1` and proposes `B`. -/
def wrapEntriesRun : List (Action 3) :=
  electRun ++
    [ Action.appendDeliver 1 maxTermHeartbeat, Action.appendDeliver 2 maxTermHeartbeat,
      Action.propose 0 (Command.text "A") 0,
      Action.electionStart 2, Action.electionStart 1,
      Action.voteDeliver 2 0, Action.voteDeliver 2 1, Action.electionFinish 2,
      Action.appendDeliver 2 (appendReq 0 0 0 [] 0),
      Action.electionStart 2, Action.voteDeliver 2 1, Action.voteDeliver 2 0,
      Action.electionFinish 2,
      Action.propose 2 (Command.text "B") 0 ]

/-- The log matching property as the claim states it: when two logs hold an
entry with the same index and term (at positions `p + 1` and `q + 1`), the
entries before those positions are the same. -/
def LogMatching {k : Nat} (s : Cluster k) : Prop :=
  ∀ (a b : Fin k) (p q : Nat) (ea eb : LogEntry),
    (s a).node.log.entries.get? p = some ea → (s b).node.log.entries.get? q = some eb →
    ea.Index = eb.Index → ea.Term = eb.Term →
    (s a).node.log.entries.take p = (s b).node.log.entries.take q

/-- Steps in which log entries travel only inside `Propose`: a separately
delivered `AppendEntries` request is a heartbeat, without entries. -/
def Action.entriesByPropose {k : Nat} : Action k → Bool
  | Action.appendDeliver _ req => req.Entries.isEmpty
  | _ => true

/-- The states a new cluster gets into when entries travel only inside
`Propose` and no `currentTerm` overflows. -/
def Cluster.ReachableByPropose {k : Nat} (ids : Fin k → String) (s : Cluster k) : Prop :=
  ∃ actions, (∀ a ∈ actions, Action.entriesByPropose a = true) ∧
    (Cluster.init ids).runNoWrap actions = some s

/-- Every stored entry was created by a node that had a quorum of votes in the
entry's term, and that node still stores it at the position the entry's index
names. -/
def LogInv {k : Nat} (s : Cluster k) (voted : Fin k → Int → Option (Fin k)) : Prop :=
  ∀ x, ∀ e ∈ (s x).node.log.entries,
    ∃ L, k / 2 + 1 ≤ (votersOf voted e.Term L).card ∧ (s L).node.log.Get e.Index = some e

/-! ## Further operations of the log store and of the node -/

/-- `GetRange` (lines 133-143): `none` is the run-time panic of the slice
expression `s.entries[from-1:to]`, which Go raises unless
`0 ≤ from-1 ≤ to ≤ cap(s.entries)`; after the clamping `to ≤ len(s.entries)`,
so only the first two bounds can fail. -/
def InMemoryLogStore.GetRange (s : InMemoryLogStore) (from_ to_ : Int) :
    Option (List LogEntry) :=
  let from1 : Int := if from_ < 1 then 1 else from_
  let to1 : Int := if to_ > (s.entries.length : Int) then (s.entries.length : Int) else to_
  if 0 ≤ from1 - 1 ∧ from1 - 1 ≤ to1 then
    some ((s.entries.drop (from1 - 1).toNat).take (to1 - (from1 - 1)).toNat)
  else none

/-- The `AppendEntries` calls `Propose` makes (lines 570-588): none when the
node is not leader, because `Propose` has returned at line 552, and one per
peer otherwise. -/
def RaftNode.proposeCalls {P : Type} (n : RaftNode) (peers : List P) (command : Command)
    (now : Nat) : List (P × AppendEntriesRequest) :=
  if n.state ≠ NodeState.StateLeader then []
  else peers.map (fun p => (p, n.proposeRequest (n.proposeEntry command now)))

/-- `Propose` with the peers' responses spelled out: `replicated` starts at 1
and grows by one for every response with `Success` (lines 567 and 582-586);
no other field of a response is read. -/
def RaftNode.ProposeResponses (n : RaftNode) (command : Command) (now : Nat)
    (responses : List AppendEntriesResponse) : RaftNode × Option String :=
  n.Propose command now (responses.filter (fun r => r.Success)).length

/-- `startElection` (lines 405-451) run without another handler in between,
with the peers' responses spelled out: `votes` starts at 1 and grows by one for
every response with `VoteGranted` (lines 415 and 431-436); no other field of a
response is read. -/
def RaftNode.startElectionResponses (n : RaftNode) (responses : List VoteResponse) :
    RaftNode :=
  let n1 := n.startElectionBegin.1
  n1.startElectionFinish (1 + (responses.filter (fun r => r.VoteGranted)).length)
    n1.membership.GetQuorum n1.currentTerm

/-- `startElection` (lines 405-451) run without another call on the node in
between, together with the start of the goroutine it launches at line 446:
`none` when `time.NewTicker` panics there, which ends the process. -/
def RaftNode.startElection (n : RaftNode) (responses : List VoteResponse) :
    Option RaftNode :=
  let n1 := n.startElectionBegin.1
  let votes := 1 + (responses.filter (fun r => r.VoteGranted)).length
  let quorum := n1.membership.GetQuorum
  if n1.electionWon votes quorum n1.currentTerm = true then
    match n1.sendHeartbeatsStart with
    | none => none
    | some _ => some (n1.startElectionFinish votes quorum n1.currentTerm)
  else some (n1.startElectionFinish votes quorum n1.currentTerm)

/-- One tick of `sendHeartbeats` (lines 460-477): the request sent to every
peer, or `none` when the node is no longer leader and the loop ends.  The
responses are dropped by `go peer.AppendEntries(...)`, and the node is only
read. -/
def RaftNode.heartbeatRequest (n : RaftNode) : Option AppendEntriesRequest :=
  if n.state ≠ NodeState.StateLeader then none
  else some
    { Term := n.currentTerm, LeaderID := n.config.NodeID
      PrevLogIndex := n.log.GetLastIndex, PrevLogTerm := n.log.GetLastTerm
      Entries := [], LeaderCommit := n.commitIndex }

/-- The node `n1` as leader of term 1: it started an election and its vote
count reached the quorum of its one-member table. -/
def leaderNode : RaftNode :=
  freshNode.startElectionResponses []

/-- The node `n1` as candidate of term 1, between the two halves of
`startElection`. -/
def candidateNode : RaftNode :=
  freshNode.startElectionBegin.1

/-- A store holding `entry1` and `entry2`. -/
def storeWithTwo : InMemoryLogStore :=
  { entries := [entry1, entry2] }

/-- Two answers to one `Propose` of the term-1 leader: the first peer is
already in term 2 and refuses, the second accepts. -/
def staleAnswers : List AppendEntriesResponse :=
  [ { Term := 2, Success := false }, { Term := 1, Success := true } ]

/-- Two answers to the vote requests of term 1, both from peers that are
already in term 5 and refuse. -/
def staleVotes : List VoteResponse :=
  [ { Term := 5, VoteGranted := false }, { Term := 5, VoteGranted := false } ]

/-- Node `a` of the cluster `a`, `b`, `c` as leader of term 1: it started an
election and both peers granted their vote. -/
def leaderOfThree : RaftNode :=
  (wiredNode idsABC 0).startElectionResponses
    [ { Term := 1, VoteGranted := true }, { Term := 1, VoteGranted := true } ]

/-- The entry that leader `a` builds in `Propose("set x=1")` on its empty log. -/
def proposedEntry : LogEntry :=
  leaderOfThree.proposeEntry (Command.text "set x=1") 0

/-- Leader `a` in the middle of `Propose("set x=1")`: the mutex has been
released (line 555) and the entry is in its log (line 563). -/
def proposingLeader : RaftNode :=
  leaderOfThree.proposeAppend proposedEntry

/-- An entry of term 2 for position 2. -/
def laterEntry2 : LogEntry :=
  { Index := 2, Term := 2, Command := Command.text "set y=2", Timestamp := 0 }

/-- An entry of term 2 for position 3. -/
def laterEntry3 : LogEntry :=
  { Index := 3, Term := 2, Command := Command.text "set z=3", Timestamp := 0 }

/-- A request of the term-2 leader `n2` carrying `laterEntry2` and
`laterEntry3`, with `LeaderCommit = 3`. -/
def overtakingReq : AppendEntriesRequest :=
  appendReq 2 1 1 [laterEntry2, laterEntry3] 3

/-! ## Truncation and compaction of the log store -/

/-- `DeleteRange` (lines 160-167): `none` is the run-time panic of the slice
expression `s.entries[:from-1]`, raised when `from - 1` is negative; the upper
bound holds because the guard gives `from ≤ len(s.entries)`. -/
def InMemoryLogStore.DeleteRange (s : InMemoryLogStore) (from_ : Int) :
    Option InMemoryLogStore :=
  if from_ ≤ (s.entries.length : Int) then
    if 0 ≤ from_ - 1 then some { entries := s.entries.take (from_ - 1).toNat } else none
  else some s

/-- `Compact` (lines 169-176): `none` is the run-time panic of the slice
expression `s.entries[index:]`, raised when `index` is negative. -/
def InMemoryLogStore.Compact (s : InMemoryLogStore) (index : Int) :
    Option InMemoryLogStore :=
  if index ≤ (s.entries.length : Int) then
    if 0 ≤ index then some { entries := s.entries.drop index.toNat } else none
  else some s

/-- The claim's premise on a store: the entry at position `i` has `Index = i`. -/
def InMemoryLogStore.Indexed (s : InMemoryLogStore) : Prop :=
  ∀ (i : Nat) (e : LogEntry), s.entries.get? i = some e → e.Index = (i : Int) + 1

/-! ## KVStateMachine -/

/-- Go struct `KVStateMachine`: the map `data`, kept as an association list
with at most one pair per key. -/
structure KVStateMachine where
  data : List (String × String) := []
  deriving DecidableEq, Repr

namespace KVStateMachine

/-- `NewKVStateMachine`: the empty map. -/
def NewKVStateMachine : KVStateMachine :=
  { data := [] }

/-- The assignment `kv.data[k] = v`. -/
def setKey (kv : KVStateMachine) (k v : String) : KVStateMachine :=
  { data := kv.data.filter (fun p => p.1 ≠ k) ++ [(k, v)] }

/-- `Apply` (lines 313-322): when the command is a `map[string]string`, every
pair of it is stored; any other command is ignored. -/
def Apply (kv : KVStateMachine) (entry : LogEntry) : KVStateMachine :=
  match entry.Command with
  | Command.kv cmd => cmd.foldl (fun st p => st.setKey p.1 p.2) kv
  | Command.text _ => kv

/-- `GetState`: a copy of the map. -/
def GetState (kv : KVStateMachine) : List (String × String) :=
  kv.data

/-- The value the map returned by `GetState` holds for key `k`. -/
def valueOf (kv : KVStateMachine) (k : String) : Option String :=
  kv.GetState.lookup k

/-- The bytes `[]byte(s)` of a string: its UTF-8 encoding. -/
def bytesOf (s : String) : List Nat :=
  (s.toList.flatMap String.utf8EncodeChar).map UInt8.toNat

/-- `CreateSnapshot` (lines 334-341): the line `k=v` for every pair, in the
order the map iteration yields them. -/
def CreateSnapshot (kv : KVStateMachine) : List Nat :=
  kv.GetState.flatMap (fun p => bytesOf (p.1 ++ "=" ++ p.2 ++ "\n"))

/-- `RestoreSnapshot` (lines 343-348): the map becomes empty; the bytes are
not read. -/
def RestoreSnapshot (_kv : KVStateMachine) (_data : List Nat) : KVStateMachine :=
  { data := [] }

end KVStateMachine

/-! ## Election timeout -/

/-- `rand.Int63n(k)`: panics (`none`) when `k ≤ 0`, and otherwise returns some
value of `0 .. k - 1`; `draw` selects which. -/
def Int63n (k : Int) (draw : Nat) : Option Int :=
  if k ≤ 0 then none else some ((draw : Int) % k)

/-- `randomElectionTimeout` (lines 366-370):
`min + time.Duration(rand.Int63n(int64(max-min)))`. -/
def RaftNode.randomElectionTimeout (n : RaftNode) (draw : Nat) : Option Int :=
  match Int63n (wrap64 (n.config.ElectionTimeoutMax - n.config.ElectionTimeoutMin)) draw with
  | none => none
  | some r => some (wrap64 (n.config.ElectionTimeoutMin + r))

/-! ## More examples -/

/-- The node `n1` after an `AppendEntries` request carrying the largest term:
a follower with `currentTerm = math.MaxInt64`. -/
def nodeAtMaxTerm : RaftNode :=
  (freshNode.AppendEntries (appendReq maxInt64 0 0 [] 0)).1

/-- A node created from the zero configuration: only the node ID is set. -/
def zeroConfigNode : RaftNode :=
  RaftNode.NewRaftNode { NodeID := "n1" } [] 0

/-- A node whose two election timeouts are both 150 ms. -/
def fixedTimeoutNode : RaftNode :=
  RaftNode.NewRaftNode { mainConfig "n1" with ElectionTimeoutMax := 150000000 } [] 0

/-- The command `{"key":"x","value":"1"}` as a `map[string]string`. -/
def commandKeyX : Command :=
  Command.kv [("key", "x"), ("value", "1")]

/-- A state machine holding `x=1` and `y=2`. -/
def kvWithTwo : KVStateMachine :=
  { data := [("x", "1"), ("y", "2")] }

/-- A membership table with the alive voters `a`, `b`, `c`, a dead voter `d`
and an alive learner `e`. -/
def mixedMembers : MembershipManager :=
  { members :=
      [ { ID := "a", Address := "", Status := MemberStatus.MemberStatusAlive,
          Role := MemberRole.MemberRoleVoter, JoinedAt := 0 },
        { ID := "b", Address := "", Status := MemberStatus.MemberStatusAlive,
          Role := MemberRole.MemberRoleVoter, JoinedAt := 0 },
        { ID := "c", Address := "", Status := MemberStatus.MemberStatusAlive,
          Role := MemberRole.MemberRoleVoter, JoinedAt := 0 },
        { ID := "d", Address := "", Status := MemberStatus.MemberStatusDead,
          Role := MemberRole.MemberRoleVoter, JoinedAt := 0 },
        { ID := "e", Address := "", Status := MemberStatus.MemberStatusAlive,
          Role := MemberRole.MemberRoleLearner, JoinedAt := 0 } ] }

/-- The members of a table that count toward the quorum, as a set. -/
def MembershipManager.aliveVoterSet (m : MembershipManager) : Finset Member :=
  (m.members.filter (fun x =>
    x.Role = MemberRole.MemberRoleVoter ∧ x.Status = MemberStatus.MemberStatusAlive)).toFinset

end Raft

/-! # The anagram task (algo/task002/main.go)

A Go string is translated as a Lean `String`, which is valid UTF-8 by
construction; `len(s)` is its number of bytes and `range s` runs over its
characters.  The map `counts` is a function with value 0 on absent keys, as a
Go map of `int` reads. -/

namespace Anagram

/-- The first loop of `isAnagram` (lines 16-18): `counts[r]++` for every rune
of `s`. -/
def countRunes : List Char → (Char → Int) → (Char → Int)
  | [], counts => counts
  | r :: rest, counts => countRunes rest (Function.update counts r (counts r + 1))

/-- The second loop of `isAnagram` (lines 19-24): `counts[r]--` for every rune
of `t`, returning `false` as soon as a count is negative, and `true` after the
last rune (line 25). -/
def spendRunes : List Char → (Char → Int) → Bool
  | [], _ => true
  | r :: rest, counts =>
    let counts1 := Function.update counts r (counts r - 1)
    if counts1 r < 0 then false else spendRunes rest counts1

/-- `isAnagram` (lines 11-26). -/
def isAnagram (s t : String) : Bool :=
  if s.utf8ByteSize ≠ t.utf8ByteSize then false
  else spendRunes t.toList (countRunes s.toList (fun _ => 0))

/-- The number of bytes of the UTF-8 encoding of a list of characters. -/
def byteSize (l : List Char) : Nat :=
  (l.map Char.utf8Size).sum

end Anagram

namespace Raft

/-! # Properties -/

open RaftNode

/-! ## Terms as 64-bit integers -/

theorem wrap64_succ (t : Int) (h0 : minInt64 ≤ t) (h1 : t < maxInt64) :
    wrap64 (t + 1) = t + 1 := by
  unfold wrap64
  unfold minInt64 at h0
  unfold maxInt64 at h1
  omega

theorem wrap64_succ_ne (t : Int) : wrap64 (t + 1) ≠ t := by
  unfold wrap64
  omega

theorem wrap64_range (x : Int) : minInt64 ≤ wrap64 x ∧ wrap64 x ≤ maxInt64 := by
  unfold wrap64 minInt64 maxInt64
  omega

/-! ## The log store and the apply loop -/

theorem Get_eq_get? (s : InMemoryLogStore) (i : Int) (h1 : 1 ≤ i)
    (h2 : i ≤ s.GetLastIndex) : s.Get i = s.entries.get? (i - 1).toNat := by
  unfold InMemoryLogStore.Get InMemoryLogStore.GetLastIndex at *
  rw [if_neg]
  omega

theorem entriesBetween_self (log : InMemoryLogStore) (a : Int) :
    entriesBetween log a a = [] := by
  simp [entriesBetween]

theorem entriesBetween_succ (log : InMemoryLogStore) (lo hi : Int) (h0 : 0 ≤ lo)
    (h1 : lo < hi) (h2 : hi ≤ log.GetLastIndex) :
    ∃ e, log.Get (lo + 1) = some e ∧
      entriesBetween log lo hi = e :: entriesBetween log (lo + 1) hi := by
  have hlen : lo.toNat < log.entries.length := by
    unfold InMemoryLogStore.GetLastIndex at h2; omega
  refine ⟨log.entries[lo.toNat], ?_, ?_⟩
  · rw [Get_eq_get? log (lo + 1) (by omega) (by omega)]
    have : (lo + 1 - 1).toNat = lo.toNat := by congr 1; omega
    rw [this, List.get?_eq_getElem?, List.getElem?_eq_getElem hlen]
  · unfold entriesBetween
    have e1 : (hi - lo).toNat = (hi - (lo + 1)).toNat + 1 := by omega
    have e2 : (lo + 1).toNat = lo.toNat + 1 := by omega
    rw [e1, e2, List.drop_eq_getElem_cons hlen, List.take_succ_cons]

theorem applyCommitted_spec (fuel : Nat) : ∀ (n : RaftNode), 0 ≤ n.lastApplied →
    n.lastApplied + fuel = n.commitIndex → n.commitIndex ≤ n.log.GetLastIndex →
    applyCommitted fuel n =
      { n with lastApplied := n.commitIndex
               stateMachine := n.stateMachine ++
                 (entriesBetween n.log n.lastApplied n.commitIndex).map SMCall.Apply } := by
  induction fuel with
  | zero =>
    intro n _ h1 _
    have : n.lastApplied = n.commitIndex := by simpa using h1
    cases n
    simp_all [applyCommitted, entriesBetween_self]
  | succ k ih =>
    intro n h0 h1 h2
    have hlt : n.lastApplied < n.commitIndex := by push_cast at h1; omega
    obtain ⟨e, hget, hcons⟩ := entriesBetween_succ n.log n.lastApplied n.commitIndex h0 hlt h2
    rw [applyCommitted, if_pos hlt]
    simp only [hget]
    rw [ih]
    · simp [hcons]
    · simp; omega
    · simp; push_cast at h1; omega
    · simpa using h2


theorem Append_nil (s : InMemoryLogStore) : s.Append [] = s := by
  cases s; simp [InMemoryLogStore.Append]

theorem GetLastIndex_Append (s : InMemoryLogStore) (es : List LogEntry) :
    (s.Append es).GetLastIndex = s.GetLastIndex + es.length := by
  simp [InMemoryLogStore.Append, InMemoryLogStore.GetLastIndex]

theorem newCommit_bounds (n : RaftNode) (req : AppendEntriesRequest) (hinv : NodeInv n) :
    n.commitIndex ≤ newCommit n req ∧
      newCommit n req ≤ (n.log.Append req.Entries).GetLastIndex := by
  obtain ⟨_, h0, h2⟩ := hinv
  unfold newCommit min64
  rw [GetLastIndex_Append]
  split_ifs <;> omega

theorem AppendEntries_accept (n : RaftNode) (req : AppendEntriesRequest)
    (h : n.currentTerm ≤ req.Term) (hinv : NodeInv n) :
    n.AppendEntries req =
      ({ n with currentTerm := req.Term
                state := NodeState.StateFollower
                leader := req.LeaderID
                log := n.log.Append req.Entries
                commitIndex := newCommit n req
                lastApplied := newCommit n req
                stateMachine := n.stateMachine ++
                  (entriesBetween (n.log.Append req.Entries) n.lastApplied
                    (newCommit n req)).map SMCall.Apply },
       { Term := req.Term, Success := true }) := by
  have hb := newCommit_bounds n req hinv
  obtain ⟨hla, h0, h2⟩ := hinv
  have hlog : (if req.Entries.length > 0 then
      ({ n with currentTerm := req.Term, state := NodeState.StateFollower,
                leader := req.LeaderID, log := n.log.Append req.Entries } : RaftNode)
      else { n with currentTerm := req.Term, state := NodeState.StateFollower,
                    leader := req.LeaderID }) =
      { n with currentTerm := req.Term, state := NodeState.StateFollower,
               leader := req.LeaderID, log := n.log.Append req.Entries } := by
    split_ifs with hl
    · rfl
    · have : req.Entries = [] := by
        cases hE : req.Entries with
        | nil => rfl
        | cons a t => simp [hE] at hl
      rw [this, Append_nil]
  unfold RaftNode.AppendEntries
  rw [if_neg (by omega)]
  simp only [hlog]
  by_cases hc : req.LeaderCommit > n.commitIndex
  · have hnc : newCommit n req = min64 req.LeaderCommit (n.log.Append req.Entries).GetLastIndex := by
      simp [newCommit, hc]
    simp only [if_pos hc]
    rw [applyCommitted_spec]
    · simp [hnc]
    · simp; omega
    · simp
      rw [← hnc]; omega
    · simp
      rw [← hnc]; omega
  · have hnc : newCommit n req = n.commitIndex := by simp [newCommit, hc]
    simp only [if_neg hc]
    rw [hnc, ← hla, entriesBetween_self]
    cases n
    simp_all


theorem RequestVote_keeps (n : RaftNode) (req : VoteRequest) :
    (n.RequestVote req).1.log = n.log ∧
      (n.RequestVote req).1.commitIndex = n.commitIndex ∧
      (n.RequestVote req).1.lastApplied = n.lastApplied ∧
      (n.RequestVote req).1.stateMachine = n.stateMachine ∧
      n.currentTerm ≤ (n.RequestVote req).1.currentTerm := by
  unfold RaftNode.RequestVote
  by_cases h1 : req.Term < n.currentTerm
  · simp [h1]
  · by_cases h2 : req.Term > n.currentTerm
    · simp only [h1, h2, if_true, if_false]
      split_ifs <;> simp <;> omega
    · simp only [h1, h2, if_true, if_false]
      split_ifs <;> simp

theorem InstallSnapshot_keeps (n : RaftNode) (req : SnapshotRequest) (now : Nat) :
    (n.InstallSnapshot req now).1.log = n.log ∧
      (n.InstallSnapshot req now).1.commitIndex = n.commitIndex ∧
      (n.InstallSnapshot req now).1.lastApplied = n.lastApplied ∧
      (n.InstallSnapshot req now).1.currentTerm = n.currentTerm := by
  unfold RaftNode.InstallSnapshot
  split_ifs <;> simp

theorem Propose_markers (n : RaftNode) (command : Command) (now acks : Nat)
    (hinv : NodeInv n) :
    NodeInv (n.Propose command now acks).1 ∧
      n.commitIndex ≤ (n.Propose command now acks).1.commitIndex ∧
      n.lastApplied ≤ (n.Propose command now acks).1.lastApplied ∧
      (n.Propose command now acks).1.currentTerm = n.currentTerm := by
  obtain ⟨hla, h0, h2⟩ := hinv
  unfold RaftNode.Propose RaftNode.proposeFinish RaftNode.proposeAppend RaftNode.proposeEntry NodeInv
  unfold InMemoryLogStore.GetLastIndex at h2
  by_cases hs : n.state ≠ NodeState.StateLeader
  · rw [if_pos hs]
    exact ⟨⟨hla, h0, h2⟩, le_refl _, le_refl _, rfl⟩
  · rw [if_neg hs]
    by_cases hq : 1 + acks ≥ n.membership.GetQuorum
    · simp only [InMemoryLogStore.Append, InMemoryLogStore.GetLastIndex, if_pos hq,
        List.length_append, List.length_singleton]
      push_cast
      refine ⟨⟨?_, ?_, ?_⟩, ?_, ?_, ?_⟩ <;> first | rfl | omega | simp
    · simp only [InMemoryLogStore.Append, InMemoryLogStore.GetLastIndex, if_neg hq,
        List.length_append, List.length_singleton]
      push_cast
      refine ⟨⟨?_, ?_, ?_⟩, ?_, ?_, ?_⟩ <;> first | rfl | omega | simp

theorem NodeInv_step (n : RaftNode) (op : NodeOp) (hinv : NodeInv n) : NodeInv (op.run n) := by
  cases op with
  | requestVote req =>
    obtain ⟨h1, h2, h3, _, _⟩ := RequestVote_keeps n req
    simpa [NodeOp.run, NodeInv, h1, h2, h3] using hinv
  | appendEntries req =>
    by_cases h : req.Term < n.currentTerm
    · simpa [NodeOp.run, RaftNode.AppendEntries, h] using hinv
    · have hb := newCommit_bounds n req hinv
      simp only [NodeOp.run, AppendEntries_accept n req (by omega) hinv, NodeInv]
      exact ⟨trivial, by have := hinv.2.1; omega, hb.2⟩
  | installSnapshot req now =>
    obtain ⟨h1, h2, h3, _⟩ := InstallSnapshot_keeps n req now
    simpa [NodeOp.run, NodeInv, h1, h2, h3] using hinv
  | electionBegin => simpa [NodeOp.run, NodeInv, RaftNode.startElectionBegin] using hinv
  | electionFinish votes quorum term =>
    simp only [NodeOp.run, RaftNode.startElectionFinish]
    split_ifs <;> simpa [NodeInv] using hinv
  | propose command now acks => exact (Propose_markers n command now acks hinv).1
  | addNode nodeID address now => simpa [NodeOp.run, NodeInv, RaftNode.AddNode] using hinv
  | removeNode nodeID => simpa [NodeOp.run, NodeInv, RaftNode.RemoveNode] using hinv

theorem reachable_nodeInv {n : RaftNode} (h : Reachable n) : NodeInv n := by
  induction h with
  | init config sm now =>
    simp [NodeInv, RaftNode.NewRaftNode, InMemoryLogStore.GetLastIndex]
  | step n op _ ih => exact NodeInv_step n op ih

theorem applyCommitted_frame (fuel : Nat) : ∀ (n : RaftNode),
    (applyCommitted fuel n).config = n.config ∧
    (applyCommitted fuel n).state = n.state ∧
    (applyCommitted fuel n).currentTerm = n.currentTerm ∧
    (applyCommitted fuel n).votedFor = n.votedFor ∧
    (applyCommitted fuel n).leader = n.leader ∧
    (applyCommitted fuel n).log = n.log ∧
    (applyCommitted fuel n).snapshots = n.snapshots ∧
    (applyCommitted fuel n).membership = n.membership ∧
    (applyCommitted fuel n).commitIndex = n.commitIndex := by
  induction fuel with
  | zero => intro n; simp [applyCommitted]
  | succ k ih =>
    intro n
    rw [applyCommitted]
    split_ifs with h
    · cases hg : n.log.Get (n.lastApplied + 1) with
      | none => simpa [hg] using ih _
      | some e => simpa [hg] using ih _
    · simp

/-- The fuel `AppendEntries` hands to the apply loop, `commitIndex - lastApplied`,
is enough in every node state: the loop stops because its condition is false,
not because the fuel is used up. -/
theorem applyCommitted_done (fuel : Nat) : ∀ (n : RaftNode),
    n.commitIndex - n.lastApplied ≤ fuel →
    ¬ ((applyCommitted fuel n).lastApplied < (applyCommitted fuel n).commitIndex) := by
  induction fuel with
  | zero =>
    intro n h
    simp only [applyCommitted]
    push_cast at h
    omega
  | succ k ih =>
    intro n h
    rw [applyCommitted]
    split_ifs with hlt
    · apply ih
      cases hg : n.log.Get (n.lastApplied + 1) with
      | none => simp only [hg]; push_cast at h; omega
      | some e => simp only [hg]; push_cast at h; omega
    · exact hlt

theorem AppendEntries_stale (n : RaftNode) (req : AppendEntriesRequest)
    (h : req.Term < n.currentTerm) :
    n.AppendEntries req = (n, { Term := n.currentTerm, Success := false }) := by
  simp [RaftNode.AppendEntries, h]

theorem AppendEntries_frame (n : RaftNode) (req : AppendEntriesRequest)
    (h : n.currentTerm ≤ req.Term) :
    (n.AppendEntries req).2 = { Term := req.Term, Success := true } ∧
    (n.AppendEntries req).1.config = n.config ∧
    (n.AppendEntries req).1.state = NodeState.StateFollower ∧
    (n.AppendEntries req).1.currentTerm = req.Term ∧
    (n.AppendEntries req).1.votedFor = n.votedFor ∧
    (n.AppendEntries req).1.leader = req.LeaderID ∧
    (n.AppendEntries req).1.log = n.log.Append req.Entries ∧
    (n.AppendEntries req).1.snapshots = n.snapshots ∧
    (n.AppendEntries req).1.membership = n.membership := by
  have hlog : ∀ m : RaftNode, (if req.Entries.length > 0 then
      ({ m with log := n.log.Append req.Entries } : RaftNode) else { m with log := n.log }) =
      { m with log := n.log.Append req.Entries } := by
    intro m
    split_ifs with hl
    · rfl
    · have : req.Entries = [] := by
        cases hE : req.Entries with
        | nil => rfl
        | cons a t => simp [hE] at hl
      rw [this, Append_nil]
  unfold RaftNode.AppendEntries
  rw [if_neg (by omega)]
  have := hlog { n with currentTerm := req.Term, state := NodeState.StateFollower,
                        leader := req.LeaderID }
  simp only at this
  simp only [this]
  split_ifs with hc
  · have hf := applyCommitted_frame
      (min64 req.LeaderCommit (n.log.Append req.Entries).GetLastIndex - n.lastApplied).toNat
      { n with currentTerm := req.Term, state := NodeState.StateFollower,
               leader := req.LeaderID, log := n.log.Append req.Entries,
               commitIndex := min64 req.LeaderCommit (n.log.Append req.Entries).GetLastIndex }
    simp only at hf
    obtain ⟨h1, h2, h3, h4, h5, h6, h7, h8, _⟩ := hf
    simp [h1, h2, h3, h4, h5, h6, h7, h8]
  · simp

/-! ## Claims about single handlers -/

/-- With every call run as one step, no other call of the node in between:
in every reachable node state `RequestVote`, `AppendEntries`, `InstallSnapshot`
and `Propose` leave `currentTerm`, `commitIndex` and `lastApplied` at least as
large as they were. -/
theorem monotone_markers (n : RaftNode) (hn : Reachable n) (rv : VoteRequest)
    (ae : AppendEntriesRequest) (sn : SnapshotRequest) (command : Command)
    (now acks : Nat) :
    NoDecrease n (n.RequestVote rv).1 ∧ NoDecrease n (n.AppendEntries ae).1 ∧
      NoDecrease n (n.InstallSnapshot sn now).1 ∧
      NoDecrease n (n.Propose command now acks).1 := by
  have hinv := reachable_nodeInv hn
  refine ⟨?_, ?_, ?_, ?_⟩
  · obtain ⟨_, h2, h3, _, h5⟩ := RequestVote_keeps n rv
    exact ⟨h5, h2.ge, h3.ge⟩
  · by_cases h : ae.Term < n.currentTerm
    · simp [AppendEntries_stale n ae h, NoDecrease]
    · have hb := newCommit_bounds n ae hinv
      rw [AppendEntries_accept n ae (by omega) hinv]
      exact ⟨by simp; omega, hb.1, by simp; rw [hinv.1]; exact hb.1⟩
  · obtain ⟨_, h2, h3, h4⟩ := InstallSnapshot_keeps n sn now
    exact ⟨h4.ge, h2.ge, h3.ge⟩
  · obtain ⟨_, h2, h3, h4⟩ := Propose_markers n command now acks hinv
    exact ⟨h4.ge, h2, h3⟩

/-- C3 fails on the code: leader `a` of the cluster `a`, `b`, `c` runs
`Propose("set x=1")`, which releases the mutex and appends the entry of index
1; the node then handles an `AppendEntries` request of term 2 that brings
`commitIndex` and `lastApplied` to 3; the end of `Propose`, with one peer's
`Success`, assigns both markers the entry's index: they go from 3 back to 1 and
the entry of index 1 is applied a second time. -/
theorem Propose_lowers_markers :
    leaderOfThree.state = NodeState.StateLeader ∧
      leaderOfThree.membership.GetQuorum = 2 ∧
      leaderOfThree.commitIndex = 0 ∧
      proposedEntry.Index = 1 ∧
      (proposingLeader.AppendEntries overtakingReq).2.Success = true ∧
      (proposingLeader.AppendEntries overtakingReq).1.commitIndex = 3 ∧
      (proposingLeader.AppendEntries overtakingReq).1.lastApplied = 3 ∧
      (proposingLeader.AppendEntries overtakingReq).1.stateMachine =
        [SMCall.Apply proposedEntry, SMCall.Apply laterEntry2, SMCall.Apply laterEntry3] ∧
      ((proposingLeader.AppendEntries overtakingReq).1.proposeFinish proposedEntry 2 2).commitIndex
        = 1 ∧
      ((proposingLeader.AppendEntries overtakingReq).1.proposeFinish proposedEntry 2 2).lastApplied
        = 1 ∧
      ((proposingLeader.AppendEntries overtakingReq).1.proposeFinish proposedEntry 2
          2).stateMachine =
        [SMCall.Apply proposedEntry, SMCall.Apply laterEntry2, SMCall.Apply laterEntry3,
          SMCall.Apply proposedEntry] := by
  decide

/-- On a leader, `Propose` run in one piece is its local append followed by
its end. -/
theorem Propose_sections (n : RaftNode) (command : Command) (now acks : Nat)
    (h : n.state = NodeState.StateLeader) :
    n.Propose command now acks =
      (((n.proposeAppend (n.proposeEntry command now)).proposeFinish
        (n.proposeEntry command now) (1 + acks) n.membership.GetQuorum), none) := by
  simp [RaftNode.Propose, h, RaftNode.proposeAppend]

/-- C5, as amended: `RequestVote` grants exactly when the request is not
stale, the vote of the request's term is still free (the request's term is
newer, or `votedFor` is empty or the candidate), and the candidate's log is at
least as up to date. -/
theorem RequestVote_granted_iff (n : RaftNode) (req : VoteRequest) :
    (n.RequestVote req).2.VoteGranted = true ↔
      req.Term ≥ n.currentTerm ∧
      (req.Term > n.currentTerm ∨ n.votedFor = "" ∨ n.votedFor = req.CandidateID) ∧
      (req.LastLogTerm > n.log.GetLastTerm ∨
        (req.LastLogTerm = n.log.GetLastTerm ∧ req.LastLogIndex ≥ n.log.GetLastIndex)) := by
  unfold RaftNode.RequestVote
  by_cases h1 : req.Term < n.currentTerm
  · simp only [h1, if_true]
    constructor
    · intro h; simp at h
    · intro h; omega
  · by_cases h2 : req.Term > n.currentTerm
    · simp only [h1, h2, if_true, if_false]
      split_ifs with h3
      · simp only [true_iff]
        refine ⟨by omega, Or.inl trivial, ?_⟩
        simpa using h3.2
      · simp only [Bool.false_eq_true, false_iff]
        intro h
        apply h3
        refine ⟨Or.inl trivial, ?_⟩
        simpa using h.2.2
    · simp only [h1, h2, if_false]
      split_ifs with h3
      · simp only [true_iff]
        refine ⟨by omega, Or.inr h3.1, ?_⟩
        simpa using h3.2
      · simp only [Bool.false_eq_true, false_iff]
        intro h
        apply h3
        refine ⟨?_, ?_⟩
        · rcases h.2.1 with h | h
          · exact h.elim
          · exact h
        · simpa using h.2.2

/-- C5 as written fails: a node that voted for `b` in term 1 grants the
term-2 request of `c`, although its `votedFor` is neither empty nor `c`. -/
theorem RequestVote_granted_iff_counterexample :
    ¬ ((nodeVotedB.RequestVote voteReqC).2.VoteGranted = true ↔
        (voteReqC.Term ≥ nodeVotedB.currentTerm ∧
          (nodeVotedB.votedFor = "" ∨ nodeVotedB.votedFor = voteReqC.CandidateID) ∧
          (voteReqC.LastLogTerm > nodeVotedB.log.GetLastTerm ∨
            (voteReqC.LastLogTerm = nodeVotedB.log.GetLastTerm ∧
              voteReqC.LastLogIndex ≥ nodeVotedB.log.GetLastIndex)))) := by
  decide

/-- C7: a `RequestVote`, `AppendEntries` or `InstallSnapshot` request whose
term is below `currentTerm` is answered with `currentTerm` and a rejection, and
the node (role, term, vote, leader, log, markers, snapshot store, state machine
history) is returned unchanged. -/
theorem stale_term_rejected (n : RaftNode) (rv : VoteRequest) (ae : AppendEntriesRequest)
    (sn : SnapshotRequest) (now : Nat) (h1 : rv.Term < n.currentTerm)
    (h2 : ae.Term < n.currentTerm) (h3 : sn.Term < n.currentTerm) :
    n.RequestVote rv = (n, { Term := n.currentTerm, VoteGranted := false }) ∧
      n.AppendEntries ae = (n, { Term := n.currentTerm, Success := false }) ∧
      n.InstallSnapshot sn now = (n, { Term := n.currentTerm }) := by
  refine ⟨?_, AppendEntries_stale n ae h2, ?_⟩
  · simp [RaftNode.RequestVote, h1]
  · simp [RaftNode.InstallSnapshot, h3]

/-- Witness of C7: term-0 requests at a node that is in term 1. -/
theorem stale_term_rejected_witness :
    (0 : Int) < nodeVotedB.currentTerm ∧
      nodeVotedB.RequestVote
          { Term := 0, CandidateID := "c", LastLogIndex := 5, LastLogTerm := 5 } =
        (nodeVotedB, { Term := nodeVotedB.currentTerm, VoteGranted := false }) ∧
      nodeVotedB.AppendEntries
          { Term := 0, LeaderID := "n2", PrevLogIndex := 0, PrevLogTerm := 0,
            Entries := [entry1], LeaderCommit := 1 } =
        (nodeVotedB, { Term := nodeVotedB.currentTerm, Success := false }) ∧
      nodeVotedB.InstallSnapshot snapshotReq 7 =
        (nodeVotedB, { Term := nodeVotedB.currentTerm }) :=
  ⟨by decide,
    stale_term_rejected nodeVotedB _ _ snapshotReq 7 (by decide) (by decide) (by decide)⟩

/-- C8, as amended: an `AppendEntries` request that is not stale is always
answered `Success = true` with zero conflict hints, whatever `PrevLogIndex` and
`PrevLogTerm` are, and the receiver's log afterwards is its old log followed by
the request's entries. -/
theorem AppendEntries_never_checks_prev (n : RaftNode) (req : AppendEntriesRequest)
    (h : req.Term ≥ n.currentTerm) :
    (n.AppendEntries req).2 =
        { Term := req.Term, Success := true, ConflictTerm := 0, ConflictIndex := 0 } ∧
      (n.AppendEntries req).1.log.entries = n.log.entries ++ req.Entries := by
  obtain ⟨h1, _, _, _, _, _, h7, _, _⟩ := AppendEntries_frame n req h
  exact ⟨h1, by rw [h7]; rfl⟩

/-- Witness of C8 as amended: the fresh node accepts a request whose previous
entry it does not hold. -/
theorem AppendEntries_never_checks_prev_witness :
    (appendReq 1 1 1 [entry2] 0).Term ≥ freshNode.currentTerm ∧
      (freshNode.AppendEntries (appendReq 1 1 1 [entry2] 0)).2 =
        { Term := 1, Success := true, ConflictTerm := 0, ConflictIndex := 0 } ∧
      (freshNode.AppendEntries (appendReq 1 1 1 [entry2] 0)).1.log.entries =
        freshNode.log.entries ++ [entry2] :=
  ⟨by decide, AppendEntries_never_checks_prev freshNode (appendReq 1 1 1 [entry2] 0) (by decide)⟩

/-- C8 as written fails: the fresh node has no entry at `PrevLogIndex = 1`,
yet the request is answered `Success = true` and its entry is appended. -/
theorem AppendEntries_prev_check_counterexample :
    (appendReq 1 1 1 [entry2] 0).Term ≥ freshNode.currentTerm ∧
      (appendReq 1 1 1 [entry2] 0).PrevLogIndex ≥ 1 ∧
      freshNode.log.Get (appendReq 1 1 1 [entry2] 0).PrevLogIndex = none ∧
      (freshNode.AppendEntries (appendReq 1 1 1 [entry2] 0)).2.Success = true ∧
      (freshNode.AppendEntries (appendReq 1 1 1 [entry2] 0)).1.log.entries = [entry2] := by
  decide

/-- C9, as amended: an accepted `AppendEntries` request puts its entries after
the receiver's last entry and truncates or overwrites nothing: afterwards
`Get (oldLastIndex + k)` is the `k`-th entry of the request for `k` from 1 to
`len(req.Entries)`, and `Get i` is unchanged for `i` from 1 to `oldLastIndex`.
In particular `Get (PrevLogIndex + k)` is the `k`-th entry of the request when
`PrevLogIndex` is the receiver's old last index. -/
theorem AppendEntries_appends_at_tail (n : RaftNode) (req : AppendEntriesRequest)
    (h : req.Term ≥ n.currentTerm) :
    (∀ k : Nat, 1 ≤ k → k ≤ req.Entries.length →
        (n.AppendEntries req).1.log.Get (n.log.GetLastIndex + k) = req.Entries.get? (k - 1)) ∧
      (∀ i : Int, 1 ≤ i → i ≤ n.log.GetLastIndex →
        (n.AppendEntries req).1.log.Get i = n.log.Get i) ∧
      (req.PrevLogIndex = n.log.GetLastIndex → ∀ k : Nat, 1 ≤ k → k ≤ req.Entries.length →
        (n.AppendEntries req).1.log.Get (req.PrevLogIndex + k) = req.Entries.get? (k - 1)) := by
  obtain ⟨_, _, _, _, _, _, h7, _, _⟩ := AppendEntries_frame n req h
  rw [h7]
  have tail : ∀ k : Nat, 1 ≤ k → k ≤ req.Entries.length →
      (n.log.Append req.Entries).Get (n.log.GetLastIndex + k) = req.Entries.get? (k - 1) := by
    intro k hk1 hk2
    rw [Get_eq_get? _ _ (by unfold InMemoryLogStore.GetLastIndex; omega)
      (by rw [GetLastIndex_Append]; omega)]
    have e : (n.log.GetLastIndex + ↑k - 1).toNat = n.log.entries.length + (k - 1) := by
      unfold InMemoryLogStore.GetLastIndex; omega
    rw [e]
    simp only [InMemoryLogStore.Append, List.get?_eq_getElem?]
    rw [List.getElem?_append_right (by omega)]
    congr 1
    omega
  refine ⟨tail, ?_, ?_⟩
  · intro i hi1 hi2
    rw [Get_eq_get? _ _ hi1 (by rw [GetLastIndex_Append]; omega), Get_eq_get? _ _ hi1 hi2]
    simp only [InMemoryLogStore.Append, List.get?_eq_getElem?]
    rw [List.getElem?_append_left (by unfold InMemoryLogStore.GetLastIndex at hi2; omega)]
  · intro hp k hk1 hk2
    rw [hp]
    exact tail k hk1 hk2

/-- Witness of C9 as amended, at the node that already stores `entry1` and is
sent `entry2` with `PrevLogIndex = 1`. -/
theorem AppendEntries_appends_at_tail_witness :
    (appendReq 1 1 1 [entry2] 0).Term ≥ nodeWithOne.currentTerm ∧
      (appendReq 1 1 1 [entry2] 0).PrevLogIndex = nodeWithOne.log.GetLastIndex ∧
      (nodeWithOne.AppendEntries (appendReq 1 1 1 [entry2] 0)).1.log.entries =
        [entry1, entry2] ∧
      ((∀ k : Nat, 1 ≤ k → k ≤ (appendReq 1 1 1 [entry2] 0).Entries.length →
          (nodeWithOne.AppendEntries (appendReq 1 1 1 [entry2] 0)).1.log.Get
              (nodeWithOne.log.GetLastIndex + k) =
            (appendReq 1 1 1 [entry2] 0).Entries.get? (k - 1)) ∧
        (∀ i : Int, 1 ≤ i → i ≤ nodeWithOne.log.GetLastIndex →
          (nodeWithOne.AppendEntries (appendReq 1 1 1 [entry2] 0)).1.log.Get i =
            nodeWithOne.log.Get i) ∧
        ((appendReq 1 1 1 [entry2] 0).PrevLogIndex = nodeWithOne.log.GetLastIndex →
          ∀ k : Nat, 1 ≤ k → k ≤ (appendReq 1 1 1 [entry2] 0).Entries.length →
            (nodeWithOne.AppendEntries (appendReq 1 1 1 [entry2] 0)).1.log.Get
                ((appendReq 1 1 1 [entry2] 0).PrevLogIndex + k) =
              (appendReq 1 1 1 [entry2] 0).Entries.get? (k - 1))) :=
  ⟨by decide, by decide, by decide,
    AppendEntries_appends_at_tail nodeWithOne (appendReq 1 1 1 [entry2] 0) (by decide)⟩

/-- C9 as written fails: the receiver stores `entry1` at position 1 and gets
a request with `PrevLogIndex = 0` carrying a different entry for position 1;
afterwards `Get (PrevLogIndex + 1)` is still `entry1`, not the request's entry. -/
theorem AppendEntries_overwrite_counterexample :
    (appendReq 2 0 0 [entry1b] 0).Term ≥ nodeWithOne.currentTerm ∧
      (nodeWithOne.AppendEntries (appendReq 2 0 0 [entry1b] 0)).1.log.Get
          ((appendReq 2 0 0 [entry1b] 0).PrevLogIndex + 1) = some entry1 ∧
      (appendReq 2 0 0 [entry1b] 0).Entries.get? 0 = some entry1b ∧
      entry1 ≠ entry1b := by
  decide

theorem min64_eq_min (a b : Int) : min64 a b = min a b := by
  unfold min64
  split_ifs with h
  · exact (min_eq_left (le_of_lt h)).symm
  · exact (min_eq_right (not_lt.mp h)).symm

theorem entriesBetween_length (log : InMemoryLogStore) (lo hi : Int) (h0 : 0 ≤ lo)
    (h2 : hi ≤ log.GetLastIndex) :
    (entriesBetween log lo hi).length = (hi - lo).toNat := by
  unfold InMemoryLogStore.GetLastIndex at h2
  simp only [entriesBetween, List.length_take, List.length_drop]
  omega

/-- C10: in every reachable node state, an `AppendEntries` request that is
not stale and has `LeaderCommit > commitIndex` sets `commitIndex` to
`min(LeaderCommit, last log index after appending)`, sets `lastApplied` to the
new `commitIndex`, and calls `Apply` exactly on the entries at positions old
`lastApplied + 1` up to the new `commitIndex`, in ascending order; with
`LeaderCommit ≤ commitIndex` both markers stay and nothing is applied. -/
theorem AppendEntries_commit (n : RaftNode) (hn : Reachable n) (req : AppendEntriesRequest)
    (h : req.Term ≥ n.currentTerm) :
    (req.LeaderCommit > n.commitIndex →
      (n.AppendEntries req).1.commitIndex =
          min req.LeaderCommit (n.AppendEntries req).1.log.GetLastIndex ∧
        (n.AppendEntries req).1.lastApplied = (n.AppendEntries req).1.commitIndex ∧
        (n.AppendEntries req).1.stateMachine =
          n.stateMachine ++
            (entriesBetween (n.AppendEntries req).1.log n.lastApplied
              (n.AppendEntries req).1.commitIndex).map SMCall.Apply ∧
        (entriesBetween (n.AppendEntries req).1.log n.lastApplied
            (n.AppendEntries req).1.commitIndex).length =
          ((n.AppendEntries req).1.commitIndex - n.lastApplied).toNat) ∧
    (req.LeaderCommit ≤ n.commitIndex →
      (n.AppendEntries req).1.commitIndex = n.commitIndex ∧
        (n.AppendEntries req).1.lastApplied = n.lastApplied ∧
        (n.AppendEntries req).1.stateMachine = n.stateMachine) := by
  have hinv := reachable_nodeInv hn
  have hb := newCommit_bounds n req hinv
  rw [AppendEntries_accept n req h hinv]
  constructor
  · intro hc
    have hnc : newCommit n req =
        min req.LeaderCommit (n.log.Append req.Entries).GetLastIndex := by
      rw [← min64_eq_min]; simp [newCommit, hc]
    refine ⟨hnc, rfl, rfl, ?_⟩
    exact entriesBetween_length _ _ _ (by rw [hinv.1]; exact hinv.2.1) hb.2
  · intro hc
    have hnc : newCommit n req = n.commitIndex := by
      simp [newCommit, not_lt.mpr hc]
    simp only [hnc]
    refine ⟨trivial, hinv.1.symm, ?_⟩
    rw [← hinv.1, entriesBetween_self]
    simp

/-- Witness of C10: the node holding two uncommitted entries is told that
both are committed, and applies them in order. -/
theorem AppendEntries_commit_witness :
    Reachable nodeWithTwo ∧ (appendReq 1 2 1 [] 2).Term ≥ nodeWithTwo.currentTerm ∧
      (nodeWithTwo.AppendEntries (appendReq 1 2 1 [] 2)).1.stateMachine =
        [SMCall.Apply entry1, SMCall.Apply entry2] ∧
      ((appendReq 1 2 1 [] 2).LeaderCommit > nodeWithTwo.commitIndex →
        (nodeWithTwo.AppendEntries (appendReq 1 2 1 [] 2)).1.commitIndex =
            min (appendReq 1 2 1 [] 2).LeaderCommit
              (nodeWithTwo.AppendEntries (appendReq 1 2 1 [] 2)).1.log.GetLastIndex ∧
          (nodeWithTwo.AppendEntries (appendReq 1 2 1 [] 2)).1.lastApplied =
            (nodeWithTwo.AppendEntries (appendReq 1 2 1 [] 2)).1.commitIndex ∧
          (nodeWithTwo.AppendEntries (appendReq 1 2 1 [] 2)).1.stateMachine =
            nodeWithTwo.stateMachine ++
              (entriesBetween (nodeWithTwo.AppendEntries (appendReq 1 2 1 [] 2)).1.log
                nodeWithTwo.lastApplied
                (nodeWithTwo.AppendEntries (appendReq 1 2 1 [] 2)).1.commitIndex).map
                  SMCall.Apply ∧
          (entriesBetween (nodeWithTwo.AppendEntries (appendReq 1 2 1 [] 2)).1.log
              nodeWithTwo.lastApplied
              (nodeWithTwo.AppendEntries (appendReq 1 2 1 [] 2)).1.commitIndex).length =
            ((nodeWithTwo.AppendEntries (appendReq 1 2 1 [] 2)).1.commitIndex -
              nodeWithTwo.lastApplied).toNat) :=
  ⟨Reachable.step _ (NodeOp.appendEntries _) (Reachable.init _ _ _), by decide, by decide,
    (AppendEntries_commit nodeWithTwo
      (Reachable.step _ (NodeOp.appendEntries _) (Reachable.init _ _ _))
      (appendReq 1 2 1 [] 2) (by decide)).1⟩

/-! ## One vote per term -/

theorem nodeOp_run_config (n : RaftNode) (op : NodeOp) : (op.run n).config = n.config := by
  cases op with
  | requestVote req =>
    simp only [NodeOp.run, RaftNode.RequestVote]
    split_ifs <;> rfl
  | appendEntries req =>
    by_cases h : req.Term < n.currentTerm
    · simp [NodeOp.run, AppendEntries_stale n req h]
    · exact (AppendEntries_frame n req (by omega)).2.1
  | installSnapshot req now =>
    simp only [NodeOp.run, RaftNode.InstallSnapshot]
    split_ifs <;> rfl
  | electionBegin => rfl
  | electionFinish votes quorum term =>
    simp only [NodeOp.run, RaftNode.startElectionFinish]
    split_ifs <;> rfl
  | propose command now acks =>
    simp only [NodeOp.run, RaftNode.Propose, RaftNode.proposeFinish, RaftNode.proposeAppend]
    split_ifs <;> rfl
  | addNode nodeID address now => rfl
  | removeNode nodeID => rfl

theorem RequestVote_vote (n : RaftNode) (req : VoteRequest) :
    n.currentTerm ≤ (n.RequestVote req).1.currentTerm ∧
    ((n.RequestVote req).1.currentTerm = n.currentTerm → n.votedFor ≠ "" →
      (n.RequestVote req).1.votedFor = n.votedFor) ∧
    ((n.RequestVote req).2.VoteGranted = true →
      (n.RequestVote req).1.votedFor = req.CandidateID ∧
      ((n.RequestVote req).1.currentTerm = n.currentTerm → n.votedFor ≠ "" →
        req.CandidateID = n.votedFor)) := by
  unfold RaftNode.RequestVote
  by_cases h1 : req.Term < n.currentTerm
  · simp [h1]
  · by_cases h2 : req.Term > n.currentTerm
    · simp only [h1, h2, if_true, if_false]
      split_ifs <;> simp <;> omega
    · simp only [h1, h2, if_false]
      split_ifs with h3
      · simp only [le_refl, true_and, forall_true_left]
        refine ⟨?_, ?_⟩
        · intro hv
          rcases h3.1 with h | h
          · exact absurd h hv
          · exact h.symm
        · intro hv
          rcases h3.1 with h | h
          · exact absurd h hv
          · exact h.symm
      · simp

theorem nodeOp_run_term (n : RaftNode) (op : NodeOp) (h0 : minInt64 ≤ n.currentTerm)
    (hfit : op.noWrap n = true) :
    n.currentTerm ≤ (op.run n).currentTerm ∧
      ((op.run n).currentTerm = n.currentTerm → n.votedFor ≠ "" →
        (op.run n).votedFor = n.votedFor) := by
  cases op with
  | requestVote req => exact ⟨(RequestVote_vote n req).1, (RequestVote_vote n req).2.1⟩
  | appendEntries req =>
    by_cases h : req.Term < n.currentTerm
    · simp [NodeOp.run, AppendEntries_stale n req h]
    · obtain ⟨_, _, _, h4, h5, _⟩ := AppendEntries_frame n req (by omega)
      simp only [NodeOp.run, h4, h5]
      exact ⟨by omega, fun _ _ => trivial⟩
  | installSnapshot req now =>
    simp only [NodeOp.run, RaftNode.InstallSnapshot]
    split_ifs <;> simp
  | electionBegin =>
    simp only [NodeOp.noWrap, decide_eq_true_eq] at hfit
    simp only [NodeOp.run, RaftNode.startElectionBegin, wrap64_succ _ h0 hfit]
    exact ⟨by omega, fun h => by omega⟩
  | electionFinish votes quorum term =>
    simp only [NodeOp.run, RaftNode.startElectionFinish]
    split_ifs <;> simp
  | propose command now acks =>
    simp only [NodeOp.run, RaftNode.Propose, RaftNode.proposeFinish, RaftNode.proposeAppend]
    split_ifs <;> simp
  | addNode nodeID address now => simp [NodeOp.run, RaftNode.AddNode]
  | removeNode nodeID => simp [NodeOp.run, RaftNode.RemoveNode]

/-- A vote cast by one call carries the term and the `votedFor` the node has
after the call. -/
theorem nodeOp_votes_spec (n : RaftNode) (op : NodeOp) (v : Int × String)
    (hv : v ∈ op.votes n) :
    v.1 = (op.run n).currentTerm ∧ v.2 = (op.run n).votedFor ∧
      ((∃ req, op = NodeOp.requestVote req ∧ v.2 = req.CandidateID) ∨
        v.2 = n.config.NodeID) ∧
      (v.1 = n.currentTerm → n.votedFor ≠ "" → v.2 = n.votedFor) := by
  cases op with
  | requestVote req =>
    simp only [NodeOp.votes] at hv
    split_ifs at hv with hg
    · simp only [List.mem_singleton] at hv
      subst hv
      obtain ⟨_, _, h3⟩ := RequestVote_vote n req
      exact ⟨rfl, (h3 hg).1.symm, Or.inl ⟨req, rfl, rfl⟩, (h3 hg).2⟩
    · simp at hv
  | electionBegin =>
    simp only [NodeOp.votes, List.mem_singleton] at hv
    subst hv
    refine ⟨rfl, rfl, Or.inr rfl, ?_⟩
    intro h
    simp only [RaftNode.startElectionBegin] at h
    exact absurd h (wrap64_succ_ne _)
  | appendEntries req => simp [NodeOp.votes] at hv
  | installSnapshot req now => simp [NodeOp.votes] at hv
  | electionFinish votes quorum term => simp [NodeOp.votes] at hv
  | propose command now acks => simp [NodeOp.votes] at hv
  | addNode nodeID address now => simp [NodeOp.votes] at hv
  | removeNode nodeID => simp [NodeOp.votes] at hv

theorem votesGiven_term (ops : List NodeOp) : ∀ (n : RaftNode) (v : Int × String),
    minInt64 ≤ n.currentTerm → opsNoWrap n ops = true →
    v ∈ votesGiven n ops → n.currentTerm ≤ v.1 := by
  induction ops with
  | nil => intro n v _ _ hv; simp [votesGiven] at hv
  | cons op ops ih =>
    intro n v h0 hfit hv
    simp only [opsNoWrap, Bool.and_eq_true] at hfit
    simp only [votesGiven, List.mem_append] at hv
    have hm := (nodeOp_run_term n op h0 hfit.1).1
    rcases hv with hv | hv
    · rw [(nodeOp_votes_spec n op v hv).1]; exact hm
    · exact le_trans hm (ih _ v (le_trans h0 hm) hfit.2 hv)

theorem votesGiven_bound (ops : List NodeOp) : ∀ (n : RaftNode) (v : Int × String),
    minInt64 ≤ n.currentTerm → opsNoWrap n ops = true →
    n.votedFor ≠ "" → v ∈ votesGiven n ops → v.1 = n.currentTerm → v.2 = n.votedFor := by
  induction ops with
  | nil => intro n v _ _ _ hv; simp [votesGiven] at hv
  | cons op ops ih =>
    intro n v h0 hfit hne hv ht
    simp only [opsNoWrap, Bool.and_eq_true] at hfit
    simp only [votesGiven, List.mem_append] at hv
    obtain ⟨hm, hk⟩ := nodeOp_run_term n op h0 hfit.1
    rcases hv with hv | hv
    · exact (nodeOp_votes_spec n op v hv).2.2.2 ht hne
    · have h1 := votesGiven_term ops _ v (le_trans h0 hm) hfit.2 hv
      have he : (op.run n).currentTerm = n.currentTerm := by omega
      have hvf := hk he hne
      rw [← hvf]
      exact ih _ v (le_trans h0 hm) hfit.2 (by rw [hvf]; exact hne) hv (by rw [he]; exact ht)

/-- C6, as amended: when the node's own ID and the candidate IDs of the
requests are non-empty and no election is started while `currentTerm` is
`math.MaxInt64` (the node's term being an `int64`), any two votes the node
gives during a sequence of `RequestVote` requests, `AppendEntries` requests and
election starts (and any other calls) in the same term name the same
candidate. -/
theorem one_vote_per_term (ops : List NodeOp) : ∀ (n : RaftNode),
    n.config.NodeID ≠ "" →
    (∀ req, NodeOp.requestVote req ∈ ops → req.CandidateID ≠ "") →
    minInt64 ≤ n.currentTerm → opsNoWrap n ops = true →
    ∀ v1 ∈ votesGiven n ops, ∀ v2 ∈ votesGiven n ops, v1.1 = v2.1 → v1.2 = v2.2 := by
  induction ops with
  | nil => intro n _ _ _ _ v1 hv1; simp [votesGiven] at hv1
  | cons op ops ih =>
    intro n hid hc h0 hfit v1 hv1 v2 hv2 ht
    simp only [opsNoWrap, Bool.and_eq_true] at hfit
    have hm := (nodeOp_run_term n op h0 hfit.1).1
    simp only [votesGiven, List.mem_append] at hv1 hv2
    have hne : ∀ v ∈ op.votes n, v.2 ≠ "" := by
      intro v hv
      rcases (nodeOp_votes_spec n op v hv).2.2.1 with ⟨req, hop, hreq⟩ | h
      · rw [hreq]; exact hc req (by rw [hop]; exact List.mem_cons_self _ _)
      · rw [h]; exact hid
    have cross : ∀ v ∈ op.votes n, ∀ w ∈ votesGiven (op.run n) ops, v.1 = w.1 → v.2 = w.2 := by
      intro v hv w hw hvw
      obtain ⟨h1, h2, _, _⟩ := nodeOp_votes_spec n op v hv
      have := votesGiven_bound ops (op.run n) w (le_trans h0 hm) hfit.2
        (by rw [← h2]; exact hne v hv) hw (by rw [← hvw, h1])
      rw [this, h2]
    rcases hv1 with hv1 | hv1 <;> rcases hv2 with hv2 | hv2
    · obtain ⟨_, h2, _, _⟩ := nodeOp_votes_spec n op v1 hv1
      obtain ⟨_, h2b, _, _⟩ := nodeOp_votes_spec n op v2 hv2
      rw [h2, h2b]
    · exact cross v1 hv1 v2 hv2 ht
    · exact (cross v2 hv2 v1 hv1 ht.symm).symm
    · exact ih (op.run n) (by rw [nodeOp_run_config]; exact hid)
        (fun req hr => hc req (List.mem_cons_of_mem _ hr)) (le_trans h0 hm) hfit.2
        v1 hv1 v2 hv2 ht

/-! ## Election safety -/

theorem RequestVote_frame (n : RaftNode) (req : VoteRequest) :
    (n.RequestVote req).1.config = n.config ∧
    (n.RequestVote req).1.membership = n.membership ∧
    ((n.RequestVote req).1.state = NodeState.StateLeader →
      n.state = NodeState.StateLeader ∧ (n.RequestVote req).1.currentTerm = n.currentTerm) ∧
    ((n.RequestVote req).2.VoteGranted = true →
      (n.RequestVote req).1.currentTerm = req.Term) ∧
    ((n.RequestVote req).2.VoteGranted = true → req.Term = n.currentTerm →
      n.votedFor = "" ∨ n.votedFor = req.CandidateID) ∧
    ((n.RequestVote req).2.VoteGranted = false →
      (n.RequestVote req).1.currentTerm = n.currentTerm → (n.RequestVote req).1 = n) := by
  unfold RaftNode.RequestVote
  by_cases h1 : req.Term < n.currentTerm
  · rw [if_pos h1]
    refine ⟨rfl, rfl, fun h => ⟨h, rfl⟩, ?_, ?_, fun _ _ => rfl⟩ <;> intro h <;> simp at h
  · by_cases h2 : req.Term > n.currentTerm
    · simp only [h1, h2, if_true, if_false]
      split_ifs with h3
      · refine ⟨?_, ?_, ?_, ?_, ?_, ?_⟩
        · trivial
        · trivial
        · intro h; simp at h
        · intro _; trivial
        · intro _ h; omega
        · intro h; simp at h
      · refine ⟨?_, ?_, ?_, ?_, ?_, ?_⟩
        · trivial
        · trivial
        · intro h; simp at h
        · intro h; simp at h
        · intro h; simp at h
        · intro _ h; simp at h; omega
    · simp only [h1, h2, if_false]
      split_ifs with h3
      · refine ⟨?_, ?_, ?_, ?_, ?_, ?_⟩
        · trivial
        · trivial
        · intro h; exact ⟨h, rfl⟩
        · intro _; simp; omega
        · intro _ _; exact h3.1
        · intro h; simp at h
      · refine ⟨?_, ?_, ?_, ?_, ?_, ?_⟩
        · trivial
        · trivial
        · intro h; exact ⟨h, rfl⟩
        · intro h; simp at h
        · intro h; simp at h
        · intro _ _; trivial

theorem AppendEntries_vote (n : RaftNode) (req : AppendEntriesRequest) :
    (n.AppendEntries req).1.config = n.config ∧
    (n.AppendEntries req).1.membership = n.membership ∧
    (n.AppendEntries req).1.votedFor = n.votedFor ∧
    n.currentTerm ≤ (n.AppendEntries req).1.currentTerm ∧
    ((n.AppendEntries req).1.state = NodeState.StateLeader →
      n.state = NodeState.StateLeader ∧ (n.AppendEntries req).1.currentTerm = n.currentTerm) := by
  by_cases h : req.Term < n.currentTerm
  · simp [AppendEntries_stale n req h]
  · obtain ⟨_, h1, h2, h3, h4, _, _, _, h8⟩ := AppendEntries_frame n req (by omega)
    refine ⟨h1, h8, h4, by omega, ?_⟩
    intro hl
    rw [h2] at hl
    cases hl

theorem Propose_vote (n : RaftNode) (command : Command) (now acks : Nat) :
    (n.Propose command now acks).1.config = n.config ∧
    (n.Propose command now acks).1.membership = n.membership ∧
    (n.Propose command now acks).1.votedFor = n.votedFor ∧
    (n.Propose command now acks).1.currentTerm = n.currentTerm ∧
    (n.Propose command now acks).1.state = n.state := by
  simp only [RaftNode.Propose, RaftNode.proposeFinish, RaftNode.proposeAppend]
  split_ifs <;> simp

theorem votersOf_mono {k : Nat} {v w : Fin k → Int → Option (Fin k)} (h : VotedLE v w)
    (T : Int) (c : Fin k) : (votersOf v T c).card ≤ (votersOf w T c).card := by
  apply Finset.card_le_card
  intro j hj
  simp only [votersOf, Finset.mem_filter, Finset.mem_univ, true_and] at hj ⊢
  exact h j T c hj

theorem counted_mono {k : Nat} {v w : Fin k → Int → Option (Fin k)} (h : VotedLE v w)
    (T : Int) (c : Fin k) (l : List (Fin k)) :
    (Finset.univ.filter (fun j => j ∉ l ∧ v j T = some c)).card ≤
      (Finset.univ.filter (fun j => j ∉ l ∧ w j T = some c)).card := by
  apply Finset.card_le_card
  intro j hj
  simp only [Finset.mem_filter, Finset.mem_univ, true_and] at hj ⊢
  exact ⟨hj.1, h j T c hj.2⟩

theorem counted_le_votersOf {k : Nat} (v : Fin k → Int → Option (Fin k))
    (T : Int) (c : Fin k) (l : List (Fin k)) :
    (Finset.univ.filter (fun j => j ∉ l ∧ v j T = some c)).card ≤ (votersOf v T c).card := by
  apply Finset.card_le_card
  intro j hj
  simp only [votersOf, Finset.mem_filter, Finset.mem_univ, true_and] at hj ⊢
  exact hj.2

theorem peersOf_nodup {k : Nat} (i : Fin k) : (peersOf i).Nodup :=
  (List.nodup_finRange k).filter _

theorem not_mem_peersOf {k : Nat} (i : Fin k) : i ∉ peersOf i := by
  simp [peersOf]

/-- Invariant step: the timer of `i` fires. -/
theorem electionInv_electionStart {k : Nat} {ids : Fin k → String} {s : Cluster k}
    {voted : Fin k → Int → Option (Fin k)} (hinv : ElectionInv ids s voted) (i : Fin k)
    (hmax : (s i).node.currentTerm < maxInt64) :
    ∃ voted1, VotedLE voted voted1 ∧ ElectionInv ids
      (Function.update s i
        { node := (s i).node.startElectionBegin.1
          election := some
            { request := (s i).node.startElectionBegin.2
              quorum := (s i).node.startElectionBegin.1.membership.GetQuorum
              votes := 1
              waiting := peersOf i } }) voted1 := by
  have hw : wrap64 ((s i).node.currentTerm + 1) = (s i).node.currentTerm + 1 :=
    wrap64_succ _ (hinv.lower i) hmax
  simp only [RaftNode.startElectionBegin, hw]
  let T := (s i).node.currentTerm
  let voted1 : Fin k → Int → Option (Fin k) :=
    fun j T1 => if j = i ∧ T1 = T + 1 then some i else voted j T1
  have hle : VotedLE voted voted1 := by
    intro j T1 c h
    simp only [voted1]
    split_ifs with hc
    · have := hinv.past j T1 c h
      rw [hc.1, hc.2] at this
      simp only [T] at this
      omega
    · exact h
  refine ⟨voted1, hle, ?_⟩
  constructor
  · intro j
    by_cases hj : j = i
    · subst hj
      simpa [RaftNode.startElectionBegin] using hinv.config j
    · simpa [Function.update_noteq hj] using hinv.config j
  · intro j
    by_cases hj : j = i
    · subst hj
      simpa [RaftNode.startElectionBegin] using hinv.quorum j
    · simpa [Function.update_noteq hj] using hinv.quorum j
  · intro j T1 c h
    by_cases hj : j = i
    · subst hj
      simp only [Function.update_same, RaftNode.startElectionBegin]
      simp only [voted1] at h
      split_ifs at h with hc
      · rw [hc.2]
      · have := hinv.past j T1 c h
        omega
    · simp only [Function.update_noteq hj]
      simp only [voted1, hj, false_and, if_false] at h
      exact hinv.past j T1 c h
  · intro j c h
    by_cases hj : j = i
    · subst hj
      simp only [Function.update_same, RaftNode.startElectionBegin] at h ⊢
      simp only [voted1, T, true_and, if_true] at h
      simp only [Option.some.injEq] at h
      rw [← h]
      exact hinv.config j
    · simp only [Function.update_noteq hj] at h ⊢
      simp only [voted1, hj, false_and, if_false] at h
      exact hinv.current j c h
  · intro j run hrun
    by_cases hj : j = i
    · subst hj
      simp only [Function.update_same, Option.some.injEq] at hrun
      subst hrun
      simp only [RaftNode.startElectionBegin]
      refine ⟨hinv.config j, hinv.quorum j, peersOf_nodup j, not_mem_peersOf j, ?_⟩
      apply Finset.card_pos.mpr
      refine ⟨j, ?_⟩
      simp only [Finset.mem_filter, Finset.mem_univ, true_and]
      exact ⟨not_mem_peersOf j, by simp [voted1, T]⟩
    · simp only [Function.update_noteq hj] at hrun
      obtain ⟨h1, h2, h3, h4, h5⟩ := hinv.running j run hrun
      exact ⟨h1, h2, h3, h4, le_trans h5 (counted_mono hle _ _ _)⟩
  · intro j hl
    by_cases hj : j = i
    · subst hj
      simp [RaftNode.startElectionBegin] at hl
    · simp only [Function.update_noteq hj] at hl ⊢
      exact le_trans (hinv.leader j hl) (votersOf_mono hle _ _)
  · intro j
    by_cases hj : j = i
    · subst hj
      simp only [Function.update_same]
      have := hinv.lower j
      omega
    · simp only [Function.update_noteq hj]
      exact hinv.lower j

/-- Invariant step: one goroutine of the election of `i` asks peer `j`. -/
theorem electionInv_voteDeliver {k : Nat} {ids : Fin k → String} {s s1 : Cluster k}
    {voted : Fin k → Int → Option (Fin k)} (hinv : ElectionInv ids s voted)
    (hinj : Function.Injective ids) (hne : ∀ i, ids i ≠ "") (i j : Fin k)
    (hstep : s.step (Action.voteDeliver i j) = some s1) :
    ∃ voted1, VotedLE voted voted1 ∧ ElectionInv ids s1 voted1 := by
  simp only [Cluster.step] at hstep
  cases hrun : (s i).election with
  | none => simp [hrun] at hstep
  | some run =>
    simp only [hrun] at hstep
    by_cases hj : j ∈ run.waiting
    swap
    · rw [if_neg hj] at hstep
      cases hstep
    rw [if_pos hj, Option.some.injEq] at hstep
    obtain ⟨hcand, hq, hnd, hi, hvotes⟩ := hinv.running i run hrun
    have hij : i ≠ j := fun h => hi (h ▸ hj)
    have hji : j ≠ i := fun h => hij h.symm
    obtain ⟨f1, f2, f3, f4, f5, f6⟩ := RequestVote_frame (s j).node run.request
    obtain ⟨g1, _, g3⟩ := RequestVote_vote (s j).node run.request
    -- the three kinds of node in the new state
    have hsi : s1 i = ClusterNode.mk (s i).node (some (ElectionRun.mk run.request run.quorum
        (if ((s j).node.RequestVote run.request).2.VoteGranted = true
          then run.votes + 1 else run.votes)
        (run.waiting.erase j))) := by
      rw [← hstep]; simp [Function.update_noteq hij]
    have hsj : s1 j = { node := ((s j).node.RequestVote run.request).1,
                        election := (s j).election } := by
      rw [← hstep]; simp [Function.update_noteq hji]
    have hsx : ∀ x, x ≠ i → x ≠ j → s1 x = s x := by
      intro x hxi hxj
      rw [← hstep]; simp [Function.update_noteq hxi, Function.update_noteq hxj]
    let voted1 : Fin k → Int → Option (Fin k) := fun x T1 =>
      if x = j ∧ T1 = run.request.Term ∧
          ((s j).node.RequestVote run.request).2.VoteGranted = true then some i
      else voted x T1
    have hnew : ∀ x T1 c, voted1 x T1 = some c →
        (x = j ∧ T1 = run.request.Term ∧
          ((s j).node.RequestVote run.request).2.VoteGranted = true ∧ c = i) ∨
        voted x T1 = some c := by
      intro x T1 c h
      simp only [voted1] at h
      split_ifs at h with hc
      · left; exact ⟨hc.1, hc.2.1, hc.2.2, by simpa using h.symm⟩
      · right; exact h
    have hle : VotedLE voted voted1 := by
      intro x T1 c h
      simp only [voted1]
      split_ifs with hc
      · obtain ⟨hx, hT, hg⟩ := hc
        subst hx
        have h1 := hinv.past x T1 c h
        have h2 := f4 hg
        have hTe : run.request.Term = (s x).node.currentTerm := by omega
        rw [hT, hTe] at h
        have h3 := hinv.current x c h
        rcases f5 hg hTe with h4 | h4
        · exact absurd (h3 ▸ h4) (hne c)
        · rw [h3, hcand] at h4
          rw [hinj h4]
      · exact h
    refine ⟨voted1, hle, ?_⟩
    have hnode : ∀ x, x ≠ j → (s1 x).node = (s x).node := by
      intro x hx
      by_cases hxi : x = i
      · rw [hxi, hsi]
      · rw [hsx x hxi hx]
    have hvx : ∀ x, x ≠ j → voted1 x = voted x := by
      intro x hx
      funext T1
      simp [voted1, hx]
    constructor
    · intro x
      by_cases hx : x = j
      · rw [hx, hsj]; simp only; rw [f1]; exact hinv.config j
      · rw [hnode x hx]; exact hinv.config x
    · intro x
      by_cases hx : x = j
      · rw [hx, hsj]; simp only; rw [f2]; exact hinv.quorum j
      · rw [hnode x hx]; exact hinv.quorum x
    · intro x T1 c h
      by_cases hx : x = j
      · subst hx
        rw [hsj]
        simp only
        rcases hnew x T1 c h with ⟨_, hT, hg, _⟩ | h
        · rw [f4 hg, hT]
        · exact le_trans (hinv.past x T1 c h) g1
      · rw [hnode x hx]
        rw [hvx x hx] at h
        exact hinv.past x T1 c h
    · intro x c h
      by_cases hx : x = j
      · subst hx
        rw [hsj] at h ⊢
        simp only at h ⊢
        by_cases hg : ((s x).node.RequestVote run.request).2.VoteGranted = true
        · have hc : c = i := by
            simp only [voted1, f4 hg, hg, and_self, if_true, Option.some.injEq] at h
            exact h.symm
          rw [(g3 hg).1, hcand, hc]
        · have hg2 : ((s x).node.RequestVote run.request).2.VoteGranted = false := by
            simpa using hg
          have hv : voted x ((s x).node.RequestVote run.request).1.currentTerm = some c := by
            simpa [voted1, hg] using h
          have hp := hinv.past x _ c hv
          have he : ((s x).node.RequestVote run.request).1.currentTerm =
              (s x).node.currentTerm := by omega
          rw [f6 hg2 he]
          rw [he] at hv
          exact hinv.current x c hv
      · rw [hnode x hx] at h ⊢
        rw [hvx x hx] at h
        exact hinv.current x c h
    · intro x r hr
      by_cases hxi : x = i
      · subst hxi
        rw [hsi] at hr
        simp only [Option.some.injEq] at hr
        subst hr
        simp only
        refine ⟨hcand, hq, hnd.erase j, fun h => hi (List.mem_of_mem_erase h), ?_⟩
        have hsub : (Finset.univ.filter
            (fun y => y ∉ run.waiting ∧ voted y run.request.Term = some x)) ⊆
            (Finset.univ.filter
              (fun y => y ∉ run.waiting.erase j ∧ voted1 y run.request.Term = some x)) := by
          intro y hy
          simp only [Finset.mem_filter, Finset.mem_univ, true_and] at hy ⊢
          exact ⟨fun h => hy.1 (List.mem_of_mem_erase h), hle y _ _ hy.2⟩
        split_ifs with hg
        · have hlt : (Finset.univ.filter
              (fun y => y ∉ run.waiting ∧ voted y run.request.Term = some x)).card <
              (Finset.univ.filter
                (fun y => y ∉ run.waiting.erase j ∧
                  voted1 y run.request.Term = some x)).card := by
            apply Finset.card_lt_card
            refine Finset.ssubset_iff_subset_ne.mpr ⟨hsub, ?_⟩
            intro heq
            have hjin : j ∈ (Finset.univ.filter
                (fun y => y ∉ run.waiting.erase j ∧ voted1 y run.request.Term = some x)) := by
              simp only [Finset.mem_filter, Finset.mem_univ, true_and]
              refine ⟨?_, by simp [voted1, hg]⟩
              exact fun h => (List.Nodup.not_mem_erase hnd) h
            rw [← heq] at hjin
            simp only [Finset.mem_filter, Finset.mem_univ, true_and] at hjin
            exact hjin.1 hj
          omega
        · exact le_trans hvotes (Finset.card_le_card hsub)
      · have hel : (s1 x).election = (s x).election := by
          by_cases hxj : x = j
          · rw [hxj, hsj]
          · rw [hsx x hxi hxj]
        rw [hel] at hr
        obtain ⟨h1, h2, h3, h4, h5⟩ := hinv.running x r hr
        exact ⟨h1, h2, h3, h4, le_trans h5 (counted_mono hle _ _ _)⟩
    · intro x hl
      by_cases hx : x = j
      · subst hx
        rw [hsj] at hl ⊢
        simp only at hl ⊢
        obtain ⟨hl1, hl2⟩ := f3 hl
        rw [hl2]
        exact le_trans (hinv.leader x hl1) (votersOf_mono hle _ _)
      · rw [hnode x hx] at hl ⊢
        exact le_trans (hinv.leader x hl) (votersOf_mono hle _ _)
    · intro x
      by_cases hx : x = j
      · subst hx
        rw [hsj]
        exact le_trans (hinv.lower x) g1
      · rw [hnode x hx]
        exact hinv.lower x

/-- Invariant step for steps that cast no vote: elections only end, terms
only grow, `votedFor` stays, and a node is leader afterwards only if it was
leader in the same term or its election had collected a quorum in that term. -/
theorem electionInv_of_local {k : Nat} {ids : Fin k → String} {s s1 : Cluster k}
    {voted : Fin k → Int → Option (Fin k)} (hinv : ElectionInv ids s voted)
    (hel : ∀ x r, (s1 x).election = some r → (s x).election = some r)
    (hcfg : ∀ x, (s1 x).node.config = (s x).node.config)
    (hmem : ∀ x, (s1 x).node.membership = (s x).node.membership)
    (hvf : ∀ x, (s1 x).node.votedFor = (s x).node.votedFor)
    (hterm : ∀ x, (s x).node.currentTerm ≤ (s1 x).node.currentTerm)
    (hlead : ∀ x, (s1 x).node.state = NodeState.StateLeader →
      (s1 x).node.currentTerm = (s x).node.currentTerm ∧
        ((s x).node.state = NodeState.StateLeader ∨
          ∃ r, (s x).election = some r ∧ r.votes ≥ r.quorum ∧
            r.request.Term = (s x).node.currentTerm)) :
    ElectionInv ids s1 voted := by
  constructor
  · intro x; rw [hcfg x]; exact hinv.config x
  · intro x; rw [hmem x]; exact hinv.quorum x
  · intro x T c h; exact le_trans (hinv.past x T c h) (hterm x)
  · intro x c h
    have hp := hinv.past x _ c h
    have he : (s1 x).node.currentTerm = (s x).node.currentTerm := le_antisymm hp (hterm x)
    rw [he] at h
    rw [hvf x]
    exact hinv.current x c h
  · intro x r hr
    exact hinv.running x r (hel x r hr)
  · intro x hl
    obtain ⟨he, h⟩ := hlead x hl
    rw [he]
    rcases h with h | ⟨r, hr, hv, ht⟩
    · exact hinv.leader x h
    · obtain ⟨_, h2, _, _, h5⟩ := hinv.running x r hr
      rw [← ht]
      have := counted_le_votersOf voted r.request.Term x r.waiting
      omega
  · intro x; exact le_trans (hinv.lower x) (hterm x)

/-- Invariant step: the election of `i` ends. -/
theorem electionInv_electionFinish {k : Nat} {ids : Fin k → String} {s s1 : Cluster k}
    {voted : Fin k → Int → Option (Fin k)} (hinv : ElectionInv ids s voted) (i : Fin k)
    (hstep : s.step (Action.electionFinish i) = some s1) : ElectionInv ids s1 voted := by
  simp only [Cluster.step] at hstep
  cases hrun : (s i).election with
  | none => simp [hrun] at hstep
  | some run =>
    simp only [hrun] at hstep
    by_cases hw : run.waiting = []
    swap
    · rw [if_neg hw] at hstep
      cases hstep
    rw [if_pos hw] at hstep
    split_ifs at hstep with hpanic
    rw [Option.some.injEq] at hstep
    have hsx : ∀ x, x ≠ i → s1 x = s x := by
      intro x hx; rw [← hstep]; simp [Function.update_noteq hx]
    have hsi : s1 i = ClusterNode.mk
        ((s i).node.startElectionFinish run.votes run.quorum run.request.Term) none := by
      rw [← hstep]; simp
    apply electionInv_of_local hinv
    · intro x r hr
      by_cases hx : x = i
      · rw [hx, hsi] at hr; cases hr
      · rw [hsx x hx] at hr; exact hr
    · intro x
      by_cases hx : x = i
      · rw [hx, hsi]; simp only [RaftNode.startElectionFinish]; split_ifs <;> rfl
      · rw [hsx x hx]
    · intro x
      by_cases hx : x = i
      · rw [hx, hsi]; simp only [RaftNode.startElectionFinish]; split_ifs <;> rfl
      · rw [hsx x hx]
    · intro x
      by_cases hx : x = i
      · rw [hx, hsi]; simp only [RaftNode.startElectionFinish]; split_ifs <;> rfl
      · rw [hsx x hx]
    · intro x
      by_cases hx : x = i
      · rw [hx, hsi]; simp only [RaftNode.startElectionFinish]; split_ifs <;> exact le_refl _
      · rw [hsx x hx]
    · intro x hl
      by_cases hx : x = i
      · rw [hx, hsi] at hl ⊢
        simp only [RaftNode.startElectionFinish] at hl ⊢
        split_ifs at hl ⊢ with hc
        exact ⟨rfl, Or.inr ⟨run, hrun, hc.1, hc.2.symm⟩⟩
      · rw [hsx x hx] at hl ⊢
        exact ⟨rfl, Or.inl hl⟩

/-- Invariant step: any `AppendEntries` request reaches `j`. -/
theorem electionInv_appendDeliver {k : Nat} {ids : Fin k → String} {s s1 : Cluster k}
    {voted : Fin k → Int → Option (Fin k)} (hinv : ElectionInv ids s voted) (j : Fin k)
    (req : AppendEntriesRequest)
    (hstep : s.step (Action.appendDeliver j req) = some s1) : ElectionInv ids s1 voted := by
  simp only [Cluster.step, Option.some.injEq] at hstep
  have hsx : ∀ x, x ≠ j → s1 x = s x := by
    intro x hx; rw [← hstep]; simp [Function.update_noteq hx]
  have hsj : s1 j = ClusterNode.mk ((s j).node.AppendEntries req).1 (s j).election := by
    rw [← hstep]; simp
  obtain ⟨a1, a2, a3, a4, a5⟩ := AppendEntries_vote (s j).node req
  apply electionInv_of_local hinv
  · intro x r hr
    by_cases hx : x = j
    · rw [hx, hsj] at hr; rw [hx]; exact hr
    · rw [hsx x hx] at hr; exact hr
  · intro x
    by_cases hx : x = j
    · rw [hx, hsj]; exact a1
    · rw [hsx x hx]
  · intro x
    by_cases hx : x = j
    · rw [hx, hsj]; exact a2
    · rw [hsx x hx]
  · intro x
    by_cases hx : x = j
    · rw [hx, hsj]; exact a3
    · rw [hsx x hx]
  · intro x
    by_cases hx : x = j
    · rw [hx, hsj]; exact a4
    · rw [hsx x hx]
  · intro x hl
    by_cases hx : x = j
    · rw [hx, hsj] at hl ⊢
      obtain ⟨h1, h2⟩ := a5 hl
      exact ⟨h2, Or.inl h1⟩
    · rw [hsx x hx] at hl ⊢
      exact ⟨rfl, Or.inl hl⟩

/-- Invariant step: `i.Propose`. -/
theorem electionInv_propose {k : Nat} {ids : Fin k → String} {s s1 : Cluster k}
    {voted : Fin k → Int → Option (Fin k)} (hinv : ElectionInv ids s voted) (i : Fin k)
    (command : Command) (now : Nat)
    (hstep : s.step (Action.propose i command now) = some s1) : ElectionInv ids s1 voted := by
  simp only [Cluster.step] at hstep
  by_cases hL : (s i).node.state = NodeState.StateLeader
  swap
  · rw [if_neg hL, Option.some.injEq] at hstep
    rw [← hstep]; exact hinv
  rw [if_pos hL, Option.some.injEq] at hstep
  have hsi : s1 i = ClusterNode.mk ((s i).node.Propose command now
      (ackCount s i ((s i).node.proposeRequest ((s i).node.proposeEntry command now)))).1
      (s i).election := by
    rw [← hstep]; simp
  have hsx : ∀ x, x ≠ i → s1 x = ClusterNode.mk ((s x).node.AppendEntries
      ((s i).node.proposeRequest ((s i).node.proposeEntry command now))).1 (s x).election := by
    intro x hx; rw [← hstep]; simp [hx]
  obtain ⟨p1, p2, p3, p4, p5⟩ := Propose_vote (s i).node command now
    (ackCount s i ((s i).node.proposeRequest ((s i).node.proposeEntry command now)))
  apply electionInv_of_local hinv
  · intro x r hr
    by_cases hx : x = i
    · rw [hx, hsi] at hr; rw [hx]; exact hr
    · rw [hsx x hx] at hr; exact hr
  · intro x
    by_cases hx : x = i
    · rw [hx, hsi]; exact p1
    · rw [hsx x hx]; exact (AppendEntries_vote _ _).1
  · intro x
    by_cases hx : x = i
    · rw [hx, hsi]; exact p2
    · rw [hsx x hx]; exact (AppendEntries_vote _ _).2.1
  · intro x
    by_cases hx : x = i
    · rw [hx, hsi]; exact p3
    · rw [hsx x hx]; exact (AppendEntries_vote _ _).2.2.1
  · intro x
    by_cases hx : x = i
    · rw [hx, hsi]; exact p4.ge
    · rw [hsx x hx]; exact (AppendEntries_vote _ _).2.2.2.1
  · intro x hl
    by_cases hx : x = i
    · rw [hx, hsi] at hl ⊢
      exact ⟨p4, Or.inl hL⟩
    · rw [hsx x hx] at hl ⊢
      obtain ⟨h1, h2⟩ := (AppendEntries_vote _ _).2.2.2.2 hl
      exact ⟨h2, Or.inl h1⟩

theorem peersOf_length {k : Nat} (i : Fin k) : (peersOf i).length = k - 1 := by
  have h : peersOf i = (List.finRange k).erase i := by
    unfold peersOf
    rw [List.Nodup.erase_eq_filter (List.nodup_finRange k)]
    apply List.filter_congr
    intro x _
    by_cases hx : x = i <;> simp [hx]
  rw [h, List.length_erase_of_mem (List.mem_finRange i), List.length_finRange]

theorem wire_fold {k : Nat} (ids : Fin k → String) (hinj : Function.Injective ids)
    (l : List (Fin k)) : ∀ (n : RaftNode), l.Nodup →
    (∀ m ∈ n.membership.members, ∀ j ∈ l, m.ID ≠ ids j) →
    (l.foldl (fun n j => n.AddNode (ids j) "" 0) n).config = n.config ∧
    (l.foldl (fun n j => n.AddNode (ids j) "" 0) n).state = n.state ∧
    (l.foldl (fun n j => n.AddNode (ids j) "" 0) n).currentTerm = n.currentTerm ∧
    (l.foldl (fun n j => n.AddNode (ids j) "" 0) n).membership.members =
      n.membership.members ++ l.map (fun j =>
        Member.mk (ids j) "" MemberStatus.MemberStatusAlive MemberRole.MemberRoleVoter 0) := by
  induction l with
  | nil => intro n _ _; simp
  | cons j l ih =>
    intro n hnd hfresh
    rw [List.nodup_cons] at hnd
    simp only [List.foldl_cons]
    have hkeep : (n.membership.members.filter (fun x => x.ID ≠ ids j)) =
        n.membership.members := by
      apply List.filter_eq_self.mpr
      intro m hm
      simpa using hfresh m hm j (List.mem_cons_self _ _)
    obtain ⟨h1, h2, h3, h4⟩ := ih (n.AddNode (ids j) "" 0) hnd.2 (by
      intro m hm j1 hj1
      simp only [RaftNode.AddNode, MembershipManager.AddMember, hkeep, List.mem_append,
        List.mem_singleton] at hm
      rcases hm with hm | hm
      · exact hfresh m hm j1 (List.mem_cons_of_mem _ hj1)
      · rw [hm]
        intro he
        have := hinj he
        exact hnd.1 (this ▸ hj1))
    refine ⟨h1, h2, h3, ?_⟩
    rw [h4]
    simp only [RaftNode.AddNode, MembershipManager.AddMember, hkeep, List.map_cons,
      List.append_assoc, List.singleton_append]

theorem wiredNode_spec {k : Nat} (ids : Fin k → String) (hinj : Function.Injective ids)
    (i : Fin k) :
    (wiredNode ids i).config.NodeID = ids i ∧
    (wiredNode ids i).state = NodeState.StateFollower ∧
    (wiredNode ids i).currentTerm = 0 ∧
    (wiredNode ids i).membership.GetQuorum = k / 2 + 1 := by
  obtain ⟨h1, h2, h3, h4⟩ := wire_fold ids hinj (peersOf i)
    (RaftNode.NewRaftNode (mainConfig (ids i)) [] 0) (peersOf_nodup i) (by
      intro m hm j hj
      simp only [RaftNode.NewRaftNode, MembershipManager.AddMember,
        MembershipManager.NewMembershipManager, List.filter_nil, List.nil_append,
        List.mem_singleton] at hm
      rw [hm]
      intro he
      have := hinj he
      exact not_mem_peersOf i (this ▸ hj))
  unfold wiredNode
  refine ⟨by rw [h1]; rfl, by rw [h2]; rfl, by rw [h3]; rfl, ?_⟩
  unfold MembershipManager.GetQuorum MembershipManager.aliveVoters
  rw [h4]
  have hall : ∀ (l : List (Fin k)), ((l.map (fun j =>
      Member.mk (ids j) "" MemberStatus.MemberStatusAlive MemberRole.MemberRoleVoter 0)).filter
      (fun x => x.Role = MemberRole.MemberRoleVoter ∧
        x.Status = MemberStatus.MemberStatusAlive)).length = l.length := by
    intro l
    induction l with
    | nil => rfl
    | cons a t ih => simp [List.filter_cons] at ih ⊢; exact ih
  rw [List.filter_append, List.length_append, hall, peersOf_length]
  have hk : 0 < k := Fin.pos i
  simp [RaftNode.NewRaftNode, MembershipManager.AddMember,
    MembershipManager.NewMembershipManager]
  congr 1
  omega

/-- The new cluster satisfies the invariant with the empty record of votes. -/
theorem electionInv_init {k : Nat} (ids : Fin k → String) (hinj : Function.Injective ids) :
    ElectionInv ids (Cluster.init ids) (fun _ _ => none) := by
  constructor
  · intro i; exact (wiredNode_spec ids hinj i).1
  · intro i; exact (wiredNode_spec ids hinj i).2.2.2
  · intro j T c h; cases h
  · intro j c h; cases h
  · intro i run h; cases h
  · intro i h
    rw [show (Cluster.init ids i).node.state = NodeState.StateFollower from
      (wiredNode_spec ids hinj i).2.1] at h
    cases h
  · intro i
    rw [show (Cluster.init ids i).node.currentTerm = 0 from (wiredNode_spec ids hinj i).2.2.1]
    decide

theorem electionInv_step {k : Nat} {ids : Fin k → String} {s s1 : Cluster k}
    {voted : Fin k → Int → Option (Fin k)} (hinv : ElectionInv ids s voted)
    (hinj : Function.Injective ids) (hne : ∀ i, ids i ≠ "") (a : Action k)
    (hfit : a.noWrap s = true) (hstep : s.step a = some s1) :
    ∃ voted1, VotedLE voted voted1 ∧ ElectionInv ids s1 voted1 := by
  cases a with
  | electionStart i =>
    simp only [Action.noWrap, decide_eq_true_eq] at hfit
    simp only [Cluster.step] at hstep
    split_ifs at hstep with hc
    simp only [Option.some.injEq] at hstep
    rw [← hstep]
    exact electionInv_electionStart hinv i hfit
  | voteDeliver i j => exact electionInv_voteDeliver hinv hinj hne i j hstep
  | electionFinish i => exact ⟨voted, fun _ _ _ h => h, electionInv_electionFinish hinv i hstep⟩
  | appendDeliver j req => exact ⟨voted, fun _ _ _ h => h, electionInv_appendDeliver hinv j req hstep⟩
  | propose i command now => exact ⟨voted, fun _ _ _ h => h, electionInv_propose hinv i command now hstep⟩

theorem runNoWrap_cons {k : Nat} {s s1 : Cluster k} {a : Action k} {rest : List (Action k)}
    (h : s.runNoWrap (a :: rest) = some s1) :
    a.noWrap s = true ∧ ∃ s2, s.step a = some s2 ∧ s2.runNoWrap rest = some s1 := by
  simp only [Cluster.runNoWrap] at h
  split_ifs at h with hfit
  cases hs : s.step a with
  | none => simp [hs] at h
  | some s2 =>
    simp only [hs] at h
    exact ⟨hfit, s2, rfl, h⟩

/-- A run that does not overflow the term is a run. -/
theorem runNoWrap_run {k : Nat} (actions : List (Action k)) :
    ∀ (s s1 : Cluster k), s.runNoWrap actions = some s1 → s.run actions = some s1 := by
  induction actions with
  | nil => intro s s1 h; simpa [Cluster.runNoWrap, Cluster.run] using h
  | cons a rest ih =>
    intro s s1 h
    obtain ⟨_, s2, hs, hrest⟩ := runNoWrap_cons h
    simp only [Cluster.run, hs]
    exact ih s2 s1 hrest

theorem electionInv_run {k : Nat} {ids : Fin k → String} (hinj : Function.Injective ids)
    (hne : ∀ i, ids i ≠ "") (actions : List (Action k)) :
    ∀ (s s1 : Cluster k), (∃ voted, ElectionInv ids s voted) →
      s.runNoWrap actions = some s1 → ∃ voted1, ElectionInv ids s1 voted1 := by
  induction actions with
  | nil =>
    intro s s1 h hrun
    simp only [Cluster.runNoWrap, Option.some.injEq] at hrun
    rw [← hrun]; exact h
  | cons a rest ih =>
    intro s s1 h hrun
    obtain ⟨hfit, s2, hs, hrest⟩ := runNoWrap_cons hrun
    obtain ⟨voted, hinv⟩ := h
    obtain ⟨voted1, _, hinv1⟩ := electionInv_step hinv hinj hne a hfit hs
    exact ih s2 s1 ⟨voted1, hinv1⟩ hrest

theorem electionInv_one_leader {k : Nat} {ids : Fin k → String} {s : Cluster k}
    {voted : Fin k → Int → Option (Fin k)} (hinv : ElectionInv ids s voted) (i j : Fin k)
    (hi : (s i).node.state = NodeState.StateLeader)
    (hj : (s j).node.state = NodeState.StateLeader)
    (ht : (s i).node.currentTerm = (s j).node.currentTerm) : i = j := by
  by_contra hij
  have h1 := hinv.leader i hi
  have h2 := hinv.leader j hj
  rw [← ht] at h2
  have hdis : Disjoint (votersOf voted (s i).node.currentTerm i)
      (votersOf voted (s i).node.currentTerm j) := by
    rw [Finset.disjoint_left]
    intro x hx hx2
    simp only [votersOf, Finset.mem_filter, Finset.mem_univ, true_and] at hx hx2
    rw [hx] at hx2
    exact hij (Option.some.inj hx2)
  have hcard := Finset.card_union_of_disjoint hdis
  have hle : (votersOf voted (s i).node.currentTerm i ∪
      votersOf voted (s i).node.currentTerm j).card ≤ k := by
    have := Finset.card_le_univ (votersOf voted (s i).node.currentTerm i ∪
      votersOf voted (s i).node.currentTerm j)
    simpa using this
  omega

/-- C2, as amended: in a cluster of any size (3 and 5 included) whose nodes
have distinct, non-empty IDs, list each other as alive voters and are each
other's peers, no state reachable by election starts, `RequestVote` deliveries,
election completions, `AppendEntries` deliveries of arbitrary requests and
`Propose` calls, none of the elections being started at
`currentTerm = math.MaxInt64`, has two distinct leaders with the same
`currentTerm`. -/
theorem election_safety {k : Nat} (ids : Fin k → String) (hinj : Function.Injective ids)
    (hne : ∀ i, ids i ≠ "") (s : Cluster k) (hs : Cluster.ReachableNoWrap ids s) (i j : Fin k)
    (hi : (s i).node.state = NodeState.StateLeader)
    (hj : (s j).node.state = NodeState.StateLeader)
    (ht : (s i).node.currentTerm = (s j).node.currentTerm) : i = j := by
  obtain ⟨actions, hrun⟩ := hs
  obtain ⟨voted, hinv⟩ := electionInv_run hinj hne actions _ s
    ⟨_, electionInv_init ids hinj⟩ hrun
  exact electionInv_one_leader hinv i j hi hj ht

theorem idsABC_injective : Function.Injective idsABC := by
  intro a b h
  fin_cases a <;> fin_cases b <;> simp [idsABC] at h ⊢

theorem reachable_runD {k : Nat} (ids : Fin k → String) (actions : List (Action k))
    (h : ((Cluster.init ids).run actions).isSome = true) :
    Cluster.Reachable ids ((Cluster.init ids).runD actions) := by
  refine ⟨actions, ?_⟩
  unfold Cluster.runD
  cases hr : (Cluster.init ids).run actions with
  | none => simp [hr] at h
  | some x => rfl

theorem reachableNoWrap_runD {k : Nat} (ids : Fin k → String) (actions : List (Action k))
    (h : ((Cluster.init ids).runNoWrap actions).isSome = true) :
    Cluster.ReachableNoWrap ids ((Cluster.init ids).runD actions) := by
  refine ⟨actions, ?_⟩
  unfold Cluster.runD
  cases hr : (Cluster.init ids).runNoWrap actions with
  | none => simp [hr] at h
  | some x => rw [runNoWrap_run actions _ x hr]; rfl

/-- Witness of C2 as amended: after node `0` of the cluster `a`, `b`, `c`
has won the election of term 1 it is the only leader. -/
theorem election_safety_witness :
    Function.Injective idsABC ∧ (∀ i, idsABC i ≠ "") ∧
      Cluster.ReachableNoWrap idsABC ((Cluster.init idsABC).runD electRun) ∧
      (((Cluster.init idsABC).runD electRun) 0).node.state = NodeState.StateLeader ∧
      ∀ j, (((Cluster.init idsABC).runD electRun) j).node.state = NodeState.StateLeader →
        (((Cluster.init idsABC).runD electRun) 0).node.currentTerm =
          (((Cluster.init idsABC).runD electRun) j).node.currentTerm → 0 = j :=
  ⟨idsABC_injective, by decide, reachableNoWrap_runD idsABC electRun (by decide), by decide,
    fun j hj ht => election_safety idsABC idsABC_injective (by decide) _
      (reachableNoWrap_runD idsABC electRun (by decide)) 0 j (by decide) hj ht⟩

/-- C2 as written fails: in the three-node cluster with IDs `""`, `b`, `c`
(distinct IDs, three alive voters listed by every node, quorum 2) node `2`
grants its term-1 vote first to the node with the empty ID and then to `b`, and
both become leader in term 1.  With the IDs `a`, `b`, `c` the same happens
once a term wraps around: node `2` votes for `0` in term 1, is moved to
`math.MaxInt64` by an `AppendEntries` request, starts an election that takes it
to `math.MinInt64`, and then votes for `1` in term 1. -/
theorem election_safety_counterexample :
    Function.Injective idsWithEmpty ∧
      (∀ i, (wiredNode idsWithEmpty i).membership.aliveVoters = 3) ∧
      (((Cluster.init idsWithEmpty).run twoLeadersRun).map
        (fun s => ((s 0).node.state, (s 0).node.currentTerm,
          (s 1).node.state, (s 1).node.currentTerm))) =
        some (NodeState.StateLeader, 1, NodeState.StateLeader, 1) ∧
      (∀ i, (wiredNode idsABC i).membership.aliveVoters = 3) ∧
      (((Cluster.init idsABC).run wrapLeadersRun).map
        (fun s => ((s 0).node.state, (s 0).node.currentTerm,
          (s 1).node.state, (s 1).node.currentTerm))) =
        some (NodeState.StateLeader, 1, NodeState.StateLeader, 1) := by
  refine ⟨?_, by decide, by decide, by decide, by decide⟩
  intro a b h
  fin_cases a <;> fin_cases b <;> simp [idsWithEmpty] at h ⊢

/-- Witness of C6 as amended: `n1` votes for itself in term 1 and for `n2`
in terms 2 and 3. -/
theorem one_vote_per_term_witness :
    freshNode.config.NodeID ≠ "" ∧
      (∀ req, NodeOp.requestVote req ∈ votingOps → req.CandidateID ≠ "") ∧
      minInt64 ≤ freshNode.currentTerm ∧ opsNoWrap freshNode votingOps = true ∧
      votesGiven freshNode votingOps = [(1, "n1"), (2, "n2"), (3, "n2")] ∧
      ∀ v1 ∈ votesGiven freshNode votingOps, ∀ v2 ∈ votesGiven freshNode votingOps,
        v1.1 = v2.1 → v1.2 = v2.2 :=
  have hc : ∀ req, NodeOp.requestVote req ∈ votingOps → req.CandidateID ≠ "" := by
    intro req h
    simp [votingOps] at h
    rcases h with h | h | h <;> subst h <;> decide
  ⟨by decide, hc, by decide, by decide, by decide,
    one_vote_per_term votingOps freshNode (by decide) hc (by decide) (by decide)⟩

/-- C6 as written fails: the fresh node grants its term-1 vote to the
candidate with the empty ID and then, in the same term, to candidate `b`.
With non-empty IDs the same happens once the term wraps around: the node
grants `b` in term 1, is moved to `math.MaxInt64` by a heartbeat, starts an
election that takes it to `math.MinInt64`, and then grants `c` in term 1. -/
theorem one_vote_per_term_counterexample :
    votesGiven freshNode emptyIdOps = [(1, ""), (1, "b")] ∧
      ¬ (∀ v1 ∈ votesGiven freshNode emptyIdOps, ∀ v2 ∈ votesGiven freshNode emptyIdOps,
        v1.1 = v2.1 → v1.2 = v2.2) ∧
      votesGiven freshNode wrapOps =
        [(1, "b"), (-9223372036854775808, "n1"), (1, "c")] ∧
      ¬ (∀ v1 ∈ votesGiven freshNode wrapOps, ∀ v2 ∈ votesGiven freshNode wrapOps,
        v1.1 = v2.1 → v1.2 = v2.2) := by
  have h : votesGiven freshNode emptyIdOps = [(1, ""), (1, "b")] := by decide
  have hw : votesGiven freshNode wrapOps =
      [(1, "b"), (-9223372036854775808, "n1"), (1, "c")] := by decide
  refine ⟨h, ?_, hw, ?_⟩
  · rw [h]
    intro hall
    have := hall (1, "") (by simp) (1, "b") (by simp) rfl
    simp at this
  · rw [hw]
    intro hall
    have := hall (1, "b") (by simp) (1, "c") (by simp) rfl
    simp at this

/-- C1 fails on the code: in the cluster `a`, `b`, `c` node `1` stores the
entry of index 1 uncommitted (`lastApplied = 0`), becomes leader of term 2 and
proposes; `Propose` sets `lastApplied` to 2 and calls `Apply` for the entry of
index 2 only, so the entry of index 1 is skipped. -/
theorem apply_order_skips_entry :
    (((Cluster.init idsABC).run leaderChangeRun).map
        (fun s => ((s 1).node.state, (s 1).node.log.entries.map LogEntry.Index,
          (s 1).node.lastApplied, (s 1).node.stateMachine))) =
      some (NodeState.StateLeader, [1], 0, []) ∧
    (((Cluster.init idsABC).run skippingRun).map
        (fun s => ((s 1).node.log.entries.map LogEntry.Index,
          (s 1).node.lastApplied, (s 1).node.stateMachine))) =
      some ([1, 2], 2,
        [SMCall.Apply
          { Index := 2, Term := 2, Command := Command.text "set y=2", Timestamp := 0 }]) := by
  decide


/-! ## Entries are identified by index and term -/

theorem Get_Append_of_some (s : InMemoryLogStore) (es : List LogEntry) (i : Int)
    (e : LogEntry) (h : s.Get i = some e) : (s.Append es).Get i = some e := by
  unfold InMemoryLogStore.Get at h
  split_ifs at h with hc
  have h1 : 1 ≤ i := by omega
  have h2 : i ≤ s.GetLastIndex := by unfold InMemoryLogStore.GetLastIndex; omega
  rw [Get_eq_get? _ _ h1 (by rw [GetLastIndex_Append]; omega)]
  simp only [InMemoryLogStore.Append, List.get?_eq_getElem?] at h ⊢
  rw [List.getElem?_append_left (by unfold InMemoryLogStore.GetLastIndex at h2; omega)]
  exact h

theorem Get_Append_last (s : InMemoryLogStore) (e : LogEntry) :
    (s.Append [e]).Get (s.GetLastIndex + 1) = some e := by
  rw [Get_eq_get? _ _ (by unfold InMemoryLogStore.GetLastIndex; omega)
    (by rw [GetLastIndex_Append]; simp)]
  have : (s.GetLastIndex + 1 - 1).toNat = s.entries.length := by
    unfold InMemoryLogStore.GetLastIndex; omega
  rw [this]
  simp [InMemoryLogStore.Append]

theorem Propose_log (n : RaftNode) (command : Command) (now acks : Nat)
    (h : n.state = NodeState.StateLeader) :
    (n.Propose command now acks).1.log = n.log.Append [n.proposeEntry command now] := by
  simp only [RaftNode.Propose, RaftNode.proposeFinish, RaftNode.proposeAppend, h, ne_eq, not_true_eq_false, if_false]
  split_ifs <;> rfl

theorem votersOf_unique {k : Nat} (voted : Fin k → Int → Option (Fin k)) (T : Int)
    (i j : Fin k) (hi : k / 2 + 1 ≤ (votersOf voted T i).card)
    (hj : k / 2 + 1 ≤ (votersOf voted T j).card) : i = j := by
  by_contra hij
  have hdis : Disjoint (votersOf voted T i) (votersOf voted T j) := by
    rw [Finset.disjoint_left]
    intro x hx hx2
    simp only [votersOf, Finset.mem_filter, Finset.mem_univ, true_and] at hx hx2
    rw [hx] at hx2
    exact hij (Option.some.inj hx2)
  have hcard := Finset.card_union_of_disjoint hdis
  have hle : (votersOf voted T i ∪ votersOf voted T j).card ≤ k := by
    simpa using Finset.card_le_univ (votersOf voted T i ∪ votersOf voted T j)
  omega

/-- The invariant on logs survives a step in which every log is extended by
entries that some leader of the entry's term stores at the entry's index. -/
theorem logInv_extend {k : Nat} {ids : Fin k → String} {s s1 : Cluster k}
    {voted voted1 : Fin k → Int → Option (Fin k)} (hinv : ElectionInv ids s voted)
    (hlog : LogInv s voted) (hle : VotedLE voted voted1) (ext : Fin k → List LogEntry)
    (hext : ∀ x, (s1 x).node.log = (s x).node.log.Append (ext x))
    (hnew : ∀ x, ∀ e ∈ ext x, ∃ i, (s i).node.state = NodeState.StateLeader ∧
      e.Term = (s i).node.currentTerm ∧ (s1 i).node.log.Get e.Index = some e) :
    LogInv s1 voted1 := by
  intro x e he
  rw [hext x] at he
  simp only [InMemoryLogStore.Append, List.mem_append] at he
  rcases he with he | he
  · obtain ⟨L, hq, hg⟩ := hlog x e he
    refine ⟨L, le_trans hq (votersOf_mono hle _ _), ?_⟩
    rw [hext L]
    exact Get_Append_of_some _ _ _ _ hg
  · obtain ⟨i, hl, ht, hg⟩ := hnew x e he
    refine ⟨i, ?_, hg⟩
    rw [ht]
    exact le_trans (hinv.leader i hl) (votersOf_mono hle _ _)

/-- How one step changes the logs, when entries travel only inside `Propose`. -/
theorem cluster_step_log {k : Nat} {s s1 : Cluster k} (a : Action k)
    (ha : Action.entriesByPropose a = true) (hstep : s.step a = some s1) :
    ∃ ext : Fin k → List LogEntry,
      (∀ x, (s1 x).node.log = (s x).node.log.Append (ext x)) ∧
      (∀ x, ∀ e ∈ ext x, ∃ i, (s i).node.state = NodeState.StateLeader ∧
        e.Term = (s i).node.currentTerm ∧ (s1 i).node.log.Get e.Index = some e) := by
  have same : (∀ x, (s1 x).node.log = (s x).node.log) →
      ∃ ext : Fin k → List LogEntry,
        (∀ x, (s1 x).node.log = (s x).node.log.Append (ext x)) ∧
        (∀ x, ∀ e ∈ ext x, ∃ i, (s i).node.state = NodeState.StateLeader ∧
          e.Term = (s i).node.currentTerm ∧ (s1 i).node.log.Get e.Index = some e) := by
    intro h
    refine ⟨fun _ => [], fun x => by rw [h x, Append_nil], fun x e he => by simp at he⟩
  cases a with
  | electionStart i =>
    simp only [Cluster.step] at hstep
    split_ifs at hstep with hc
    simp only [Option.some.injEq] at hstep
    apply same
    intro x
    rw [← hstep]
    by_cases hx : x = i
    · subst hx; simp [RaftNode.startElectionBegin]
    · simp [Function.update_noteq hx]
  | voteDeliver i j =>
    simp only [Cluster.step] at hstep
    cases hrun : (s i).election with
    | none => simp [hrun] at hstep
    | some run =>
      simp only [hrun] at hstep
      by_cases hj : j ∈ run.waiting
      swap
      · rw [if_neg hj] at hstep
        cases hstep
      rw [if_pos hj, Option.some.injEq] at hstep
      apply same
      intro x
      rw [← hstep]
      by_cases hxi : x = i
      · subst hxi
        simp only [Function.update_same]
        by_cases hxj : x = j
        · subst hxj
          simp only [Function.update_same]
          exact (RequestVote_keeps _ _).1
        · simp [Function.update_noteq hxj]
      · simp only [Function.update_noteq hxi]
        by_cases hxj : x = j
        · subst hxj
          simp only [Function.update_same]
          exact (RequestVote_keeps _ _).1
        · simp [Function.update_noteq hxj]
  | electionFinish i =>
    simp only [Cluster.step] at hstep
    cases hrun : (s i).election with
    | none => simp [hrun] at hstep
    | some run =>
      simp only [hrun] at hstep
      by_cases hw : run.waiting = []
      swap
      · rw [if_neg hw] at hstep
        cases hstep
      rw [if_pos hw] at hstep
      split_ifs at hstep with hpanic
      rw [Option.some.injEq] at hstep
      apply same
      intro x
      rw [← hstep]
      by_cases hx : x = i
      · subst hx
        simp only [Function.update_same, RaftNode.startElectionFinish]
        split_ifs <;> rfl
      · simp [Function.update_noteq hx]
  | appendDeliver j req =>
    simp only [Action.entriesByPropose, List.isEmpty_iff] at ha
    simp only [Cluster.step, Option.some.injEq] at hstep
    apply same
    intro x
    rw [← hstep]
    by_cases hx : x = j
    · subst hx
      simp only [Function.update_same]
      by_cases hst : req.Term < (s x).node.currentTerm
      · rw [AppendEntries_stale _ _ hst]
      · rw [(AppendEntries_frame _ _ (by omega)).2.2.2.2.2.2.1, ha, Append_nil]
    · simp [Function.update_noteq hx]
  | propose i command now =>
    simp only [Cluster.step] at hstep
    by_cases hL : (s i).node.state = NodeState.StateLeader
    swap
    · rw [if_neg hL, Option.some.injEq] at hstep
      apply same
      intro x; rw [hstep]
    rw [if_pos hL, Option.some.injEq] at hstep
    have hsi : (s1 i).node.log =
        (s i).node.log.Append [(s i).node.proposeEntry command now] := by
      rw [← hstep]
      simp only [if_true]
      exact Propose_log _ _ _ _ hL
    refine ⟨fun x => if x = i then [(s i).node.proposeEntry command now]
      else if ((s i).node.proposeRequest ((s i).node.proposeEntry command now)).Term <
          (s x).node.currentTerm then []
        else [(s i).node.proposeEntry command now], ?_, ?_⟩
    · intro x
      by_cases hx : x = i
      · subst hx
        simp only [if_true]
        exact hsi
      · simp only [hx, if_false]
        rw [← hstep]
        simp only [hx, if_false]
        split_ifs with hst
        · rw [AppendEntries_stale _ _ hst, Append_nil]
        · rw [(AppendEntries_frame _ _ (by omega)).2.2.2.2.2.2.1]
          rfl
    · intro x e he
      have hee : e = (s i).node.proposeEntry command now := by
        simp only at he
        split_ifs at he <;> simp at he <;> exact he
      refine ⟨i, hL, by rw [hee]; rfl, ?_⟩
      rw [hsi, hee]
      exact Get_Append_last _ _

theorem wiredNode_log {k : Nat} (ids : Fin k → String) (i : Fin k) :
    (wiredNode ids i).log.entries = [] := by
  have h : ∀ (l : List (Fin k)) (n : RaftNode),
      (l.foldl (fun n j => n.AddNode (ids j) "" 0) n).log = n.log := by
    intro l
    induction l with
    | nil => intro n; rfl
    | cons j l ih => intro n; simp only [List.foldl_cons]; rw [ih]; rfl
  unfold wiredNode
  rw [h]
  rfl

theorem logInv_run {k : Nat} {ids : Fin k → String} (hinj : Function.Injective ids)
    (hne : ∀ i, ids i ≠ "") (actions : List (Action k)) :
    ∀ (s s1 : Cluster k), (∀ a ∈ actions, Action.entriesByPropose a = true) →
      (∃ voted, ElectionInv ids s voted ∧ LogInv s voted) →
      s.runNoWrap actions = some s1 →
      ∃ voted1, ElectionInv ids s1 voted1 ∧ LogInv s1 voted1 := by
  induction actions with
  | nil =>
    intro s s1 _ h hrun
    simp only [Cluster.runNoWrap, Option.some.injEq] at hrun
    rw [← hrun]; exact h
  | cons a rest ih =>
    intro s s1 hall h hrun
    obtain ⟨hfit, s2, hs, hrest⟩ := runNoWrap_cons hrun
    obtain ⟨voted, hinv, hlog⟩ := h
    obtain ⟨voted1, hle, hinv1⟩ := electionInv_step hinv hinj hne a hfit hs
    obtain ⟨ext, hext, hnew⟩ := cluster_step_log a (hall a (List.mem_cons_self _ _)) hs
    exact ih s2 s1 (fun b hb => hall b (List.mem_cons_of_mem _ hb))
      ⟨voted1, hinv1, logInv_extend hinv hlog hle ext hext hnew⟩ hrest

/-- C4, as amended: in every state a new cluster with distinct, non-empty
node IDs reaches by elections, `Propose` calls and heartbeats, each `Propose`
running with its calls on the peers as one step and no election being started
at `currentTerm = math.MaxInt64`, two stored entries with the same `Index` and
the same `Term`, in any two logs, are the same entry.  (The entries before them
need not agree.) -/
theorem entry_fixed_by_index_and_term {k : Nat} (ids : Fin k → String)
    (hinj : Function.Injective ids) (hne : ∀ i, ids i ≠ "") (s : Cluster k)
    (hs : Cluster.ReachableByPropose ids s) (a b : Fin k) (ea eb : LogEntry)
    (ha : ea ∈ (s a).node.log.entries) (hb : eb ∈ (s b).node.log.entries)
    (hI : ea.Index = eb.Index) (hT : ea.Term = eb.Term) : ea = eb := by
  obtain ⟨actions, hall, hrun⟩ := hs
  have h0 : LogInv (Cluster.init ids) (fun _ _ => none) := by
    intro x e he
    rw [show (Cluster.init ids x).node.log.entries = [] from wiredNode_log ids x] at he
    simp at he
  obtain ⟨voted, _, hlog⟩ := logInv_run hinj hne actions _ s hall
    ⟨_, electionInv_init ids hinj, h0⟩ hrun
  obtain ⟨L1, hq1, hg1⟩ := hlog a ea ha
  obtain ⟨L2, hq2, hg2⟩ := hlog b eb hb
  rw [hT] at hq1
  have hL := votersOf_unique voted eb.Term L1 L2 hq1 hq2
  rw [hL, hI, hg2] at hg1
  exact (Option.some.inj hg1).symm

theorem reachableByPropose_runD {k : Nat} (ids : Fin k → String) (actions : List (Action k))
    (hall : ∀ a ∈ actions, Action.entriesByPropose a = true)
    (h : ((Cluster.init ids).runNoWrap actions).isSome = true) :
    Cluster.ReachableByPropose ids ((Cluster.init ids).runD actions) := by
  refine ⟨actions, hall, ?_⟩
  unfold Cluster.runD
  cases hr : (Cluster.init ids).runNoWrap actions with
  | none => simp [hr] at h
  | some x => rw [runNoWrap_run actions _ x hr]; rfl

/-- Witness of C4 as amended: after `divergingRun` the entry with index 2 and
term 3 in the log of `1` and the one in the log of `2` are the same entry. -/
theorem entry_fixed_by_index_and_term_witness :
    Function.Injective idsABC ∧ (∀ i, idsABC i ≠ "") ∧
      Cluster.ReachableByPropose idsABC ((Cluster.init idsABC).runD divergingRun) ∧
      (((Cluster.init idsABC).runD divergingRun) 1).node.log.entries.map
          (fun e => (e.Index, e.Term)) = [(1, 1), (2, 3)] ∧
      (((Cluster.init idsABC).runD divergingRun) 2).node.log.entries.map
          (fun e => (e.Index, e.Term)) = [(2, 3)] ∧
      ∀ ea ∈ (((Cluster.init idsABC).runD divergingRun) 1).node.log.entries,
        ∀ eb ∈ (((Cluster.init idsABC).runD divergingRun) 2).node.log.entries,
          ea.Index = eb.Index → ea.Term = eb.Term → ea = eb :=
  ⟨idsABC_injective, by decide,
    reachableByPropose_runD idsABC divergingRun (by decide) (by decide), by decide, by decide,
    fun ea ha eb hb hI hT =>
      entry_fixed_by_index_and_term idsABC idsABC_injective (by decide) _
        (reachableByPropose_runD idsABC divergingRun (by decide) (by decide)) 1 2 ea eb
        ha hb hI hT⟩

/-- C4 as written fails: after `divergingRun` (elections and `Propose` calls
only) the logs of `1` and `2` both hold the entry with index 2 and term 3, at
position 2 in the log of `1` and at position 1 in the log of `2`; before it the
log of `1` holds the entry of index 1 and the log of `2` holds nothing. -/
theorem log_matching_counterexample :
    Cluster.Reachable idsABC ((Cluster.init idsABC).runD divergingRun) ∧
      (((Cluster.init idsABC).runD divergingRun) 1).node.log.entries.map
          (fun e => (e.Index, e.Term)) = [(1, 1), (2, 3)] ∧
      (((Cluster.init idsABC).runD divergingRun) 2).node.log.entries.map
          (fun e => (e.Index, e.Term)) = [(2, 3)] ∧
      ¬ LogMatching ((Cluster.init idsABC).runD divergingRun) := by
  refine ⟨reachable_runD idsABC divergingRun (by decide), by decide, by decide, ?_⟩
  intro h
  have h1 := h 1 2 1 0
    { Index := 2, Term := 3, Command := Command.text "set y=2", Timestamp := 0 }
    { Index := 2, Term := 3, Command := Command.text "set y=2", Timestamp := 0 }
    (by decide) (by decide) rfl rfl
  revert h1
  decide

/-- Why C4 as amended excludes overflowing terms: `wrapEntriesRun` consists of
elections, `Propose` calls and heartbeats only, and leaves two different
entries with index 1 and term 1 in the logs of `0` and `2`. -/
theorem wrap_breaks_entry_identity :
    (∀ a ∈ wrapEntriesRun, Action.entriesByPropose a = true) ∧
      (((Cluster.init idsABC).run wrapEntriesRun).map
        (fun s => ((s 0).node.log.entries, (s 2).node.log.entries))) =
        some ([{ Index := 1, Term := 1, Command := Command.text "A", Timestamp := 0 },
            { Index := 1, Term := 1, Command := Command.text "B", Timestamp := 0 }],
          [{ Index := 1, Term := 1, Command := Command.text "B", Timestamp := 0 }]) ∧
      (Cluster.init idsABC).runNoWrap wrapEntriesRun = none := by
  decide

/-- Why C4 as amended takes `Propose` as one step: two `Propose` calls of
leader `a` that both read the last index (line 558) before either appends
(line 563) build two different entries with the same index and term, and the
leader's log holds both. -/
theorem overlapping_Propose_same_index :
    (leaderOfThree.proposeEntry (Command.text "A") 0).Index = 1 ∧
      (leaderOfThree.proposeEntry (Command.text "B") 0).Index = 1 ∧
      (leaderOfThree.proposeEntry (Command.text "A") 0).Term =
        (leaderOfThree.proposeEntry (Command.text "B") 0).Term ∧
      ((leaderOfThree.proposeAppend (leaderOfThree.proposeEntry (Command.text "A") 0)).proposeAppend
          (leaderOfThree.proposeEntry (Command.text "B") 0)).log.entries =
        [{ Index := 1, Term := 1, Command := Command.text "A", Timestamp := 0 },
          { Index := 1, Term := 1, Command := Command.text "B", Timestamp := 0 }] := by
  decide
/-! ## Claims about `AppendEntries`, `Propose` and `startElection` -/

/-- C11: whatever the role of the node, an `AppendEntries` request with
`Term ≥ currentTerm` leaves it in state Follower with `leader = req.LeaderID`
and `currentTerm = req.Term`, and is answered `Success = true` with the new
`currentTerm`. -/
theorem AppendEntries_accepts_leader (n : RaftNode) (req : AppendEntriesRequest)
    (h : req.Term ≥ n.currentTerm) :
    (n.AppendEntries req).1.state = NodeState.StateFollower ∧
      (n.AppendEntries req).1.leader = req.LeaderID ∧
      (n.AppendEntries req).1.currentTerm = req.Term ∧
      (n.AppendEntries req).2.Success = true ∧
      (n.AppendEntries req).2.Term = (n.AppendEntries req).1.currentTerm := by
  obtain ⟨h1, _, h3, h4, _, h6, _, _, _⟩ := AppendEntries_frame n req h
  refine ⟨h3, h6, h4, ?_, ?_⟩
  · rw [h1]
  · rw [h1, h4]

/-- Witness of C11: the leader of term 1 gets a term-1 request of `n2`. -/
theorem AppendEntries_accepts_leader_witness :
    leaderNode.state = NodeState.StateLeader ∧
      (appendReq 1 0 0 [] 0).Term ≥ leaderNode.currentTerm ∧
      (leaderNode.AppendEntries (appendReq 1 0 0 [] 0)).1.state = NodeState.StateFollower ∧
      (leaderNode.AppendEntries (appendReq 1 0 0 [] 0)).1.leader =
        (appendReq 1 0 0 [] 0).LeaderID ∧
      (leaderNode.AppendEntries (appendReq 1 0 0 [] 0)).1.currentTerm =
        (appendReq 1 0 0 [] 0).Term ∧
      (leaderNode.AppendEntries (appendReq 1 0 0 [] 0)).2.Success = true ∧
      (leaderNode.AppendEntries (appendReq 1 0 0 [] 0)).2.Term =
        (leaderNode.AppendEntries (appendReq 1 0 0 [] 0)).1.currentTerm :=
  ⟨by decide, by decide,
    AppendEntries_accepts_leader leaderNode (appendReq 1 0 0 [] 0) (by decide)⟩

/-- C12: `Propose` returns an error exactly when the node is not leader; the
error text then ends with the node's `leader` field, the node is returned
unchanged (log, markers, term, state machine history and all other fields),
and no `AppendEntries` call is made on any peer. -/
theorem Propose_error_iff {P : Type} (n : RaftNode) (peers : List P) (command : Command)
    (now acks : Nat) :
    ((n.Propose command now acks).2.isSome = true ↔ n.state ≠ NodeState.StateLeader) ∧
      (n.state ≠ NodeState.StateLeader →
        n.Propose command now acks = (n, some ("not leader; current leader: " ++ n.leader)) ∧
        n.proposeCalls peers command now = []) := by
  by_cases h : n.state = NodeState.StateLeader
  · simp [RaftNode.Propose, h]
  · simp [RaftNode.Propose, RaftNode.proposeCalls, h]

/-- Witness of C12: the fresh node, a follower, is asked to propose. -/
theorem Propose_error_iff_witness :
    freshNode.state ≠ NodeState.StateLeader ∧
      freshNode.Propose (Command.text "set x=1") 0 2 =
        (freshNode, some ("not leader; current leader: " ++ freshNode.leader)) ∧
      freshNode.proposeCalls ["n2", "n3"] (Command.text "set x=1") 0 = [] :=
  ⟨by decide,
    (Propose_error_iff freshNode ["n2", "n3"] (Command.text "set x=1") 0 2).2 (by decide)⟩

/-- C13: on a leader `Propose` returns no error and appends exactly one
entry, with `Index = last index + 1` and `Term = currentTerm`; when the peers
that answered `Success` plus one reach `GetQuorum()`, `commitIndex` and
`lastApplied` become the entry's index and `Apply` is called on the entry;
otherwise `commitIndex`, `lastApplied` and the state machine history stay and
the entry remains in the log. -/
theorem Propose_leader (n : RaftNode) (command : Command) (now acks : Nat)
    (h : n.state = NodeState.StateLeader) :
    (n.proposeEntry command now).Index = n.log.GetLastIndex + 1 ∧
      (n.proposeEntry command now).Term = n.currentTerm ∧
      (n.proposeEntry command now).Command = command ∧
      (n.Propose command now acks).2 = none ∧
      (n.Propose command now acks).1.log.entries =
        n.log.entries ++ [n.proposeEntry command now] ∧
      (1 + acks ≥ n.membership.GetQuorum →
        (n.Propose command now acks).1.commitIndex = (n.proposeEntry command now).Index ∧
        (n.Propose command now acks).1.lastApplied = (n.proposeEntry command now).Index ∧
        (n.Propose command now acks).1.stateMachine =
          n.stateMachine ++ [SMCall.Apply (n.proposeEntry command now)]) ∧
      (1 + acks < n.membership.GetQuorum →
        (n.Propose command now acks).1.commitIndex = n.commitIndex ∧
        (n.Propose command now acks).1.lastApplied = n.lastApplied ∧
        (n.Propose command now acks).1.stateMachine = n.stateMachine) := by
  refine ⟨rfl, rfl, rfl, ?_, ?_, ?_, ?_⟩
  · simp [RaftNode.Propose, h]
  · rw [Propose_log n command now acks h]; rfl
  · intro hq
    simp [RaftNode.Propose, RaftNode.proposeFinish, RaftNode.proposeAppend, h, hq]
  · intro hq
    have : ¬ (1 + acks ≥ n.membership.GetQuorum) := by omega
    simp [RaftNode.Propose, RaftNode.proposeFinish, RaftNode.proposeAppend, h, this]

/-- Witness of C13: the single-node leader proposes (quorum 1). -/
theorem Propose_leader_witness :
    leaderNode.state = NodeState.StateLeader ∧
      (leaderNode.Propose (Command.text "set x=1") 7 0).2 = none ∧
      (leaderNode.Propose (Command.text "set x=1") 7 0).1.log.entries =
        [{ Index := 1, Term := 1, Command := Command.text "set x=1", Timestamp := 7 }] ∧
      (leaderNode.Propose (Command.text "set x=1") 7 0).1.commitIndex = 1 ∧
      (leaderNode.Propose (Command.text "set x=1") 7 0).1.stateMachine =
        [SMCall.Apply
          { Index := 1, Term := 1, Command := Command.text "set x=1", Timestamp := 7 }] ∧
      ((leaderNode.proposeEntry (Command.text "set x=1") 7).Index =
          leaderNode.log.GetLastIndex + 1 ∧
        (leaderNode.proposeEntry (Command.text "set x=1") 7).Term = leaderNode.currentTerm) :=
  ⟨by decide, by decide, by decide, by decide, by decide,
    (Propose_leader leaderNode (Command.text "set x=1") 7 0 (by decide)).1,
    (Propose_leader leaderNode (Command.text "set x=1") 7 0 (by decide)).2.1⟩

theorem startElection_launch (n : RaftNode) (responses : List VoteResponse) :
    (n.startElection responses = none ↔
      (n.startElectionResponses responses).state = NodeState.StateLeader ∧
        n.config.HeartbeatInterval ≤ 0) ∧
    (n.startElection responses ≠ none →
      n.startElection responses = some (n.startElectionResponses responses)) := by
  simp only [RaftNode.startElection, RaftNode.startElectionResponses, RaftNode.electionWon,
    RaftNode.sendHeartbeatsStart, NewTicker, RaftNode.startElectionFinish,
    RaftNode.startElectionBegin, decide_eq_true_eq]
  by_cases hq : 1 + (responses.filter (fun r => r.VoteGranted)).length ≥ n.membership.GetQuorum
  · by_cases hh : n.config.HeartbeatInterval ≤ 0
    · simp [hq, hh]
    · simp [hq, hh]
  · simp [hq]

/-- C16, as amended: for a node whose `currentTerm` is an `int64` below
`math.MaxInt64`, `startElection` raises `currentTerm` by exactly one and sets
`votedFor` to the node's own ID; whatever state `m` the node is in when the
final locked section runs, it ends as leader, with `leader` its own ID, exactly
when the votes (its own included) reach the quorum read from its membership
table and `currentTerm` is still the election's term, and as follower
otherwise.  A node that becomes leader launches the heartbeat goroutine, which
ends the process exactly when `HeartbeatInterval` is not positive. -/
theorem startElection_outcome (n m : RaftNode) (votes : Nat)
    (responses : List VoteResponse) (h0 : minInt64 ≤ n.currentTerm)
    (hmax : n.currentTerm < maxInt64) :
    n.startElectionBegin.1.currentTerm = n.currentTerm + 1 ∧
      n.startElectionBegin.1.votedFor = n.config.NodeID ∧
      n.startElectionBegin.2.Term = n.currentTerm + 1 ∧
      n.startElectionBegin.2.CandidateID = n.config.NodeID ∧
      ((m.startElectionFinish votes n.startElectionBegin.1.membership.GetQuorum
            n.startElectionBegin.1.currentTerm).state = NodeState.StateLeader ↔
        votes ≥ n.membership.GetQuorum ∧ m.currentTerm = n.currentTerm + 1) ∧
      ((m.startElectionFinish votes n.startElectionBegin.1.membership.GetQuorum
            n.startElectionBegin.1.currentTerm).state = NodeState.StateLeader →
        (m.startElectionFinish votes n.startElectionBegin.1.membership.GetQuorum
            n.startElectionBegin.1.currentTerm).leader = m.config.NodeID) ∧
      ((m.startElectionFinish votes n.startElectionBegin.1.membership.GetQuorum
            n.startElectionBegin.1.currentTerm).state ≠ NodeState.StateLeader →
        (m.startElectionFinish votes n.startElectionBegin.1.membership.GetQuorum
            n.startElectionBegin.1.currentTerm).state = NodeState.StateFollower) ∧
      ((n.startElectionResponses responses).state = NodeState.StateLeader ↔
        1 + (responses.filter (fun r => r.VoteGranted)).length ≥ n.membership.GetQuorum) ∧
      (n.startElection responses = none ↔
        1 + (responses.filter (fun r => r.VoteGranted)).length ≥ n.membership.GetQuorum ∧
          n.config.HeartbeatInterval ≤ 0) ∧
      (n.startElection responses ≠ none →
        n.startElection responses = some (n.startElectionResponses responses)) := by
  have hw : wrap64 (n.currentTerm + 1) = n.currentTerm + 1 := wrap64_succ _ h0 hmax
  have hseq : (n.startElectionResponses responses).state = NodeState.StateLeader ↔
      1 + (responses.filter (fun r => r.VoteGranted)).length ≥ n.membership.GetQuorum := by
    simp only [RaftNode.startElectionResponses, RaftNode.startElectionFinish,
      RaftNode.startElectionBegin]
    split_ifs with hc
    · simpa using hc
    · simp only [false_iff]
      intro hh
      exact hc ⟨hh, trivial⟩
  refine ⟨hw, rfl, hw, rfl, ?_, ?_, ?_, hseq, ?_, (startElection_launch n responses).2⟩
  · simp only [RaftNode.startElectionFinish, RaftNode.startElectionBegin, hw]
    split_ifs with hc
    · simpa using hc
    · simp only [false_iff]
      intro hh
      exact hc hh
  · simp only [RaftNode.startElectionFinish, RaftNode.startElectionBegin]
    split_ifs with hc <;> simp
  · simp only [RaftNode.startElectionFinish, RaftNode.startElectionBegin]
    split_ifs with hc <;> simp
  · rw [(startElection_launch n responses).1, hseq]

/-- Witness of C16 as amended: the new node `n1` goes from term 0 to term 1
and, having no peers, is elected; its heartbeat goroutine starts. -/
theorem startElection_outcome_witness :
    minInt64 ≤ freshNode.currentTerm ∧ freshNode.currentTerm < maxInt64 ∧
      freshNode.startElectionBegin.1.currentTerm = freshNode.currentTerm + 1 ∧
      (freshNode.startElectionResponses []).state = NodeState.StateLeader ∧
      freshNode.startElection [] = some (freshNode.startElectionResponses []) :=
  ⟨by decide, by decide,
    (startElection_outcome freshNode freshNode 1 [] (by decide) (by decide)).1,
    by decide,
    (startElection_outcome freshNode freshNode 1 [] (by decide) (by decide)).2.2.2.2.2.2.2.2.2
      (by decide)⟩

/-- C16 as written fails: the follower `n1` whose `currentTerm` is
`math.MaxInt64` (one `AppendEntries` request sets it) starts an election and
its `currentTerm` becomes `math.MinInt64`, not one more; having no peers it is
elected in that term. -/
theorem startElection_wrap_counterexample :
    nodeAtMaxTerm.state = NodeState.StateFollower ∧
      nodeAtMaxTerm.currentTerm = 9223372036854775807 ∧
      nodeAtMaxTerm.startElectionBegin.1.currentTerm = -9223372036854775808 ∧
      nodeAtMaxTerm.startElectionBegin.1.currentTerm ≠ nodeAtMaxTerm.currentTerm + 1 ∧
      (nodeAtMaxTerm.startElectionResponses []).state = NodeState.StateLeader ∧
      (nodeAtMaxTerm.startElectionResponses []).currentTerm = -9223372036854775808 := by
  decide

/-! ## Claims about `InstallSnapshot` and the log store -/

/-- C17, as amended: an `InstallSnapshot` request with `Term ≥ currentTerm`
makes the node call `RestoreSnapshot(req.Data)` on the state machine and append
the snapshot to its snapshot store, and is answered with `currentTerm`; the
log, `commitIndex`, `lastApplied` and every other field of the node stay as
they were. -/
theorem InstallSnapshot_accept (n : RaftNode) (req : SnapshotRequest) (now : Nat)
    (h : req.Term ≥ n.currentTerm) :
    n.InstallSnapshot req now =
      ({ n with
          snapshots :=
            { snapshots := n.snapshots.snapshots ++
                [{ LastIncludedIndex := req.LastIncludedIndex
                   LastIncludedTerm := req.LastIncludedTerm
                   Data := req.Data, Timestamp := now }] }
          stateMachine := n.stateMachine ++ [SMCall.RestoreSnapshot req.Data] },
        { Term := n.currentTerm }) := by
  unfold RaftNode.InstallSnapshot
  rw [if_neg (by omega)]
  rfl

/-- Witness of C17 as amended, at the node holding two uncommitted entries. -/
theorem InstallSnapshot_accept_witness :
    ({ snapshotReq with Term := 1 } : SnapshotRequest).Term ≥ nodeWithTwo.currentTerm ∧
      (nodeWithTwo.InstallSnapshot { snapshotReq with Term := 1 } 9).1.stateMachine =
        [SMCall.RestoreSnapshot [1, 2, 3]] ∧
      (nodeWithTwo.InstallSnapshot { snapshotReq with Term := 1 } 9).1.log = nodeWithTwo.log ∧
      nodeWithTwo.InstallSnapshot { snapshotReq with Term := 1 } 9 =
        ({ nodeWithTwo with
            snapshots :=
              { snapshots := nodeWithTwo.snapshots.snapshots ++
                  [{ LastIncludedIndex := 2, LastIncludedTerm := 1
                     Data := [1, 2, 3], Timestamp := 9 }] }
            stateMachine := nodeWithTwo.stateMachine ++ [SMCall.RestoreSnapshot [1, 2, 3]] },
          { Term := nodeWithTwo.currentTerm }) :=
  ⟨by decide, by decide, by decide,
    InstallSnapshot_accept nodeWithTwo { snapshotReq with Term := 1 } 9 (by decide)⟩

/-- C17 as written fails: the fresh node accepts a snapshot covering index 2
of term 1, and afterwards `commitIndex`, `lastApplied` and the last log index
are still 0 and the last log term is still 0. -/
theorem InstallSnapshot_markers_counterexample :
    snapshotReq.Term ≥ freshNode.currentTerm ∧ snapshotReq.LastIncludedIndex = 2 ∧
      snapshotReq.LastIncludedTerm = 1 ∧
      (freshNode.InstallSnapshot snapshotReq 9).1.commitIndex = 0 ∧
      (freshNode.InstallSnapshot snapshotReq 9).1.lastApplied = 0 ∧
      (freshNode.InstallSnapshot snapshotReq 9).1.log.GetLastIndex = 0 ∧
      (freshNode.InstallSnapshot snapshotReq 9).1.log.GetLastTerm = 0 := by
  decide

/-- C18: `Get index` fails exactly when `index < 1` or
`index > GetLastIndex()`; otherwise it returns the entry stored at position
`index` (the element `index - 1` of the slice).  `Get` is a function of the
store alone and returns no store, so the store is as it was.  `Get 0` fails on
every store. -/
theorem Get_fails_iff (s : InMemoryLogStore) (index : Int) :
    (s.Get index = none ↔ index < 1 ∨ index > s.GetLastIndex) ∧
      (¬ (index < 1 ∨ index > s.GetLastIndex) →
        ∃ e, s.Get index = some e ∧ s.entries.get? (index - 1).toNat = some e) ∧
      s.Get 0 = none := by
  have h0 : s.Get 0 = none := by simp [InMemoryLogStore.Get]
  have hin : ¬ (index < 1 ∨ index > s.GetLastIndex) →
      ∃ e, s.Get index = some e ∧ s.entries.get? (index - 1).toNat = some e := by
    intro h
    have h1 : 1 ≤ index := by omega
    have h2 : index ≤ s.GetLastIndex := by omega
    have hlen : (index - 1).toNat < s.entries.length := by
      unfold InMemoryLogStore.GetLastIndex at h2; omega
    refine ⟨s.entries[(index - 1).toNat], ?_, ?_⟩
    · rw [Get_eq_get? s index h1 h2, List.get?_eq_getElem?, List.getElem?_eq_getElem hlen]
    · rw [List.get?_eq_getElem?, List.getElem?_eq_getElem hlen]
  refine ⟨?_, hin, h0⟩
  constructor
  · intro hn
    by_contra hc
    obtain ⟨e, he, _⟩ := hin hc
    rw [hn] at he
    cases he
  · intro hc
    unfold InMemoryLogStore.Get
    unfold InMemoryLogStore.GetLastIndex at hc
    rw [if_pos hc]

/-- C20: `Append es` (which has no failing path) leaves the store holding the
old entries followed by `es`: what `Get i` returned it still returns,
`GetLastIndex()` is `len(L) + len(es)`, so after appending the entries of any
list one by one to the empty store it is the length of that list, and
`GetLastTerm()` is the term of the last stored entry, or 0 on an empty store. -/
theorem Append_spec (s : InMemoryLogStore) (es : List LogEntry) :
    (s.Append es).entries = s.entries ++ es ∧
      (∀ i e, s.Get i = some e → (s.Append es).Get i = some e) ∧
      (s.Append es).GetLastIndex = (s.entries.length : Int) + es.length ∧
      ((es.foldl (fun st e => st.Append [e]) ({} : InMemoryLogStore)).GetLastIndex =
        es.length) ∧
      (s.entries = [] → s.GetLastTerm = 0) ∧
      (∀ l e, s.entries = l ++ [e] → s.GetLastTerm = e.Term) := by
  refine ⟨rfl, fun i e h => Get_Append_of_some s es i e h, ?_, ?_, ?_, ?_⟩
  · rw [GetLastIndex_Append]; rfl
  · have key : ∀ (l : List LogEntry) (st : InMemoryLogStore),
        (l.foldl (fun st e => st.Append [e]) st).GetLastIndex =
          st.GetLastIndex + l.length := by
      intro l
      induction l with
      | nil => intro st; simp
      | cons a t ih =>
        intro st
        simp only [List.foldl_cons, ih, GetLastIndex_Append, List.length_cons,
          List.length_singleton, List.length_nil]
        push_cast
        omega
    rw [key]
    simp [InMemoryLogStore.GetLastIndex]
  · intro h
    simp [InMemoryLogStore.GetLastTerm, h]
  · intro l e h
    simp [InMemoryLogStore.GetLastTerm, h]

/-- When `GetRange` panics and what it returns otherwise: it panics exactly
when the clamped `from` is more than one past the clamped `to`. -/
theorem GetRange_eq (s : InMemoryLogStore) (from_ to_ : Int) :
    (s.GetRange from_ to_ = none ↔ max from_ 1 - 1 > min to_ s.GetLastIndex) ∧
      (max from_ 1 - 1 ≤ min to_ s.GetLastIndex →
        s.GetRange from_ to_ =
          some (entriesBetween s (max from_ 1 - 1) (min to_ s.GetLastIndex))) := by
  have h1 : (if from_ < 1 then 1 else from_) = max from_ 1 := by
    split_ifs with h
    · exact (max_eq_right (by omega)).symm
    · exact (max_eq_left (by omega)).symm
  have h2 : (if to_ > (s.entries.length : Int) then (s.entries.length : Int) else to_) =
      min to_ s.GetLastIndex := by
    unfold InMemoryLogStore.GetLastIndex
    split_ifs with h
    · exact (min_eq_right (by omega)).symm
    · exact (min_eq_left (by omega)).symm
  have h3 : (0 : Int) ≤ max from_ 1 - 1 := by
    have := le_max_right from_ 1
    omega
  unfold InMemoryLogStore.GetRange
  simp only [h1, h2]
  constructor
  · split_ifs with h
    · simp only [false_iff, not_lt, reduceCtorEq]
      exact h.2
    · simp only [true_iff]
      by_contra hc
      exact h ⟨h3, by omega⟩
  · intro h
    rw [if_pos ⟨h3, h⟩]
    rfl

/-- C19 fails on the code: on a store with two entries `GetRange(3, 1)`
(`from > to`), `GetRange(1, -1)` (`to < 1`) and `GetRange(5, 10)`
(`from > lastIndex`) do not return an empty list but panic in the slice
expression, while `GetRange(-3, 10)` and `GetRange(3, 2)` return. -/
theorem GetRange_panics :
    storeWithTwo.GetRange 3 1 = none ∧ storeWithTwo.GetRange 1 (-1) = none ∧
      storeWithTwo.GetRange 5 10 = none ∧
      storeWithTwo.GetRange (-3) 10 = some [entry1, entry2] ∧
      storeWithTwo.GetRange 3 2 = some [] := by
  decide

/-- What `RequestVote` does with a request of a newer term: the node becomes
follower in the request's term and its old vote is gone. -/
theorem RequestVote_newer_term (n : RaftNode) (req : VoteRequest)
    (h : req.Term > n.currentTerm) :
    (n.RequestVote req).1.state = NodeState.StateFollower ∧
      (n.RequestVote req).1.currentTerm = req.Term ∧
      ((n.RequestVote req).1.votedFor = "" ∨
        ((n.RequestVote req).2.VoteGranted = true ∧
          (n.RequestVote req).1.votedFor = req.CandidateID)) := by
  unfold RaftNode.RequestVote
  rw [if_neg (by omega)]
  simp only [h, if_true]
  split_ifs with h3
  · exact ⟨rfl, rfl, Or.inr ⟨rfl, rfl⟩⟩
  · exact ⟨rfl, rfl, Or.inl rfl⟩

/-- C14 fails on the code for `AppendEntries`: the node that voted for `b` in
term 1 gets a term-2 request; it becomes follower in term 2, but `votedFor` is
still `b`. -/
theorem AppendEntries_keeps_votedFor :
    (appendReq 2 0 0 [] 0).Term > nodeVotedB.currentTerm ∧
      (nodeVotedB.AppendEntries (appendReq 2 0 0 [] 0)).1.state = NodeState.StateFollower ∧
      (nodeVotedB.AppendEntries (appendReq 2 0 0 [] 0)).1.currentTerm = 2 ∧
      (nodeVotedB.AppendEntries (appendReq 2 0 0 [] 0)).1.votedFor = "b" := by
  decide

theorem startElectionFinish_frame (m : RaftNode) (votes quorum : Nat) (term : Int) :
    (m.startElectionFinish votes quorum term).currentTerm = m.currentTerm ∧
      (m.startElectionFinish votes quorum term).votedFor = m.votedFor ∧
      (m.startElectionFinish votes quorum term).config = m.config ∧
      (m.startElectionFinish votes quorum term).log = m.log ∧
      (m.startElectionFinish votes quorum term).commitIndex = m.commitIndex ∧
      (m.startElectionFinish votes quorum term).lastApplied = m.lastApplied ∧
      ((m.startElectionFinish votes quorum term).state = NodeState.StateLeader ∨
        (m.startElectionFinish votes quorum term).state = NodeState.StateFollower) := by
  simp only [RaftNode.startElectionFinish]
  split_ifs <;> simp

theorem proposeFinish_frame (m : RaftNode) (entry : LogEntry) (replicated quorum : Nat) :
    (m.proposeFinish entry replicated quorum).state = m.state ∧
      (m.proposeFinish entry replicated quorum).currentTerm = m.currentTerm ∧
      (m.proposeFinish entry replicated quorum).votedFor = m.votedFor ∧
      (m.proposeFinish entry replicated quorum).leader = m.leader ∧
      (m.proposeFinish entry replicated quorum).log = m.log := by
  simp only [RaftNode.proposeFinish]
  split_ifs <;> simp

/-- C15, as amended: the `Term` of a peer's response is never read.
`Propose` and `startElection` use the responses only through the number of
`Success` and `VoteGranted` flags.  Whatever state `m` the node is in when the
final locked section of `startElection` runs, that section leaves `currentTerm`
and `votedFor` as they are and makes the node leader when the votes reach the
quorum and `currentTerm` is the election's term, and follower otherwise;
whatever state the node is in when `Propose` ends, the end of `Propose` leaves
`state`, `currentTerm` and `votedFor` as they are; a heartbeat tick sends a
request only while the node is leader and the node is not changed by it. -/
theorem response_term_ignored (n m : RaftNode) (command : Command) (now : Nat)
    (entry : LogEntry) (votes replicated quorum : Nat) (term : Int)
    (rs rs1 : List AppendEntriesResponse) (vs vs1 : List VoteResponse) :
    (rs.map (fun r => r.Success) = rs1.map (fun r => r.Success) →
        (rs.filter (fun r => r.Success)).length = (rs1.filter (fun r => r.Success)).length ∧
          n.ProposeResponses command now rs = n.ProposeResponses command now rs1) ∧
      (vs.map (fun r => r.VoteGranted) = vs1.map (fun r => r.VoteGranted) →
        (vs.filter (fun r => r.VoteGranted)).length =
            (vs1.filter (fun r => r.VoteGranted)).length ∧
          n.startElectionResponses vs = n.startElectionResponses vs1) ∧
      (m.startElectionFinish votes quorum term).currentTerm = m.currentTerm ∧
      (m.startElectionFinish votes quorum term).votedFor = m.votedFor ∧
      ((m.startElectionFinish votes quorum term).state = NodeState.StateLeader ↔
        votes ≥ quorum ∧ m.currentTerm = term) ∧
      ((m.startElectionFinish votes quorum term).state ≠ NodeState.StateLeader →
        (m.startElectionFinish votes quorum term).state = NodeState.StateFollower) ∧
      (m.proposeFinish entry replicated quorum).state = m.state ∧
      (m.proposeFinish entry replicated quorum).currentTerm = m.currentTerm ∧
      (m.proposeFinish entry replicated quorum).votedFor = m.votedFor ∧
      (n.heartbeatRequest.isSome = true ↔ n.state = NodeState.StateLeader) := by
  have hcount : ∀ (l l1 : List Bool), l = l1 →
      (l.filter (fun b => b)).length = (l1.filter (fun b => b)).length := by
    intro l l1 h; rw [h]
  have hf : ∀ (l : List AppendEntriesResponse),
      (l.filter (fun r => r.Success)).length =
        ((l.map (fun r => r.Success)).filter (fun b => b)).length := by
    intro l
    induction l with
    | nil => rfl
    | cons a t ih => by_cases ha : a.Success = true <;> simp [List.filter_cons, ha, ih]
  have hg : ∀ (l : List VoteResponse),
      (l.filter (fun r => r.VoteGranted)).length =
        ((l.map (fun r => r.VoteGranted)).filter (fun b => b)).length := by
    intro l
    induction l with
    | nil => rfl
    | cons a t ih => by_cases ha : a.VoteGranted = true <;> simp [List.filter_cons, ha, ih]
  obtain ⟨e1, e2, _, _, _, _, e7⟩ := startElectionFinish_frame m votes quorum term
  obtain ⟨q1, q2, q3, _, _⟩ := proposeFinish_frame m entry replicated quorum
  refine ⟨?_, ?_, e1, e2, ?_, ?_, q1, q2, q3, ?_⟩
  · intro h
    have hc : (rs.filter (fun r => r.Success)).length =
        (rs1.filter (fun r => r.Success)).length := by
      rw [hf rs, hf rs1, hcount _ _ h]
    refine ⟨hc, ?_⟩
    unfold RaftNode.ProposeResponses
    rw [hc]
  · intro h
    have hc : (vs.filter (fun r => r.VoteGranted)).length =
        (vs1.filter (fun r => r.VoteGranted)).length := by
      rw [hg vs, hg vs1, hcount _ _ h]
    refine ⟨hc, ?_⟩
    unfold RaftNode.startElectionResponses
    rw [hc]
  · simp only [RaftNode.startElectionFinish]
    split_ifs with hc
    · simpa using hc
    · simp only [false_iff]
      intro hh
      exact hc hh
  · intro hne
    rcases e7 with h | h
    · exact absurd h hne
    · exact h
  · by_cases h : n.state = NodeState.StateLeader <;> simp [RaftNode.heartbeatRequest, h]
/-- C15 as written fails: the leader of term 1 gets a response carrying
term 2 to its `Propose` and is afterwards still leader in term 1; node `a`
starts the election of term 1, gets responses carrying term 5 and ends as
follower in term 1 with `votedFor` its own ID. -/
theorem response_term_counterexample :
    leaderOfThree.state = NodeState.StateLeader ∧ leaderOfThree.currentTerm = 1 ∧
      (∃ r ∈ staleAnswers, r.Term > leaderOfThree.currentTerm) ∧
      (leaderOfThree.ProposeResponses (Command.text "set x=1") 0 staleAnswers).1.state =
        NodeState.StateLeader ∧
      (leaderOfThree.ProposeResponses (Command.text "set x=1") 0 staleAnswers).1.currentTerm
        = 1 ∧
      (∃ r ∈ staleVotes, r.Term > (wiredNode idsABC 0).startElectionBegin.1.currentTerm) ∧
      ((wiredNode idsABC 0).startElectionResponses staleVotes).state =
        NodeState.StateFollower ∧
      ((wiredNode idsABC 0).startElectionResponses staleVotes).currentTerm = 1 ∧
      ((wiredNode idsABC 0).startElectionResponses staleVotes).votedFor = "a" := by
  decide

/-! ## Claims about truncation, compaction and the membership table -/

/-- What `DeleteRange` does when it does not panic: for `from ≥ 1` it keeps
exactly the entries at positions `1 .. from - 1`. -/
theorem DeleteRange_of_pos (s : InMemoryLogStore) (from_ : Int) (h : 1 ≤ from_) :
    s.DeleteRange from_ = some { entries := s.entries.take (from_ - 1).toNat } := by
  unfold InMemoryLogStore.DeleteRange
  split_ifs with h1 h2
  · rfl
  · omega
  · have : s.entries.take (from_ - 1).toNat = s.entries :=
      List.take_of_length_le (by omega)
    rw [this]

/-- C21 fails on the code: on a store with two entries `DeleteRange(0)` and
`DeleteRange(-3)` do not empty the store but panic in the slice expression
`s.entries[:from-1]`; the same happens on the empty store; `DeleteRange(1)`,
`DeleteRange(2)` and `DeleteRange(3)` behave as the claim says. -/
theorem DeleteRange_panics :
    storeWithTwo.DeleteRange 0 = none ∧ storeWithTwo.DeleteRange (-3) = none ∧
      ({} : InMemoryLogStore).DeleteRange 0 = none ∧
      storeWithTwo.DeleteRange 1 = some { entries := [] } ∧
      storeWithTwo.DeleteRange 2 = some { entries := [entry1] } ∧
      storeWithTwo.DeleteRange 3 = some storeWithTwo := by
  decide

/-- C22, as amended: for `0 ≤ uptoIndex ≤ lastIndex`, `Compact uptoIndex`
returns no error and drops the first `uptoIndex` entries; the rest is
renumbered by position, so `Get i` afterwards is what `Get (i + uptoIndex)` was
and `GetLastIndex()` is the old last index minus `uptoIndex`; for
`uptoIndex > lastIndex` the store is left as it is. -/
theorem Compact_renumbers (s : InMemoryLogStore) (uptoIndex : Int) (h0 : 0 ≤ uptoIndex) :
    (uptoIndex ≤ s.GetLastIndex →
      ∃ s1, s.Compact uptoIndex = some s1 ∧ s1.entries = s.entries.drop uptoIndex.toNat ∧
        s1.GetLastIndex = s.GetLastIndex - uptoIndex ∧
        ∀ i : Int, 1 ≤ i → s1.Get i = s.Get (i + uptoIndex)) ∧
      (uptoIndex > s.GetLastIndex → s.Compact uptoIndex = some s) := by
  unfold InMemoryLogStore.GetLastIndex
  constructor
  · intro h
    refine ⟨{ entries := s.entries.drop uptoIndex.toNat }, ?_, rfl, ?_, ?_⟩
    · unfold InMemoryLogStore.Compact
      rw [if_pos h, if_pos h0]
    · simp only [List.length_drop]
      omega
    · intro i hi
      unfold InMemoryLogStore.Get
      simp only [List.length_drop]
      by_cases hc : i + uptoIndex > (s.entries.length : Int)
      · rw [if_pos (Or.inr (by omega)), if_pos (Or.inr hc)]
      · rw [if_neg (by omega), if_neg (by omega)]
        simp only [List.get?_eq_getElem?, List.getElem?_drop]
        congr 1
        omega
  · intro h
    unfold InMemoryLogStore.Compact
    rw [if_neg (by omega)]

/-- Witness of C22 as amended: compacting the two-entry store up to index 1. -/
theorem Compact_renumbers_witness :
    (0 : Int) ≤ 1 ∧ storeWithTwo.Compact 1 = some { entries := [entry2] } ∧
      ((1 : Int) ≤ storeWithTwo.GetLastIndex →
        ∃ s1, storeWithTwo.Compact 1 = some s1 ∧
          s1.entries = storeWithTwo.entries.drop (1 : Int).toNat ∧
          s1.GetLastIndex = storeWithTwo.GetLastIndex - 1 ∧
          ∀ i : Int, 1 ≤ i → s1.Get i = storeWithTwo.Get (i + 1)) :=
  ⟨by decide, by decide, (Compact_renumbers storeWithTwo 1 (by decide)).1⟩

/-- C22 as written fails: the store holds the entries with `Index` 1 and 2
at positions 1 and 2; after `Compact(1)` the last index is 1, not 2, `Get(2)`
fails, and `Get(1)` returns the entry whose `Index` is 2. -/
theorem Compact_counterexample :
    storeWithTwo.Indexed ∧
      storeWithTwo.Compact 1 = some { entries := [entry2] } ∧
      storeWithTwo.GetLastIndex = 2 ∧
      ({ entries := [entry2] } : InMemoryLogStore).GetLastIndex = 1 ∧
      ({ entries := [entry2] } : InMemoryLogStore).Get 2 = none ∧
      ({ entries := [entry2] } : InMemoryLogStore).Get 1 = some entry2 ∧ entry2.Index = 2 := by
  refine ⟨?_, by decide, by decide, by decide, by decide, by decide, by decide⟩
  intro i e h
  match i, h with
  | 0, h => simp [storeWithTwo] at h; rw [← h]; rfl
  | 1, h => simp [storeWithTwo] at h; rw [← h]; rfl
  | (k + 2), h => simp [storeWithTwo] at h

/-- C23: `GetQuorum()` is `v / 2 + 1` for `v` the number of members that are
voter and alive; a member of another role or status does not change it;
`AddMember` replaces any member with the same ID, so afterwards the count is
the count without that ID plus one if the new member is an alive voter;
`RemoveMember` leaves the members with other IDs. -/
theorem GetQuorum_spec (m : MembershipManager) (x : Member) (nodeID : String) :
    m.GetQuorum =
        (m.members.countP (fun y => y.Role = MemberRole.MemberRoleVoter ∧
          y.Status = MemberStatus.MemberStatusAlive)) / 2 + 1 ∧
      (m.AddMember x).aliveVoters =
        (m.RemoveMember x.ID).aliveVoters +
          (if x.Role = MemberRole.MemberRoleVoter ∧ x.Status = MemberStatus.MemberStatusAlive
            then 1 else 0) ∧
      (¬ (x.Role = MemberRole.MemberRoleVoter ∧ x.Status = MemberStatus.MemberStatusAlive) →
        (m.AddMember x).GetQuorum = (m.RemoveMember x.ID).GetQuorum) ∧
      (x ∈ (m.AddMember x).members ∧ ∀ y ∈ (m.AddMember x).members, y.ID = x.ID → y = x) ∧
      (∀ y, y ∈ (m.RemoveMember nodeID).members ↔ y ∈ m.members ∧ y.ID ≠ nodeID) ∧
      (m.RemoveMember nodeID).aliveVoters =
        m.members.countP (fun y => (y.Role = MemberRole.MemberRoleVoter ∧
          y.Status = MemberStatus.MemberStatusAlive) ∧ y.ID ≠ nodeID) := by
  have hadd : (m.AddMember x).aliveVoters =
      (m.RemoveMember x.ID).aliveVoters +
        (if x.Role = MemberRole.MemberRoleVoter ∧ x.Status = MemberStatus.MemberStatusAlive
          then 1 else 0) := by
    simp only [MembershipManager.aliveVoters, MembershipManager.AddMember,
      MembershipManager.RemoveMember, List.filter_append, List.length_append]
    congr 1
    split_ifs with hx
    · simp [List.filter_cons, hx]
    · simp [List.filter_cons, hx]
  refine ⟨?_, hadd, ?_, ⟨?_, ?_⟩, ?_, ?_⟩
  · simp only [MembershipManager.GetQuorum, MembershipManager.aliveVoters, List.countP_eq_length_filter]
  · intro hx
    simp only [MembershipManager.GetQuorum, hadd, if_neg hx, Nat.add_zero]
  · simp [MembershipManager.AddMember]
  · intro y hy hid
    simp only [MembershipManager.AddMember, List.mem_append, List.mem_filter,
      List.mem_singleton] at hy
    rcases hy with hy | hy
    · simp [hid] at hy
    · exact hy
  · intro y
    simp [MembershipManager.RemoveMember]
  · simp only [MembershipManager.aliveVoters, MembershipManager.RemoveMember,
      List.countP_eq_length_filter, List.filter_filter]
    congr 1
    apply List.filter_congr
    intro y _
    simp [Bool.and_comm]

/-- C30: `GetQuorum()` is at least 1 and more than half of the alive voters,
it does not exceed their number when there is one, and two sets of alive
voters that both have quorum size share a member. -/
theorem quorum_majority (m : MembershipManager) (A B : Finset Member) :
    1 ≤ m.GetQuorum ∧ 2 * m.GetQuorum > m.aliveVoters ∧
      (m.aliveVoters ≥ 1 → m.GetQuorum ≤ m.aliveVoters) ∧
      (A ⊆ m.aliveVoterSet → B ⊆ m.aliveVoterSet → m.GetQuorum ≤ A.card →
        m.GetQuorum ≤ B.card → (A ∩ B).Nonempty) := by
  unfold MembershipManager.GetQuorum
  refine ⟨by omega, by omega, fun _ => by omega, ?_⟩
  intro hA hB hqA hqB
  by_contra hne
  rw [Finset.not_nonempty_iff_eq_empty] at hne
  have hdis : Disjoint A B := Finset.disjoint_iff_inter_eq_empty.mpr hne
  have hcard := Finset.card_union_of_disjoint hdis
  have hsub : (A ∪ B).card ≤ m.aliveVoterSet.card :=
    Finset.card_le_card (Finset.union_subset hA hB)
  have hle : m.aliveVoterSet.card ≤ m.aliveVoters := by
    unfold MembershipManager.aliveVoterSet MembershipManager.aliveVoters
    exact List.toFinset_card_le _
  omega


/-- Witness of C30: in the table with alive voters `a`, `b`, `c` the sets
`a, b` and `b, c` have quorum size and share `b`. -/
theorem quorum_majority_witness :
    mixedMembers.GetQuorum = 2 ∧ mixedMembers.aliveVoters = 3 ∧
      ((mixedMembers.aliveVoterSet.filter (fun x => x.ID ≠ "c")) ∩
        (mixedMembers.aliveVoterSet.filter (fun x => x.ID ≠ "a"))).Nonempty :=
  ⟨by decide, by decide,
    (quorum_majority mixedMembers (mixedMembers.aliveVoterSet.filter (fun x => x.ID ≠ "c"))
      (mixedMembers.aliveVoterSet.filter (fun x => x.ID ≠ "a"))).2.2.2
      (Finset.filter_subset _ _) (Finset.filter_subset _ _) (by decide) (by decide)⟩

/-! ## Claims about a single node, the state machine and the timeout -/

/-- C24, as amended: for every configuration with a positive
`HeartbeatInterval` the node `NewRaftNode` returns is a follower in term 0 with
an empty log, empty `votedFor` and quorum 1; one `startElection` without peers
makes it leader in term 1 and its heartbeat goroutine starts; a `Propose` that
follows returns no error, sets `commitIndex` and `lastApplied` to 1 and calls
`Apply` on the entry carrying the command. -/
theorem single_node_commits (config : ConsensusConfig) (sm : List SMCall) (now now1 : Nat)
    (command : Command) (hb : 0 < config.HeartbeatInterval) :
    (NewRaftNode config sm now).state = NodeState.StateFollower ∧
      (NewRaftNode config sm now).currentTerm = 0 ∧
      (NewRaftNode config sm now).log.entries = [] ∧
      (NewRaftNode config sm now).votedFor = "" ∧
      (NewRaftNode config sm now).membership.GetQuorum = 1 ∧
      ∃ leader, (NewRaftNode config sm now).startElection [] = some leader ∧
        leader.state = NodeState.StateLeader ∧
        leader.leader = config.NodeID ∧
        leader.currentTerm = 1 ∧
        (leader.ProposeResponses command now1 []).2 = none ∧
        (leader.ProposeResponses command now1 []).1.commitIndex = 1 ∧
        (leader.ProposeResponses command now1 []).1.lastApplied = 1 ∧
        (leader.ProposeResponses command now1 []).1.stateMachine =
          sm ++ [SMCall.Apply
            { Index := 1, Term := 1, Command := command, Timestamp := now1 }] := by
  have hq : (NewRaftNode config sm now).membership.GetQuorum = 1 := by
    simp [RaftNode.NewRaftNode, MembershipManager.GetQuorum, MembershipManager.aliveVoters,
      MembershipManager.AddMember, MembershipManager.NewMembershipManager]
  have hq1 : (NewRaftNode config sm now).startElectionBegin.1.membership.GetQuorum = 1 := hq
  have hw : wrap64 1 = 1 := by decide
  have hel : (NewRaftNode config sm now).startElectionResponses [] =
      { (NewRaftNode config sm now) with
          currentTerm := 1, state := NodeState.StateLeader, votedFor := config.NodeID
          leader := config.NodeID } := by
    simp only [RaftNode.startElectionResponses, RaftNode.startElectionFinish, hq1]
    simp [RaftNode.startElectionBegin, RaftNode.NewRaftNode, hw]
  have hlaunch : (NewRaftNode config sm now).startElection [] ≠ none := by
    intro hn
    have := ((startElection_launch (NewRaftNode config sm now) []).1.mp hn).2
    have hc : (NewRaftNode config sm now).config = config := rfl
    rw [hc] at this
    omega
  refine ⟨rfl, rfl, rfl, rfl, hq, _, (startElection_launch _ []).2 hlaunch, ?_⟩
  rw [hel]
  refine ⟨rfl, rfl, rfl, ?_, ?_, ?_, ?_⟩
  all_goals
    simp only [RaftNode.ProposeResponses, RaftNode.Propose, RaftNode.proposeFinish,
      RaftNode.proposeAppend]
    simp [hq, RaftNode.proposeEntry, RaftNode.NewRaftNode, InMemoryLogStore.GetLastIndex,
      InMemoryLogStore.Append, MembershipManager.GetQuorum, MembershipManager.aliveVoters,
      MembershipManager.AddMember, MembershipManager.NewMembershipManager]

/-- Witness of C24 as amended, at the configuration of `main`. -/
theorem single_node_commits_witness :
    0 < (mainConfig "n1").HeartbeatInterval ∧
      ∃ leader, (NewRaftNode (mainConfig "n1") [] 0).startElection [] = some leader ∧
        leader.state = NodeState.StateLeader ∧
        leader.leader = (mainConfig "n1").NodeID ∧
        leader.currentTerm = 1 ∧
        (leader.ProposeResponses (Command.text "set x=1") 5 []).2 = none ∧
        (leader.ProposeResponses (Command.text "set x=1") 5 []).1.commitIndex = 1 ∧
        (leader.ProposeResponses (Command.text "set x=1") 5 []).1.lastApplied = 1 ∧
        (leader.ProposeResponses (Command.text "set x=1") 5 []).1.stateMachine =
          [] ++ [SMCall.Apply
            { Index := 1, Term := 1, Command := Command.text "set x=1", Timestamp := 5 }] :=
  ⟨by decide,
    (single_node_commits (mainConfig "n1") [] 0 5 (Command.text "set x=1") (by decide)).2.2.2.2.2⟩

/-- C24 as written fails: with the zero configuration the single node
collects its quorum of one vote, becomes leader and launches `sendHeartbeats`,
whose `time.NewTicker(0)` panics: the process ends before any `Propose`. -/
theorem single_node_counterexample :
    zeroConfigNode.config.HeartbeatInterval = 0 ∧
      zeroConfigNode.membership.GetQuorum = 1 ∧
      (zeroConfigNode.startElectionResponses []).state = NodeState.StateLeader ∧
      zeroConfigNode.startElection [] = none := by
  decide
/-- C25 fails on the code: `RestoreSnapshot` never reads the bytes.  Restoring
from the snapshot of the state machine that holds `x=1` and `y=2` gives the
empty state. -/
theorem RestoreSnapshot_loses_state :
    kvWithTwo.CreateSnapshot = [120, 61, 49, 10, 121, 61, 50, 10] ∧
      (KVStateMachine.NewKVStateMachine.RestoreSnapshot kvWithTwo.CreateSnapshot).GetState
        = [] ∧
      kvWithTwo.GetState = [("x", "1"), ("y", "2")] ∧
      (∀ (kv : KVStateMachine) (data : List Nat), (kv.RestoreSnapshot data).GetState = []) :=
  ⟨by decide, by decide, by decide, fun _ _ => rfl⟩

theorem setKey_valueOf (kv : KVStateMachine) (k v j : String) :
    (kv.setKey k v).valueOf j = if j = k then some v else kv.valueOf j := by
  unfold KVStateMachine.setKey KVStateMachine.valueOf KVStateMachine.GetState
  simp only
  induction kv.data with
  | nil =>
    simp only [List.filter_nil, List.nil_append, List.lookup]
    split_ifs with h
    · simp [h]
    · have : (j == k) = false := by simpa using h
      simp [this, List.lookup]
  | cons p t ih =>
    by_cases hp : p.1 = k
    · simp only [List.filter_cons, hp, ne_eq, not_true_eq_false, decide_False,
        Bool.false_eq_true, if_false]
      rw [ih]
      by_cases hj : j = k
      · simp [hj]
      · have : (j == p.1) = false := by rw [hp]; simpa using hj
        simp [hj, List.lookup, this]
    · simp only [List.filter_cons, hp, ne_eq, not_false_eq_true, decide_True, if_true,
        List.cons_append]
      by_cases hjp : j = p.1
      · have hjk : j ≠ k := by rw [hjp]; exact hp
        simp [List.lookup, hjp, hjk]
        rw [← hjp]
        simp [hjk]
      · have : (j == p.1) = false := by simpa using hjp
        simp only [List.lookup, this]
        exact ih

/-- C26, as amended: applying an entry whose command is the map
`{"key":"x","value":"1"}` stores the two pairs of the map as they are:
afterwards `GetState()` maps `key` to `x` and `value` to `1`, and every other
key, `x` included, to what it was mapped before. -/
theorem Apply_stores_pairs (kv : KVStateMachine) (entry : LogEntry)
    (h : entry.Command = commandKeyX) :
    (kv.Apply entry).valueOf "key" = some "x" ∧ (kv.Apply entry).valueOf "value" = some "1" ∧
      ∀ j : String, j ≠ "key" → j ≠ "value" → (kv.Apply entry).valueOf j = kv.valueOf j := by
  have happ : kv.Apply entry = (kv.setKey "key" "x").setKey "value" "1" := by
    simp [KVStateMachine.Apply, h, commandKeyX]
  rw [happ]
  refine ⟨?_, ?_, ?_⟩
  · rw [setKey_valueOf, setKey_valueOf]
    simp
  · rw [setKey_valueOf]
    simp
  · intro j h1 h2
    rw [setKey_valueOf, setKey_valueOf]
    simp [h1, h2]

/-- Witness of C26 as amended, on the empty state machine. -/
theorem Apply_stores_pairs_witness :
    (⟨1, 1, commandKeyX, 0⟩ : LogEntry).Command = commandKeyX ∧
      (KVStateMachine.NewKVStateMachine.Apply ⟨1, 1, commandKeyX, 0⟩).GetState =
        [("key", "x"), ("value", "1")] ∧
      (KVStateMachine.NewKVStateMachine.Apply ⟨1, 1, commandKeyX, 0⟩).valueOf "key" =
        some "x" ∧
      (KVStateMachine.NewKVStateMachine.Apply ⟨1, 1, commandKeyX, 0⟩).valueOf "value" =
        some "1" :=
  ⟨rfl, by decide,
    (Apply_stores_pairs KVStateMachine.NewKVStateMachine ⟨1, 1, commandKeyX, 0⟩ rfl).1,
    (Apply_stores_pairs KVStateMachine.NewKVStateMachine ⟨1, 1, commandKeyX, 0⟩ rfl).2.1⟩

/-- C26 as written fails: after the empty state machine applied the entry
with command `{"key":"x","value":"1"}`, `GetState()` has no value for the key
`x`. -/
theorem Apply_counterexample :
    (KVStateMachine.NewKVStateMachine.Apply ⟨1, 1, commandKeyX, 0⟩).valueOf "x" = none ∧
      (KVStateMachine.NewKVStateMachine.Apply ⟨1, 1, commandKeyX, 0⟩).valueOf "x" ≠
        some "1" := by
  decide

/-- What `randomElectionTimeout` returns when the two bounds differ: for
`0 ≤ ElectionTimeoutMin < ElectionTimeoutMax < 2^63` it does not panic and the
duration lies in `ElectionTimeoutMin .. ElectionTimeoutMax - 1`. -/
theorem randomElectionTimeout_in_range (n : RaftNode) (draw : Nat)
    (h0 : 0 ≤ n.config.ElectionTimeoutMin)
    (h1 : n.config.ElectionTimeoutMin < n.config.ElectionTimeoutMax)
    (h2 : n.config.ElectionTimeoutMax < 2 ^ 63) :
    ∃ d, n.randomElectionTimeout draw = some d ∧ n.config.ElectionTimeoutMin ≤ d ∧
      d < n.config.ElectionTimeoutMax := by
  have hw : ∀ x : Int, 0 ≤ x → x < 2 ^ 63 → wrap64 x = x := by
    intro x hx0 hx1
    unfold wrap64
    omega
  have hk : wrap64 (n.config.ElectionTimeoutMax - n.config.ElectionTimeoutMin) =
      n.config.ElectionTimeoutMax - n.config.ElectionTimeoutMin := hw _ (by omega) (by omega)
  have hpos : 0 < n.config.ElectionTimeoutMax - n.config.ElectionTimeoutMin := by omega
  have hr0 := Int.emod_nonneg (draw : Int) (ne_of_gt hpos)
  have hr1 := Int.emod_lt_of_pos (draw : Int) hpos
  refine ⟨n.config.ElectionTimeoutMin +
    (draw : Int) % (n.config.ElectionTimeoutMax - n.config.ElectionTimeoutMin), ?_, ?_, ?_⟩
  · unfold RaftNode.randomElectionTimeout Int63n
    rw [hk, if_neg (by omega)]
    simp only
    rw [hw _ (by omega) (by omega)]
  · omega
  · omega

/-- C27 fails on the code: with both election timeouts at 150 ms
`rand.Int63n` is called with 0 and panics, whatever the draw; with the 150 ms
and 300 ms of `main` a duration is returned. -/
theorem randomElectionTimeout_panics :
    fixedTimeoutNode.config.ElectionTimeoutMin ≤ fixedTimeoutNode.config.ElectionTimeoutMax ∧
      fixedTimeoutNode.randomElectionTimeout 0 = none ∧
      fixedTimeoutNode.randomElectionTimeout 5 = none ∧
      (∀ draw, fixedTimeoutNode.randomElectionTimeout draw = none) ∧
      (RaftNode.NewRaftNode (mainConfig "n1") [] 0).randomElectionTimeout 5 =
        some 150000005 :=
  ⟨by decide, by decide, by decide, fun _ => rfl, by decide⟩

/-- C29: in every node state a freshly created node reaches by `RequestVote`,
`AppendEntries` and `InstallSnapshot` requests, election starts and ends,
`Propose` calls and membership changes, each run as one step, `lastApplied`
equals `commitIndex` and `commitIndex` is at most the last log index. -/
theorem markers_invariant (n : RaftNode) (h : Reachable n) :
    n.lastApplied = n.commitIndex ∧ n.commitIndex ≤ n.log.GetLastIndex := by
  obtain ⟨h1, _, h3⟩ := reachable_nodeInv h
  exact ⟨h1, h3⟩

/-- Witness of C29 at the node holding two uncommitted entries. -/
theorem markers_invariant_witness :
    Reachable nodeWithTwo ∧ nodeWithTwo.commitIndex = 0 ∧ nodeWithTwo.log.GetLastIndex = 2 ∧
      nodeWithTwo.lastApplied = nodeWithTwo.commitIndex ∧
      nodeWithTwo.commitIndex ≤ nodeWithTwo.log.GetLastIndex :=
  ⟨Reachable.step _ (NodeOp.appendEntries _) (Reachable.init _ _ _), by decide, by decide,
    markers_invariant nodeWithTwo
      (Reachable.step _ (NodeOp.appendEntries _) (Reachable.init _ _ _))⟩

end Raft

/-! # Properties of the anagram task -/

namespace Anagram

theorem countRunes_apply (l : List Char) : ∀ (counts : Char → Int) (r : Char),
    countRunes l counts r = counts r + (l.count r : Int) := by
  induction l with
  | nil => intro counts r; simp [countRunes]
  | cons a rest ih =>
    intro counts r
    rw [countRunes, ih]
    by_cases h : r = a
    · subst h
      simp only [Function.update_same, List.count_cons_self]
      push_cast
      omega
    · simp only [Function.update_noteq h, List.count_cons_of_ne h]

theorem spendRunes_iff (l : List Char) : ∀ (counts : Char → Int),
    spendRunes l counts = true ↔ ∀ r ∈ l, (l.count r : Int) ≤ counts r := by
  induction l with
  | nil => intro counts; simp [spendRunes]
  | cons a rest ih =>
    intro counts
    rw [spendRunes]
    simp only [Function.update_same]
    split_ifs with hneg
    · simp only [Bool.false_eq_true, false_iff]
      intro hall
      have := hall a (List.mem_cons_self _ _)
      rw [List.count_cons_self] at this
      push_cast at this
      omega
    · rw [ih]
      constructor
      · intro h r hr
        by_cases hra : r = a
        · subst hra
          rw [List.count_cons_self]
          push_cast
          by_cases hin : r ∈ rest
          · have := h r hin
            simp only [Function.update_same] at this
            omega
          · rw [List.count_eq_zero_of_not_mem hin]
            push_cast
            omega
        · have hin : r ∈ rest := by
            rcases List.mem_cons.mp hr with h1 | h1
            · exact absurd h1 hra
            · exact h1
          have := h r hin
          rw [Function.update_noteq hra] at this
          rw [List.count_cons_of_ne hra]
          exact this
      · intro h r hr
        have := h r (List.mem_cons_of_mem _ hr)
        by_cases hra : r = a
        · subst hra
          rw [List.count_cons_self] at this
          push_cast at this
          simp only [Function.update_same]
          omega
        · rw [List.count_cons_of_ne hra] at this
          rw [Function.update_noteq hra]
          exact this

theorem utf8ByteSize_eq (s : String) : s.utf8ByteSize = byteSize s.toList := by
  have h : ∀ l : List Char, String.utf8ByteSize.go l = byteSize l := by
    intro l
    induction l with
    | nil => rfl
    | cons a t ih =>
      simp only [String.utf8ByteSize.go, ih, byteSize, List.map_cons, List.sum_cons]
      omega
  cases s with
  | mk l => exact h l

theorem byteSize_sublist {l s : List Char} (h : l.Sublist s) :
    byteSize l ≤ byteSize s ∧ (byteSize s ≤ byteSize l → l = s) := by
  induction h with
  | slnil => exact ⟨le_refl _, fun _ => rfl⟩
  | cons a _ ih =>
    have hp := Char.utf8Size_pos a
    simp only [byteSize, List.map_cons, List.sum_cons] at ih ⊢
    exact ⟨by omega, fun hh => by omega⟩
  | cons₂ a _ ih =>
    simp only [byteSize, List.map_cons, List.sum_cons] at ih ⊢
    refine ⟨by omega, fun hh => ?_⟩
    rw [ih.2 (by omega)]

theorem byteSize_perm {l s : List Char} (h : l.Perm s) : byteSize l = byteSize s := by
  unfold byteSize
  exact (h.map _).sum_eq

/-- C28: `isAnagram s t` is `true` exactly when `t` is a rearrangement of the
characters of `s`, that is, when every character occurs as often in `s` as in
`t`.  This holds for all strings, those of Latin and Cyrillic letters
included; the two calls of `main` named in the task give `true` and `false`. -/
theorem isAnagram_iff (s t : String) :
    (isAnagram s t = true ↔ ∀ c : Char, s.toList.count c = t.toList.count c) ∧
      (isAnagram s t = true ↔ s.toList.Perm t.toList) ∧
      isAnagram "anagram" "nagaram" = true ∧ isAnagram "кит" "ток" = false := by
  have key : isAnagram s t = true ↔ s.toList.Perm t.toList := by
    unfold isAnagram
    rw [utf8ByteSize_eq, utf8ByteSize_eq]
    constructor
    · intro h
      split_ifs at h with hlen
      have hlen1 : byteSize s.toList = byteSize t.toList := by
        by_contra hc
        exact hlen hc
      rw [spendRunes_iff] at h
      have hsub : t.toList.Subperm s.toList := by
        rw [List.subperm_ext_iff]
        intro x hx
        have := h x hx
        rw [countRunes_apply] at this
        omega
      obtain ⟨l, hl, hls⟩ := hsub
      have := (byteSize_sublist hls).2 (by rw [byteSize_perm hl, hlen1])
      rw [this] at hl
      exact hl
    · intro hp
      rw [if_neg (by rw [byteSize_perm hp]; simp)]
      rw [spendRunes_iff]
      intro r _
      rw [countRunes_apply, hp.count_eq]
      simp
  refine ⟨?_, key, by decide, by decide⟩
  rw [key, List.perm_iff_count]

end Anagram
